import Mathlib

/-!
Verification of the virtual-memory subsystem of the rCore lab-2 kernel
(`os4`): address arithmetic (`mm/address.rs`), the stack frame allocator
(`mm/frame_allocator.rs`), the SV39 three-level page table
(`mm/page_table.rs`), the address-space layer (`mm/memory_set.rs`) and the
`sys_mmap`/`sys_munmap` syscalls (`syscall/process.rs`).

Machine integers (`usize` on the rv64 target) are modelled as `Nat` with an
explicit `% 2 ^ 64` wherever the Rust release-profile wrapping arithmetic can
overflow.  Panics (`panic!`, `assert!`, `unwrap`) are modelled by `Option`:
`none` is a panic.  Physical memory is modelled as two views of each physical
page — a 512-entry page-table-entry array (`get_pte_array`) and a 4096-byte
array (`get_bytes_array`); the kernel only ever uses one view per frame
(frames holding page-table nodes are disjoint from data frames), so the two
views are carried as separate fields.
-/

namespace Os4


/-- Page size in bytes (`config.rs`: `PAGE_SIZE`, quoted in the spec §3). -/
def PAGE_SIZE : Nat := 4096

/-- Page-offset width in bits (`config.rs`: `PAGE_SIZE_BITS`). -/
def PAGE_SIZE_BITS : Nat := 12

/-- One past the largest `usize` value: 64-bit arithmetic wraps at this
modulus. -/
def USIZE : Nat := 2 ^ 64

/-! ## mm/address.rs -/

/-- `PhysAddr::floor`: `PhysPageNum(self.0 / PAGE_SIZE)`. -/
def PhysAddr.floor (a : Nat) : Nat := a / PAGE_SIZE

/-- `PhysAddr::ceil`: `PhysPageNum((self.0 - 1 + PAGE_SIZE) / PAGE_SIZE)`.
The `usize` `- 1` and `+ PAGE_SIZE` wrap at `2 ^ 64` (release profile), so
they are modelled by adding `USIZE - 1` and reducing mod `USIZE` at each
step. -/
def PhysAddr.ceil (a : Nat) : Nat :=
  ((a + (USIZE - 1)) % USIZE + PAGE_SIZE) % USIZE / PAGE_SIZE

/-- `PhysAddr::page_offset`: `self.0 & (PAGE_SIZE - 1)`. -/
def PhysAddr.page_offset (a : Nat) : Nat := a &&& (PAGE_SIZE - 1)

/-- `PhysAddr::aligned`: `self.page_offset() == 0`. -/
def PhysAddr.aligned (a : Nat) : Bool := PhysAddr.page_offset a == 0

/-- `VirtAddr::floor`. -/
def VirtAddr.floor (a : Nat) : Nat := a / PAGE_SIZE

/-- `VirtAddr::ceil` (same wrapping expression as `PhysAddr::ceil`). -/
def VirtAddr.ceil (a : Nat) : Nat :=
  ((a + (USIZE - 1)) % USIZE + PAGE_SIZE) % USIZE / PAGE_SIZE

/-- `VirtAddr::page_offset`. -/
def VirtAddr.page_offset (a : Nat) : Nat := a &&& (PAGE_SIZE - 1)

/-- `VirtAddr::aligned`. -/
def VirtAddr.aligned (a : Nat) : Bool := VirtAddr.page_offset a == 0

/-- `impl From<PhysPageNum> for PhysAddr`: `Self(v.0 << PAGE_SIZE_BITS)`
(wrapping shift on `usize`). -/
def PhysAddr.fromPpn (p : Nat) : Nat := (p <<< PAGE_SIZE_BITS) % USIZE

/-- `impl From<VirtPageNum> for VirtAddr`: `Self(v.0 << PAGE_SIZE_BITS)`. -/
def VirtAddr.fromVpn (p : Nat) : Nat := (p <<< PAGE_SIZE_BITS) % USIZE

/-- `impl From<PhysAddr> for PhysPageNum`: asserts `page_offset == 0`
(panic modelled as `none`), then `floor`. -/
def PhysPageNum.fromPa (a : Nat) : Option Nat :=
  if PhysAddr.aligned a then some (PhysAddr.floor a) else none

/-- `impl From<VirtAddr> for VirtPageNum`: asserts alignment, then `floor`. -/
def VirtPageNum.fromVa (a : Nat) : Option Nat :=
  if VirtAddr.aligned a then some (VirtAddr.floor a) else none

/-- `VirtPageNum::indexes`: the three 9-bit level indices.  The source fills
`index[i] = vpn & 511; vpn >>= 9` for `i = 2, 1, 0`, so index 0 is the most
significant group. -/
def VirtPageNum.indexes (vpn : Nat) : Nat × Nat × Nat :=
  (vpn >>> 18 &&& 511, vpn >>> 9 &&& 511, vpn &&& 511)

/-! ## mm/frame_allocator.rs -/

/-- `StackFrameAllocator`: `current`/`end` delimit the never-issued region,
`recycled` is the stack of returned page numbers.  The Rust `Vec` pushes and
pops at its back; the model's list keeps the top of the stack at its head
(`push` is cons, `pop` takes the head), which is the same stack. -/
structure StackFrameAllocator where
  current : Nat
  ends : Nat
  recycled : List Nat
deriving Repr, DecidableEq

/-- `StackFrameAllocator::new()` followed by `init(l, r)`: `new` zeroes all
fields (so `recycled = []`), `init` sets `current = l.0, end = r.0`. -/
def StackFrameAllocator.init (l r : Nat) : StackFrameAllocator := ⟨l, r, []⟩

/-- `StackFrameAllocator::alloc`: pop the recycled stack if non-empty;
otherwise take `current` unless `current == end`, which signals
exhaustion. -/
def StackFrameAllocator.alloc (s : StackFrameAllocator) :
    Option (Nat × StackFrameAllocator) :=
  match s.recycled with
  | ppn :: rest => some (ppn, ⟨s.current, s.ends, rest⟩)
  | [] =>
    if s.current = s.ends then none
    else some (s.current, ⟨s.current + 1, s.ends, []⟩)

/-- `StackFrameAllocator::dealloc`: panics (`none`) when `ppn >= current` or
`ppn` is already on the recycled stack (`recycled.iter().any(|v| *v == ppn)`);
otherwise pushes `ppn`. -/
def StackFrameAllocator.dealloc (s : StackFrameAllocator) (ppn : Nat) :
    Option StackFrameAllocator :=
  if s.current ≤ ppn || s.recycled.any (fun v => v == ppn) then none
  else some ⟨s.current, s.ends, ppn :: s.recycled⟩

/-- A call against the allocator: `alloc()` or `dealloc(p)`. -/
inductive AllocOp where
  | opAlloc : AllocOp
  | opDealloc : Nat → AllocOp
deriving Repr, DecidableEq

/-- Run a sequence of allocator calls.  A fatal `dealloc` aborts the run
(`none`); `alloc` returning the absence signal is not fatal — the caller
simply receives no page.  The second component collects every page number
`alloc` returned, in order. -/
def runAllocOps : List AllocOp → StackFrameAllocator →
    Option (StackFrameAllocator × List Nat)
  | [], s => some (s, [])
  | AllocOp.opAlloc :: ops, s =>
    match s.alloc with
    | some (p, s') => (runAllocOps ops s').map (fun r => (r.1, p :: r.2))
    | none => runAllocOps ops s
  | AllocOp.opDealloc p :: ops, s => (s.dealloc p).bind (runAllocOps ops)

/-- The range invariant maintained by a well-used allocator over `[l, r)`. -/
def AllocWF (l r : Nat) (s : StackFrameAllocator) : Prop :=
  l ≤ s.current ∧ s.current ≤ r ∧ s.ends = r ∧
    ∀ p ∈ s.recycled, l ≤ p ∧ p < s.current

/-! ## mm/page_table.rs : entries -/

/-- `PageTableEntry::new(ppn, flags)`: bits `ppn.0 << 10 | flags.bits`
(`flags.bits : u8`); the shift is a wrapping `usize` shift. -/
def PageTableEntry.new (ppn flags : Nat) : Nat := (ppn <<< 10 ||| flags) % USIZE

/-- `PageTableEntry::empty()`: all-zero bits, Valid clear. -/
def PageTableEntry.empty : Nat := 0

/-- `PageTableEntry::ppn()`: `bits >> 10 & ((1 << 44) - 1)`. -/
def PageTableEntry.ppn (b : Nat) : Nat := b >>> 10 &&& (2 ^ 44 - 1)

/-- `PageTableEntry::flags()`: `bits as u8` (all 8 flag bits are named, so
`from_bits` never fails). -/
def PageTableEntry.flags (b : Nat) : Nat := b % 2 ^ 8

/-- `PageTableEntry::is_valid()`: `flags & V != empty` with `V = 1 << 0`. -/
def PageTableEntry.is_valid (b : Nat) : Bool :=
  PageTableEntry.flags b &&& 1 != 0

/-- `PageTableEntry::readable()`: `R = 1 << 1`. -/
def PageTableEntry.readable (b : Nat) : Bool :=
  PageTableEntry.flags b &&& 2 != 0

/-- `PageTableEntry::writable()`: `W = 1 << 2`. -/
def PageTableEntry.writable (b : Nat) : Bool :=
  PageTableEntry.flags b &&& 4 != 0

/-- `PageTableEntry::executable()`: `X = 1 << 3`. -/
def PageTableEntry.executable (b : Nat) : Bool :=
  PageTableEntry.flags b &&& 8 != 0

/-- The U flag of an entry (`PTEFlags::U = 1 << 4`). -/
def PageTableEntry.userFlag (b : Nat) : Bool :=
  PageTableEntry.flags b &&& 16 != 0

/-! ## The machine state -/

/-- The state the paging code acts on: `mem` is the page-table-entry view of
physical memory (`PhysPageNum::get_pte_array()`: `mem ppn i` is entry `i` of
page `ppn`), `bts` the byte view (`get_bytes_array()`: `bts ppn j` is byte
`j`), and `fa` the global `FRAME_ALLOCATOR`. -/
structure MachineState where
  mem : Nat → Nat → Nat
  bts : Nat → Nat → Nat
  fa : StackFrameAllocator

/-- Store one page-table entry through `get_pte_array`. -/
def writePte (s : MachineState) (p i v : Nat) : MachineState :=
  ⟨fun q j => if q = p ∧ j = i then v else s.mem q j, s.bts, s.fa⟩

/-- `FrameTracker::new`: zero-fill the page (the byte loop clears the whole
physical page, hence both views of it). -/
def zeroPage (s : MachineState) (p : Nat) : MachineState :=
  ⟨fun q j => if q = p then 0 else s.mem q j,
    fun q j => if q = p then 0 else s.bts q j, s.fa⟩

/-- `frame_alloc()`: allocate from the global allocator, wrap in a
`FrameTracker` (which zero-fills the page). -/
def frameAlloc (s : MachineState) : Option (Nat × MachineState) :=
  s.fa.alloc.map fun pr => (pr.1, zeroPage ⟨s.mem, s.bts, pr.2⟩ pr.1)

/-- `frame_dealloc(ppn)`, invoked by `FrameTracker::drop`. -/
def frameDealloc (s : MachineState) (p : Nat) : Option MachineState :=
  (s.fa.dealloc p).map fun fa' => ⟨s.mem, s.bts, fa'⟩

/-! ## mm/page_table.rs : the table -/

/-- `PageTable::new()`: allocate (and zero) the root node; the returned page
number is `root_ppn`.  The RAII `frames` vector only keeps the node frames
alive and is not modelled. -/
def PageTable.new (s : MachineState) : Option (Nat × MachineState) :=
  frameAlloc s

/-- `PageTable::from_token(satp)`: `root_ppn` = low 44 bits of the token. -/
def PageTable.from_token (satp : Nat) : Nat := satp &&& (2 ^ 44 - 1)

/-- `PageTable::token()`: `8usize << 60 | self.root_ppn.0`. -/
def PageTable.token (root : Nat) : Nat := 8 <<< 60 ||| root

/-- `PageTable::find_pte(vpn)`: the read-only three-level walk.  Levels 0
and 1 abort on an invalid entry; the level-2 entry is returned whatever its
validity. -/
def PageTable.find_pte (s : MachineState) (root vpn : Nat) : Option Nat :=
  let i := VirtPageNum.indexes vpn
  let e0 := s.mem root i.1
  if PageTableEntry.is_valid e0 then
    let e1 := s.mem (PageTableEntry.ppn e0) i.2.1
    if PageTableEntry.is_valid e1 then
      some (s.mem (PageTableEntry.ppn e1) i.2.2)
    else none
  else none

/-- One level-0/1 step of `find_pte_create`: if the indexed entry is not
valid, allocate a fresh zeroed node, install `PageTableEntry::new(frame.ppn,
V)`; in both cases step to `pte.ppn()` of the (possibly updated) entry. -/
def PageTable.walkStep (s : MachineState) (node i : Nat) :
    Option (MachineState × Nat) :=
  if PageTableEntry.is_valid (s.mem node i) then
    some (s, PageTableEntry.ppn (s.mem node i))
  else
    (frameAlloc s).map fun fr =>
      let s1 := writePte fr.2 node i (PageTableEntry.new fr.1 1)
      (s1, PageTableEntry.ppn (s1.mem node i))

/-- `PageTable::find_pte_create(vpn)`: the possibly-extending walk; returns
the new state and the location (node page, index) of the level-2 entry. -/
def PageTable.find_pte_create (s : MachineState) (root vpn : Nat) :
    Option (MachineState × Nat × Nat) :=
  let i := VirtPageNum.indexes vpn
  (PageTable.walkStep s root i.1).bind fun r1 =>
    (PageTable.walkStep r1.1 r1.2 i.2.1).map fun r2 => (r2.1, r2.2, i.2.2)

/-- `PageTable::map(vpn, ppn, flags)`: find-or-create the leaf entry, assert
it is not valid (`assert!` panic modelled as `none`), then store
`PageTableEntry::new(ppn, flags | V)`. -/
def PageTable.map (s : MachineState) (root vpn ppn flags : Nat) :
    Option MachineState :=
  (PageTable.find_pte_create s root vpn).bind fun r =>
    if PageTableEntry.is_valid (r.1.mem r.2.1 r.2.2) then none
    else some (writePte r.1 r.2.1 r.2.2 (PageTableEntry.new ppn (flags ||| 1)))

/-- `PageTable::unmap(vpn)`: find-or-create the leaf entry, assert it is
valid, clear it to `PageTableEntry::empty()`. -/
def PageTable.unmap (s : MachineState) (root vpn : Nat) : Option MachineState :=
  (PageTable.find_pte_create s root vpn).bind fun r =>
    if PageTableEntry.is_valid (r.1.mem r.2.1 r.2.2) then
      some (writePte r.1 r.2.1 r.2.2 PageTableEntry.empty)
    else none

/-- `PageTable::translate(vpn)`: a copy of the entry found by `find_pte`. -/
def PageTable.translate (s : MachineState) (root vpn : Nat) : Option Nat :=
  PageTable.find_pte s root vpn

/-- `true` when the leaf entry for `vpn` is absent in the semantic sense:
`find_pte` finds nothing, or finds an entry whose Valid bit is clear. -/
def absentPte (s : MachineState) (root vpn : Nat) : Bool :=
  match PageTable.find_pte s root vpn with
  | none => true
  | some e => ! PageTableEntry.is_valid e

/-! ## translated_byte_buffer -/

/-- The byte slice `&ppn.get_bytes_array()[lo..hi]`, as the byte list it
denotes. -/
def byteSlice (s : MachineState) (ppn lo hi : Nat) : List Nat :=
  (List.range (hi - lo)).map (fun k => s.bts ppn (lo + k))

/-- The `while start < end` loop of `translated_byte_buffer`, with explicit
fuel: every iteration advances `start` by at least one byte, so `len + 1`
units always suffice; `none` reproduces the `unwrap` panic on a failed
translation (or exhausted fuel, unreachable under that bound). -/
def tbbGo (s : MachineState) (root fin : Nat) :
    Nat → Nat → Option (List (List Nat))
  | 0, _ => none
  | fuel + 1, start =>
    if start < fin then
      match PageTable.translate s root (VirtAddr.floor start) with
      | none => none
      | some e =>
        let ppn := PageTableEntry.ppn e
        let vpn1 := VirtAddr.floor start + 1
        let end_va := min (VirtAddr.fromVpn vpn1) fin
        let slice :=
          if VirtAddr.page_offset end_va = 0 then
            byteSlice s ppn (VirtAddr.page_offset start) PAGE_SIZE
          else
            byteSlice s ppn (VirtAddr.page_offset start)
              (VirtAddr.page_offset end_va)
        (tbbGo s root fin fuel end_va).map (fun v => slice :: v)
    else some []

/-- `translated_byte_buffer(token, ptr, len)`: the returned `Vec` of kernel
slices, as the list of the byte lists they denote.  `start + len` is a
wrapping `usize` sum. -/
def translated_byte_buffer (s : MachineState) (token ptr len : Nat) :
    Option (List (List Nat)) :=
  tbbGo s (PageTable.from_token token) ((ptr + len) % USIZE) (len + 1) ptr

/-! ## mm/memory_set.rs -/

/-- `MapType`: identical or framed mapping strategy. -/
inductive MapType where
  | Identical : MapType
  | Framed : MapType
deriving Repr, DecidableEq

/-- `MapPermission` bit values (a subset of the PTE flag bits). -/
def MapPermission.R : Nat := 2

def MapPermission.W : Nat := 4

def MapPermission.X : Nat := 8

def MapPermission.U : Nat := 16

/-- `MapArea`: `vpn_range` is `[vs, ve)`; `data_frames` is the
`BTreeMap<VirtPageNum, FrameTracker>` as an association list (insertion
replaces, removal deletes; only lookup semantics matter). -/
structure MapArea where
  vs : Nat
  ve : Nat
  data_frames : List (Nat × Nat)
  map_type : MapType
  map_perm : Nat
deriving Repr, DecidableEq

/-- `BTreeMap::insert`. -/
def dfInsert (k v : Nat) (l : List (Nat × Nat)) : List (Nat × Nat) :=
  (k, v) :: l.filter (fun q => q.1 != k)

/-- `BTreeMap::remove`. -/
def dfRemove (k : Nat) (l : List (Nat × Nat)) : List (Nat × Nat) :=
  l.filter (fun q => q.1 != k)

/-- `BTreeMap::get`-style lookup. -/
def dfLookup (k : Nat) : List (Nat × Nat) → Option Nat
  | [] => none
  | q :: rest => if q.1 = k then some q.2 else dfLookup k rest

/-- `MapArea::new(start_va, end_va, map_type, map_permission)`: floor the
start, ceil the end; `VPNRange::new` asserts `start ≤ end` (panic as
`none`). -/
def MapArea.new (start_va end_va : Nat) (ty : MapType) (perm : Nat) :
    Option MapArea :=
  if VirtAddr.floor start_va ≤ VirtAddr.ceil end_va then
    some ⟨VirtAddr.floor start_va, VirtAddr.ceil end_va, [], ty, perm⟩
  else none

/-- `MemorySet`: the page table (its root node page) plus the area list.
The RAII `frames`/`FrameTracker` vectors are not modelled. -/
structure MemorySet where
  root : Nat
  areas : List MapArea

/-- `MapArea::map_one`: identical mapping uses `ppn = vpn`; framed mapping
allocates a data frame, records it in `data_frames`, then installs the
translation with `PTEFlags::from_bits(map_permission.bits)` (the identity on
the raw bits). -/
def MapArea.map_one (s : MachineState) (root : Nat) (a : MapArea)
    (vpn : Nat) : Option (MachineState × MapArea) :=
  match a.map_type with
  | MapType.Identical =>
    (PageTable.map s root vpn vpn a.map_perm).map (fun s' => (s', a))
  | MapType.Framed =>
    (frameAlloc s).bind fun fr =>
      let a' : MapArea :=
        ⟨a.vs, a.ve, dfInsert vpn fr.1 a.data_frames, a.map_type, a.map_perm⟩
      (PageTable.map fr.2 root vpn fr.1 a'.map_perm).map (fun s' => (s', a'))

/-- The page-number sequence iterated by `VPNRange { l, r }`. -/
def rangeList (lo hi : Nat) : List Nat := (List.range (hi - lo)).map (lo + ·)

/-- The `for vpn in self.vpn_range` loop of `MapArea::map`. -/
def MapArea.mapLoop (root : Nat) : MachineState → MapArea → List Nat →
    Option (MachineState × MapArea)
  | s, a, [] => some (s, a)
  | s, a, vpn :: rest =>
    (MapArea.map_one s root a vpn).bind fun r =>
      MapArea.mapLoop root r.1 r.2 rest

/-- `MapArea::map(page_table)`. -/
def MapArea.mapAll (s : MachineState) (root : Nat) (a : MapArea) :
    Option (MachineState × MapArea) :=
  MapArea.mapLoop root s a (rangeList a.vs a.ve)

/-- `MapArea::unmap_one`: for a `Framed` area, `data_frames.remove(&vpn)`
drops the FrameTracker (deallocating the frame) when one was recorded; then
`page_table.unmap(vpn)`. -/
def MapArea.unmap_one (s : MachineState) (root : Nat) (a : MapArea)
    (vpn : Nat) : Option (MachineState × MapArea) :=
  match a.map_type with
  | MapType.Framed =>
    (match dfLookup vpn a.data_frames with
      | some ppn =>
        (frameDealloc s ppn).map fun s1 =>
          (s1, (⟨a.vs, a.ve, dfRemove vpn a.data_frames, a.map_type,
            a.map_perm⟩ : MapArea))
      | none => some (s, a)).bind
      fun r => (PageTable.unmap r.1 root vpn).map (fun s2 => (s2, r.2))
  | MapType.Identical =>
    (PageTable.unmap s root vpn).map (fun s2 => (s2, a))

/-- The `loop` of `MapArea::copy_data`, with explicit fuel: `start` grows by
`PAGE_SIZE` per iteration, so `data.length + 1` units always suffice.  Each
round copies `data[start..len.min(start + PAGE_SIZE)]` to the front of the
frame the page table currently translates `current_vpn` to. -/
def copyDataGo (root : Nat) (data : List Nat) :
    Nat → MachineState → Nat → Nat → Option MachineState
  | 0, _, _, _ => none
  | fuel + 1, s, start, vpn =>
    let src := (data.drop start).take (min data.length (start + PAGE_SIZE) - start)
    match PageTable.translate s root vpn with
    | none => none
    | some e =>
      let ppn := PageTableEntry.ppn e
      let s1 : MachineState :=
        ⟨s.mem,
          fun q j => if q = ppn ∧ j < src.length then src.getD j 0 else s.bts q j,
          s.fa⟩
      if data.length ≤ start + PAGE_SIZE then some s1
      else copyDataGo root data fuel s1 (start + PAGE_SIZE) (vpn + 1)

/-- `MapArea::copy_data(page_table, data)` (requires a `Framed` area). -/
def MapArea.copy_data (s : MachineState) (root : Nat) (a : MapArea)
    (data : List Nat) : Option MachineState :=
  if a.map_type = MapType.Framed then
    copyDataGo root data (data.length + 1) s 0 a.vs
  else none

/-- `MemorySet::push(map_area, data)`: map the area into the table, copy
the optional initial data, append the area. -/
def MemorySet.push (s : MachineState) (ms : MemorySet) (a : MapArea)
    (data : Option (List Nat)) : Option (MachineState × MemorySet) :=
  (MapArea.mapAll s ms.root a).bind fun r =>
    (match data with
      | some d => MapArea.copy_data r.1 ms.root r.2 d
      | none => some r.1).map
      fun s2 => (s2, ⟨ms.root, ms.areas ++ [r.2]⟩)

/-- `MemorySet::insert_framed_area(start_va, end_va, permission)`. -/
def MemorySet.insert_framed_area (s : MachineState) (ms : MemorySet)
    (start_va end_va perm : Nat) : Option (MachineState × MemorySet) :=
  (MapArea.new start_va end_va MapType.Framed perm).bind fun a =>
    MemorySet.push s ms a none

/-- The permission set `MemorySet::mmap` derives from the low three bits of
`port`: `MapPermission::U` always, plus `R`/`W`/`X` for bits 0/1/2. -/
def mmapPerm (port : Nat) : Nat :=
  let p1 := if port &&& 1 ≠ 0 then MapPermission.U ||| MapPermission.R
    else MapPermission.U
  let p2 := if port &&& 2 ≠ 0 then p1 ||| MapPermission.W else p1
  if port &&& 4 ≠ 0 then p2 ||| MapPermission.X else p2

/-- `MemorySet::mmap(start, len, port)`: build the covering page range
(`VPNRange::new` asserts `start ≤ end`), reject if any page in it is already
validly mapped, otherwise derive `U` plus R/W/X from the low 3 bits of
`port` and push a `Framed` area over the exact byte range. -/
def MemorySet.mmap (s : MachineState) (ms : MemorySet) (start len port : Nat) :
    Option (Int × MachineState × MemorySet) :=
  if VirtAddr.floor start ≤ VirtAddr.ceil ((start + len) % USIZE) then
    if (rangeList (VirtAddr.floor start)
        (VirtAddr.ceil ((start + len) % USIZE))).any (fun vpn =>
        match PageTable.find_pte s ms.root vpn with
        | some pte => PageTableEntry.is_valid pte
        | none => false) then
      some (-1, s, ms)
    else
      (MemorySet.insert_framed_area s ms start ((start + len) % USIZE)
        (mmapPerm port)).map
        (fun r => (0, r.1, r.2))
  else none

/-- The `for area in &mut self.areas` loop of `MemorySet::munmap`: unmap
`vpn` from every area whose range contains it. -/
def munmapAreasLoop (root vpn : Nat) : MachineState → List MapArea →
    Option (MachineState × List MapArea)
  | s, [] => some (s, [])
  | s, a :: rest =>
    if vpn < a.ve ∧ a.vs ≤ vpn then
      (MapArea.unmap_one s root a vpn).bind fun r =>
        (munmapAreasLoop root vpn r.1 rest).map fun r2 => (r2.1, r.2 :: r2.2)
    else
      (munmapAreasLoop root vpn s rest).map fun r2 => (r2.1, a :: r2.2)

/-- The outer `for vpn in vpn_range` loop of `MemorySet::munmap`. -/
def munmapVpnsLoop (root : Nat) : MachineState → List MapArea → List Nat →
    Option (MachineState × List MapArea)
  | s, areas, [] => some (s, areas)
  | s, areas, vpn :: rest =>
    (munmapAreasLoop root vpn s areas).bind fun r =>
      munmapVpnsLoop root r.1 r.2 rest

/-- `MemorySet::munmap(start, len)`: reject if any page of the covering
range is unmapped or invalid; otherwise unmap every page of the range from
each containing area (areas are never removed from the list). -/
def MemorySet.munmap (s : MachineState) (ms : MemorySet) (start len : Nat) :
    Option (Int × MachineState × MemorySet) :=
  if VirtAddr.floor start ≤ VirtAddr.ceil ((start + len) % USIZE) then
    if (rangeList (VirtAddr.floor start)
        (VirtAddr.ceil ((start + len) % USIZE))).any
        (fun vpn => absentPte s ms.root vpn) then
      some (-1, s, ms)
    else
      (munmapVpnsLoop ms.root s ms.areas (rangeList (VirtAddr.floor start)
        (VirtAddr.ceil ((start + len) % USIZE)))).map
        (fun r => (0, r.1, ⟨ms.root, r.2⟩))
  else none

/-! ## syscall/process.rs -/

/-- `sys_mmap`: `_start` must be page-aligned; `_port` must have at least
one of its low 3 bits set and none outside them (`!0x7` on `usize` is
`2 ^ 64 - 8`); then delegate to the current task's `MemorySet::mmap`. -/
def sys_mmap (s : MachineState) (ms : MemorySet) (start len port : Nat) :
    Option (Int × MachineState × MemorySet) :=
  if start &&& (PAGE_SIZE - 1) ≠ 0 then some (-1, s, ms)
  else if port &&& 7 = 0 ∨ port &&& (USIZE - 8) ≠ 0 then some (-1, s, ms)
  else MemorySet.mmap s ms start len port

/-- `sys_munmap`: `_start` must be page-aligned; then
`MemorySet::munmap`. -/
def sys_munmap (s : MachineState) (ms : MemorySet) (start len : Nat) :
    Option (Int × MachineState × MemorySet) :=
  if start &&& (PAGE_SIZE - 1) ≠ 0 then some (-1, s, ms)
  else MemorySet.munmap s ms start len

/-! ## MemorySet::from_elf -/

/-- A program header as yielded by the external ELF parser (`xmas_elf`,
out of scope per the spec): virtual start, in-memory size, R/W/X flags,
whether the type tag is `Load`, and the file-backed bytes
`elf.input[offset .. offset + file_size]`. -/
structure Seg where
  vaddr : Nat
  mem_size : Nat
  isR : Bool
  isW : Bool
  isX : Bool
  isLoad : Bool
  data : List Nat
deriving Repr, DecidableEq

/-- The permission computation of the `from_elf` segment loop: `U` plus the
header's R/W/X flags. -/
def segPerm (sg : Seg) : Nat :=
  let p1 := if sg.isR then MapPermission.U ||| MapPermission.R
    else MapPermission.U
  let p2 := if sg.isW then p1 ||| MapPermission.W else p1
  if sg.isX then p2 ||| MapPermission.X else p2

/-- The program-header loop of `from_elf`: for each `Load` header, push a
`Framed` area `[vaddr, vaddr + mem_size)` with the derived permissions and
the file bytes, setting `max_end_vpn` to that area's range end. -/
def elfSegsLoop : MachineState → MemorySet → Nat → List Seg →
    Option (MachineState × MemorySet × Nat)
  | s, ms, maxEnd, [] => some (s, ms, maxEnd)
  | s, ms, maxEnd, sg :: rest =>
    if sg.isLoad then
      (MapArea.new sg.vaddr ((sg.vaddr + sg.mem_size) % USIZE) MapType.Framed
          (segPerm sg)).bind fun a =>
        (MemorySet.push s ms a (some sg.data)).bind fun r =>
          elfSegsLoop r.1 r.2 a.ve rest
    else elfSegsLoop s ms maxEnd rest

/-- `MemorySet::from_elf`, parameterised by the configuration constants
(`TRAMPOLINE`, `TRAP_CONTEXT`, `USER_STACK_SIZE` of `config.rs`) and the
kernel's `strampoline` link address, and fed the parsed program headers
(the magic check lives in the parser).  Builds `new_bare`, maps the
trampoline, pushes the `Load` segments, then a guard page gap, the user
stack, and the trap-context area `[TRAP_CONTEXT, TRAMPOLINE)`; returns the
state, the memory set, `user_stack_top` and the entry point. -/
def MemorySet.from_elf (s : MachineState)
    (trampoline trap_context user_stack_size strampoline : Nat)
    (segs : List Seg) (entry : Nat) :
    Option (MachineState × MemorySet × Nat × Nat) :=
  (PageTable.new s).bind fun r0 =>
    (VirtPageNum.fromVa trampoline).bind fun tramp_vpn =>
      (PhysPageNum.fromPa strampoline).bind fun tramp_ppn =>
        (PageTable.map r0.2 (⟨r0.1, []⟩ : MemorySet).root tramp_vpn tramp_ppn
            (MapPermission.R ||| MapPermission.X)).bind fun s1 =>
          (elfSegsLoop s1 ⟨r0.1, []⟩ 0 segs).bind fun r1 =>
            (MapArea.new ((VirtAddr.fromVpn r1.2.2 + PAGE_SIZE) % USIZE)
                (((VirtAddr.fromVpn r1.2.2 + PAGE_SIZE) % USIZE
                  + user_stack_size) % USIZE) MapType.Framed
                (MapPermission.R ||| MapPermission.W |||
                  MapPermission.U)).bind fun stack_area =>
              (MemorySet.push r1.1 r1.2.1 stack_area none).bind fun r2 =>
                (MapArea.new trap_context trampoline MapType.Framed
                    (MapPermission.R ||| MapPermission.W)).bind fun tc_area =>
                  (MemorySet.push r2.1 r2.2 tc_area none).map fun r3 =>
                    (r3.1, r3.2, ((VirtAddr.fromVpn r1.2.2 + PAGE_SIZE)
                      % USIZE + user_stack_size) % USIZE, entry)

/-! ## Structural invariant of the three-level table -/

/-- The child node reached through entry `i` of node page `p` (its page
number when the entry is valid). -/
def childAt (s : MachineState) (p i : Nat) : Option Nat :=
  if PageTableEntry.is_valid (s.mem p i) then
    some (PageTableEntry.ppn (s.mem p i))
  else none

/-- The level-1 node selected by index `i` from the root. -/
def node1 (s : MachineState) (root i : Nat) : Option Nat := childAt s root i

/-- The level-2 node selected by indices `i, j` from the root. -/
def node2 (s : MachineState) (root i j : Nat) : Option Nat :=
  (childAt s root i).bind fun p => childAt s p j

/-- Structural well-formedness of the table rooted at `root`: the node
graph is a tree — level-1 and level-2 node pages are distinct from the
root, from each other across levels, and per index path.  Every table the
kernel builds through its own operations has this shape. -/
structure TreeInv (s : MachineState) (root : Nat) : Prop where
  n1NeRoot : ∀ i p, node1 s root i = some p → p ≠ root
  n1Inj : ∀ i i' p, node1 s root i = some p → node1 s root i' = some p → i = i'
  n2NeRoot : ∀ i j p, node2 s root i j = some p → p ≠ root
  n2NeN1 : ∀ i j p i', node2 s root i j = some p → node1 s root i' ≠ some p
  n2Inj : ∀ i j i' j' p, node2 s root i j = some p →
    node2 s root i' j' = some p → i = i' ∧ j = j'

/-- Full invariant: the tree shape plus allocator facts — every node page
was issued by the allocator (is below `current`), the allocator range fits
the 44-bit PPN field, and no recycled page is a live node. -/
structure PTInv (s : MachineState) (root : Nat) : Prop where
  tree : TreeInv s root
  curLe : s.fa.current ≤ s.fa.ends
  endsLe : s.fa.ends ≤ 2 ^ 44
  rootLt : root < s.fa.current
  n1Lt : ∀ i p, node1 s root i = some p → p < s.fa.current
  n2Lt : ∀ i j p, node2 s root i j = some p → p < s.fa.current
  recLt : ∀ p ∈ s.fa.recycled, p < s.fa.current
  recNodup : s.fa.recycled.Nodup
  recNeRoot : ∀ p ∈ s.fa.recycled, p ≠ root
  recNeN1 : ∀ p ∈ s.fa.recycled, ∀ i, node1 s root i ≠ some p
  recNeN2 : ∀ p ∈ s.fa.recycled, ∀ i j, node2 s root i j ≠ some p

/-- A concrete machine: all memory zeroed, frame allocator over `[1, 100)`,
with page 0 reserved as the root of a page table.  Used to exercise the
page-table operations on concrete inputs. -/
def zeroMachine : MachineState :=
  ⟨fun _ _ => 0, fun _ _ => 0, StackFrameAllocator.init 1 100⟩

def physByte (s : MachineState) (root x : Nat) : Nat :=
  match PageTable.find_pte s root (VirtAddr.floor x) with
  | some e => s.bts (PageTableEntry.ppn e) (VirtAddr.page_offset x)
  | none => 0

def tbbWrapMachine : MachineState :=
  ⟨fun p i =>
    if p = 0 ∧ i = 511 then PageTableEntry.new 1 1
    else if p = 1 ∧ i = 511 then PageTableEntry.new 2 1
    else if p = 2 ∧ i = 511 then PageTableEntry.new 3 1
    else if p = 0 ∧ i = 0 then PageTableEntry.new 4 1
    else if p = 4 ∧ i = 0 then PageTableEntry.new 5 1
    else if p = 5 ∧ i = 0 then PageTableEntry.new 6 1
    else if p = 5 ∧ i = 1 then PageTableEntry.new 7 1
    else 0,
   fun _ _ => 0, StackFrameAllocator.init 8 100⟩

def tbbTwoPageMachine : MachineState :=
  ⟨fun p i =>
    if p = 0 ∧ i = 0 then PageTableEntry.new 1 1
    else if p = 1 ∧ i = 0 then PageTableEntry.new 2 1
    else if p = 2 ∧ i = 5 then PageTableEntry.new 7 3
    else if p = 2 ∧ i = 6 then PageTableEntry.new 8 3
    else 0,
   fun p k => p * 1000 + k, StackFrameAllocator.init 9 100⟩

def tbbInvalidMachine : MachineState :=
  ⟨fun p i =>
    if p = 0 ∧ i = 0 then PageTableEntry.new 1 1
    else if p = 1 ∧ i = 0 then PageTableEntry.new 2 1
    else if p = 2 ∧ i = 5 then PageTableEntry.new 7 0
    else 0,
   fun p k => if p = 7 then k + 3 else 0, StackFrameAllocator.init 8 100⟩

def segOK (lo : Nat) (sg : Seg) : Bool :=
  (sg.vaddr % PAGE_SIZE == 0) &&
  Nat.ble (sg.vaddr + sg.mem_size + PAGE_SIZE) USIZE &&
  Nat.ble lo (sg.vaddr / PAGE_SIZE) &&
  Nat.blt (VirtAddr.ceil ((sg.vaddr + sg.mem_size) % USIZE)) (2 ^ 27)

def segsOK : Nat → List Seg → Bool
  | _, [] => true
  | lo, sg :: rest =>
    if sg.isLoad then
      segOK lo sg &&
        segsOK (VirtAddr.ceil ((sg.vaddr + sg.mem_size) % USIZE)) rest
    else segsOK lo rest

def elfMaxEnd : Nat → List Seg → Nat
  | m, [] => m
  | m, sg :: rest =>
    elfMaxEnd (if sg.isLoad then
      VirtAddr.ceil ((sg.vaddr + sg.mem_size) % USIZE) else m) rest

/-! ### Allocator lemmas -/

theorem alloc_cons (cur ends p : Nat) (rest : List Nat) :
    StackFrameAllocator.alloc ⟨cur, ends, p :: rest⟩ =
      some (p, ⟨cur, ends, rest⟩) := rfl

theorem alloc_nil (cur ends : Nat) :
    StackFrameAllocator.alloc ⟨cur, ends, []⟩ =
      if cur = ends then none else some (cur, ⟨cur + 1, ends, []⟩) := rfl

theorem dealloc_eq (cur ends p : Nat) (rec : List Nat) :
    StackFrameAllocator.dealloc ⟨cur, ends, rec⟩ p =
      if cur ≤ p ∨ p ∈ rec then none else some ⟨cur, ends, p :: rec⟩ := by
  simp only [StackFrameAllocator.dealloc]
  by_cases h1 : cur ≤ p
  · simp [h1]
  · by_cases h2 : p ∈ rec
    · have hany : (rec.any fun v => v == p) = true :=
        List.any_eq_true.mpr ⟨p, h2, by simp⟩
      simp [h1, h2, hany]
    · have hany : (rec.any fun v => v == p) = false := by
        rw [Bool.eq_false_iff]
        intro h
        obtain ⟨x, hx, hxp⟩ := List.any_eq_true.mp h
        exact h2 (by rwa [eq_of_beq hxp] at hx)
      simp [h1, h2, hany]

theorem runAllocOps_wf (l r : Nat) :
    ∀ (ops : List AllocOp) (s s' : StackFrameAllocator) (out : List Nat),
      AllocWF l r s → (∀ p, AllocOp.opDealloc p ∈ ops → l ≤ p) →
      runAllocOps ops s = some (s', out) → ∀ p ∈ out, l ≤ p ∧ p < r := by
  intro ops
  induction ops with
  | nil =>
    intro s s' out _ _ hrun
    simp only [runAllocOps, Option.some.injEq, Prod.mk.injEq] at hrun
    rw [← hrun.2]
    simp
  | cons op rest ih =>
    intro s s' out hwf hdl hrun
    obtain ⟨cur, ends, rec⟩ := s
    obtain ⟨hl, hr, hends, hrec⟩ := hwf
    replace hl : l ≤ cur := hl
    replace hr : cur ≤ r := hr
    replace hends : ends = r := hends
    replace hrec : ∀ p ∈ rec, l ≤ p ∧ p < cur := hrec
    cases op with
    | opAlloc =>
      cases rec with
      | nil =>
        by_cases hce : cur = ends
        · have hrun' : runAllocOps rest ⟨cur, ends, []⟩ = some (s', out) := by
            simpa [runAllocOps, alloc_nil, hce] using hrun
          exact ih _ s' out ⟨hl, hr, hends, by simp⟩
            (fun p hp => hdl p (List.mem_cons_of_mem _ hp)) hrun'
        · have hrun' :
              (runAllocOps rest ⟨cur + 1, ends, []⟩).map
                (fun rr => (rr.1, cur :: rr.2)) = some (s', out) := by
            simpa [runAllocOps, alloc_nil, hce] using hrun
          obtain ⟨⟨t, out'⟩, ht, heq⟩ := Option.map_eq_some'.mp hrun'
          simp only [Prod.mk.injEq] at heq
          rw [← heq.2]
          intro p hp
          rcases List.mem_cons.mp hp with h | h
          · subst h
            exact ⟨hl, by omega⟩
          · exact ih _ t out'
              ⟨show l ≤ cur + 1 by omega, show cur + 1 ≤ r by omega, hends,
                by simp⟩
              (fun p hp => hdl p (List.mem_cons_of_mem _ hp)) ht p h
      | cons q rest0 =>
        have hrun' :
            (runAllocOps rest ⟨cur, ends, rest0⟩).map
              (fun rr => (rr.1, q :: rr.2)) = some (s', out) := by
          simpa [runAllocOps, alloc_cons] using hrun
        obtain ⟨⟨t, out'⟩, ht, heq⟩ := Option.map_eq_some'.mp hrun'
        simp only [Prod.mk.injEq] at heq
        rw [← heq.2]
        have hq := hrec q (List.mem_cons_self _ _)
        intro p hp
        rcases List.mem_cons.mp hp with h | h
        · subst h
          exact ⟨hq.1, by omega⟩
        · refine ih _ t out' ⟨hl, hr, hends, ?_⟩
            (fun p hp => hdl p (List.mem_cons_of_mem _ hp)) ht p h
          intro p hp
          exact hrec p (List.mem_cons_of_mem _ hp)
    | opDealloc q =>
      have hstep : runAllocOps (AllocOp.opDealloc q :: rest) ⟨cur, ends, rec⟩
          = (StackFrameAllocator.dealloc ⟨cur, ends, rec⟩ q).bind
              (runAllocOps rest) := rfl
      rw [hstep, dealloc_eq] at hrun
      by_cases hc : cur ≤ q ∨ q ∈ rec
      · simp [hc] at hrun
      · simp only [if_neg hc, Option.some_bind] at hrun
        have hcur : ¬ cur ≤ q := fun h => hc (Or.inl h)
        have hlq : l ≤ q := hdl q (List.mem_cons_self _ _)
        refine ih _ s' out ⟨hl, hr, hends, ?_⟩
          (fun p hp => hdl p (List.mem_cons_of_mem _ hp)) hrun
        intro p hp
        show l ≤ p ∧ p < cur
        rcases List.mem_cons.mp hp with h | h
        · subst h
          exact ⟨hlq, by omega⟩
        · exact hrec p h

/-! ### Claims C4, C5, C6, C7 -/

/-- C4: `alloc()` pops the most recently deallocated page number when the
recycled stack is non-empty (so a `dealloc` followed by `alloc` returns that
very page and restores the state); otherwise, when `current < end`, it
returns `current` and advances it; and it returns the absence signal exactly
when `current == end` and the recycled stack is empty. -/
theorem alloc_stack_discipline (s s' : StackFrameAllocator) (p : Nat) :
    (s.dealloc p = some s' → s'.alloc = some (p, s)) ∧
    (s.recycled = [] → s.current < s.ends →
      s.alloc = some (s.current, ⟨s.current + 1, s.ends, []⟩)) ∧
    (s.alloc = none ↔ s.recycled = [] ∧ s.current = s.ends) := by
  obtain ⟨cur, ends, rec⟩ := s
  refine ⟨?_, ?_, ?_⟩
  · intro h
    rw [dealloc_eq] at h
    by_cases hc : cur ≤ p ∨ p ∈ rec
    · simp [hc] at h
    · rw [if_neg hc] at h
      cases h
      exact alloc_cons cur ends p rec
  · intro h1 h2
    replace h1 : rec = [] := h1
    replace h2 : cur < ends := h2
    subst h1
    rw [alloc_nil, if_neg (by omega : ¬ cur = ends)]
  · cases rec with
    | nil =>
      rw [alloc_nil]
      by_cases hce : cur = ends <;> simp [hce]
    | cons a l =>
      rw [alloc_cons]
      simp

/-- C4 witness: on the concrete state `⟨7, 9, []⟩`, deallocating 3 and then
allocating returns 3 and restores the state. -/
theorem alloc_stack_discipline_witness :
    StackFrameAllocator.alloc ⟨7, 9, [3]⟩ = some (3, ⟨7, 9, []⟩) :=
  (alloc_stack_discipline ⟨7, 9, []⟩ ⟨7, 9, [3]⟩ 3).1 (by decide)

/-- C5: `dealloc(ppn)` panics exactly when `ppn >= current` or `ppn` is
already on the recycled stack; otherwise it pushes `ppn` onto the recycled
stack and leaves `current` and `end` unchanged. -/
theorem dealloc_validity (s : StackFrameAllocator) (p : Nat) :
    (s.dealloc p = none ↔ s.current ≤ p ∨ p ∈ s.recycled) ∧
    (¬(s.current ≤ p ∨ p ∈ s.recycled) →
      s.dealloc p = some ⟨s.current, s.ends, p :: s.recycled⟩) := by
  obtain ⟨cur, ends, rec⟩ := s
  rw [dealloc_eq]
  by_cases h : cur ≤ p ∨ p ∈ rec <;> simp [h]

/-- C5 witness: on `⟨7, 9, [3]⟩`, deallocating 5 succeeds and pushes 5. -/
theorem dealloc_validity_witness :
    StackFrameAllocator.dealloc ⟨7, 9, [3]⟩ 5 = some ⟨7, 9, [5, 3]⟩ :=
  (dealloc_validity ⟨7, 9, [3]⟩ 5).2 (by decide)

/-- C6 counterexample: the claim fails as stated.  On an allocator
initialized over `[5, 10)`, `dealloc(3)` is accepted (3 < current = 5, and
the recycled stack is empty), and the following `alloc` returns 3, which is
outside `[5, 10)`. -/
theorem runAllocOps_outside_range :
    runAllocOps [AllocOp.opDealloc 3, AllocOp.opAlloc]
      (StackFrameAllocator.init 5 10) = some (⟨5, 10, []⟩, [3]) ∧
    ¬(5 ≤ 3 ∧ 3 < 10) := by decide

/-- C6 (amended): for every sequence of `alloc`/`dealloc` calls on an
allocator initialized once over `[l, r)` with `l ≤ r`, in which no `dealloc`
is fatal and every deallocated page number is at least `l`, every page number
returned by `alloc` lies in `[l, r)`.  (The extra `l ≤ p` premise — satisfied
whenever only previously-allocated pages are returned — is forced by the
counterexample: the code only checks `ppn < current`, so a never-issued page
below `l` can be deallocated without a panic and is then re-issued.) -/
theorem alloc_in_range (ops : List AllocOp) (l r : Nat)
    (s : StackFrameAllocator) (out : List Nat) (hlr : l ≤ r)
    (hdl : ∀ p, AllocOp.opDealloc p ∈ ops → l ≤ p)
    (hrun : runAllocOps ops (StackFrameAllocator.init l r) = some (s, out)) :
    ∀ p ∈ out, l ≤ p ∧ p < r := by
  refine runAllocOps_wf l r ops _ s out ?_ hdl hrun
  exact ⟨le_refl l, hlr, rfl, by simp [StackFrameAllocator.init]⟩

/-- C6 witness: a two-allocation run over `[5, 7)` returns 5 and 6, both in
range. -/
theorem alloc_in_range_witness :
    runAllocOps [AllocOp.opAlloc, AllocOp.opAlloc]
      (StackFrameAllocator.init 5 7) = some (⟨7, 7, []⟩, [5, 6]) ∧
    (5 ≤ 5 ∧ 5 < 7) ∧ (5 ≤ 6 ∧ 6 < 7) :=
  ⟨by decide,
    alloc_in_range [AllocOp.opAlloc, AllocOp.opAlloc] 5 7 ⟨7, 7, []⟩ [5, 6]
      (by decide) (by intro p hp; simp at hp) (by decide) 5 (by decide),
    alloc_in_range [AllocOp.opAlloc, AllocOp.opAlloc] 5 7 ⟨7, 7, []⟩ [5, 6]
      (by decide) (by intro p hp; simp at hp) (by decide) 6 (by decide)⟩

/-! ### Claim C7 -/

theorem page_offset_eq_mod (x : Nat) : VirtAddr.page_offset x = x % PAGE_SIZE := by
  have h : PAGE_SIZE - 1 = 2 ^ 12 - 1 := by norm_num [PAGE_SIZE]
  rw [VirtAddr.page_offset, h, Nat.and_pow_two_sub_one_eq_mod]
  norm_num [PAGE_SIZE]

theorem ceil_eq_of_no_overflow (x : Nat) (h : x + PAGE_SIZE ≤ USIZE) :
    VirtAddr.ceil x = (x + (PAGE_SIZE - 1)) / PAGE_SIZE := by
  unfold VirtAddr.ceil
  simp only [PAGE_SIZE, USIZE] at *
  rcases Nat.eq_zero_or_pos x with h0 | h0
  · subst h0
    norm_num
  · have h1 : (x + (2 ^ 64 - 1)) % 2 ^ 64 = x - 1 := by
      have hx : x + (2 ^ 64 - 1) = (x - 1) + 2 ^ 64 := by omega
      rw [hx, Nat.add_mod_right, Nat.mod_eq_of_lt (by omega)]
    rw [h1]
    have h2 : (x - 1 + 4096) % 2 ^ 64 = x - 1 + 4096 :=
      Nat.mod_eq_of_lt (by omega)
    rw [h2]
    have h3 : x - 1 + 4096 = x + (4096 - 1) := by omega
    rw [h3]

/-- C7 counterexample: the claim fails as stated at the address
`x = 2 ^ 64 - 1`.  The `usize` expression `x - 1 + PAGE_SIZE` wraps, `ceil`
returns 0, and `x ≤ ceil(x) * PAGE_SIZE` is false. -/
theorem ceil_overflow_cex :
    VirtAddr.ceil (2 ^ 64 - 1) = 0 ∧
      ¬(2 ^ 64 - 1 ≤ VirtAddr.ceil (2 ^ 64 - 1) * PAGE_SIZE) := by
  constructor
  · decide
  · decide

/-- C7 (amended): the round trip `VirtAddr::from(p).floor() == p` (and the
physical analogue) holds for every page number `p` that fits an address
(`p < 2 ^ 52`), and for every address `x` such that `x - 1 + PAGE_SIZE` does
not wrap (`x + PAGE_SIZE ≤ 2 ^ 64`, forced by the counterexample at
`2 ^ 64 - 1`), `floor(x) * PAGE_SIZE ≤ x ≤ ceil(x) * PAGE_SIZE`, with
equality on either side exactly when `x` is page-aligned. -/
theorem addr_floor_ceil_round_trip (p x : Nat) :
    (p < 2 ^ 52 →
      VirtAddr.floor (VirtAddr.fromVpn p) = p ∧
      PhysAddr.floor (PhysAddr.fromPpn p) = p) ∧
    (x + PAGE_SIZE ≤ USIZE →
      (VirtAddr.floor x * PAGE_SIZE ≤ x ∧ x ≤ VirtAddr.ceil x * PAGE_SIZE ∧
        (VirtAddr.floor x * PAGE_SIZE = x ↔ VirtAddr.aligned x = true) ∧
        (VirtAddr.ceil x * PAGE_SIZE = x ↔ VirtAddr.aligned x = true)) ∧
      (PhysAddr.floor x * PAGE_SIZE ≤ x ∧ x ≤ PhysAddr.ceil x * PAGE_SIZE ∧
        (PhysAddr.floor x * PAGE_SIZE = x ↔ PhysAddr.aligned x = true) ∧
        (PhysAddr.ceil x * PAGE_SIZE = x ↔ PhysAddr.aligned x = true))) := by
  have hround : p < 2 ^ 52 → (p <<< PAGE_SIZE_BITS) % USIZE / PAGE_SIZE = p := by
    intro hp
    have h1 : p * 2 ^ 12 < 2 ^ 64 := by
      calc p * 2 ^ 12 < 2 ^ 52 * 2 ^ 12 :=
            (Nat.mul_lt_mul_right (by norm_num)).mpr hp
        _ = 2 ^ 64 := by norm_num
    simp only [PAGE_SIZE_BITS, USIZE, PAGE_SIZE, Nat.shiftLeft_eq]
    rw [Nat.mod_eq_of_lt h1]
    have : (4096 : Nat) = 2 ^ 12 := by norm_num
    rw [this]
    exact Nat.mul_div_cancel p (by norm_num)
  have halig : (VirtAddr.aligned x = true) ↔ x % PAGE_SIZE = 0 := by
    rw [VirtAddr.aligned, page_offset_eq_mod, beq_iff_eq]
  have halig' : (PhysAddr.aligned x = true) ↔ x % PAGE_SIZE = 0 := halig
  constructor
  · intro hp
    exact ⟨hround hp, hround hp⟩
  · intro hx
    have hceil := ceil_eq_of_no_overflow x hx
    have hceil' : PhysAddr.ceil x = (x + (PAGE_SIZE - 1)) / PAGE_SIZE := hceil
    rw [VirtAddr.floor, PhysAddr.floor, hceil, hceil', halig, halig']
    simp only [PAGE_SIZE]
    refine ⟨⟨?_, ?_, ?_, ?_⟩, ⟨?_, ?_, ?_, ?_⟩⟩ <;> omega

/-- C7 witness: concrete instances of both conjuncts (`p = 3`,
`x = 4097`). -/
theorem addr_floor_ceil_witness :
    VirtAddr.floor (VirtAddr.fromVpn 3) = 3 ∧
      VirtAddr.floor 4097 * PAGE_SIZE ≤ 4097 ∧
      4097 ≤ VirtAddr.ceil 4097 * PAGE_SIZE :=
  ⟨((addr_floor_ceil_round_trip 3 4097).1 (by norm_num)).1,
    (((addr_floor_ceil_round_trip 3 4097).2 (by decide)).1).1,
    (((addr_floor_ceil_round_trip 3 4097).2 (by decide)).1).2.1⟩

/-! ## Page-table-entry bit lemmas -/

theorem pte_new_eq (ppn flags : Nat) (hp : ppn < 2 ^ 44) (hf : flags < 2 ^ 10) :
    PageTableEntry.new ppn flags = 2 ^ 10 * ppn + flags := by
  rw [PageTableEntry.new, Nat.shiftLeft_eq, USIZE, mul_comm ppn (2 ^ 10),
    ← Nat.mul_add_lt_is_or hf]
  apply Nat.mod_eq_of_lt
  have h2 : 2 ^ 10 * (ppn + 1) ≤ 2 ^ 10 * 2 ^ 44 := Nat.mul_le_mul_left _ hp
  have h3 : (2 : Nat) ^ 10 * 2 ^ 44 < 2 ^ 64 := by norm_num
  omega

theorem pte_ppn_new (ppn flags : Nat) (hp : ppn < 2 ^ 44) (hf : flags < 2 ^ 10) :
    PageTableEntry.ppn (PageTableEntry.new ppn flags) = ppn := by
  rw [pte_new_eq ppn flags hp hf, PageTableEntry.ppn,
    Nat.shiftRight_eq_div_pow, Nat.mul_add_div (by norm_num),
    Nat.div_eq_of_lt hf, Nat.add_zero, Nat.and_pow_two_sub_one_eq_mod,
    Nat.mod_eq_of_lt hp]

theorem pte_flags_new (ppn flags : Nat) (hf : flags < 2 ^ 8) :
    PageTableEntry.flags (PageTableEntry.new ppn flags) = flags := by
  rw [PageTableEntry.new, PageTableEntry.flags, USIZE,
    Nat.mod_mod_of_dvd _ (by norm_num : (2 : Nat) ^ 8 ∣ 2 ^ 64),
    ← Nat.and_pow_two_sub_one_eq_mod, Nat.and_distrib_right,
    Nat.and_pow_two_sub_one_eq_mod, Nat.and_pow_two_sub_one_eq_mod,
    Nat.shiftLeft_eq]
  have h1 : ppn * 2 ^ 10 % 2 ^ 8 = 0 := by
    have h : ppn * 2 ^ 10 = 2 ^ 8 * (ppn * 4) := by ring
    rw [h, Nat.mul_mod_right]
  rw [h1, Nat.mod_eq_of_lt hf]
  simp

theorem pte_is_valid_iff (b : Nat) :
    PageTableEntry.is_valid b = true ↔ b % 2 = 1 := by
  rw [PageTableEntry.is_valid, PageTableEntry.flags, Nat.and_one_is_mod,
    Nat.mod_mod_of_dvd _ (by norm_num : (2 : Nat) ∣ 2 ^ 8), bne_iff_ne]
  omega

theorem pte_is_valid_new (ppn flags : Nat) :
    PageTableEntry.is_valid (PageTableEntry.new ppn (flags ||| 1)) = true := by
  rw [pte_is_valid_iff, PageTableEntry.new, USIZE,
    Nat.mod_mod_of_dvd _ (by norm_num : (2 : Nat) ∣ 2 ^ 64),
    Nat.or_mod_two_eq_one]
  right
  rw [Nat.or_mod_two_eq_one]
  right
  norm_num

theorem pte_is_valid_zero : PageTableEntry.is_valid 0 = false := rfl

/-! ### State read lemmas -/

theorem writePte_mem (s : MachineState) (p i v q j : Nat) :
    (writePte s p i v).mem q j = if q = p ∧ j = i then v else s.mem q j := rfl

theorem writePte_bts (s : MachineState) (p i v : Nat) :
    (writePte s p i v).bts = s.bts := rfl

theorem writePte_fa (s : MachineState) (p i v : Nat) :
    (writePte s p i v).fa = s.fa := rfl

theorem zeroPage_mem (s : MachineState) (p q j : Nat) :
    (zeroPage s p).mem q j = if q = p then 0 else s.mem q j := rfl

theorem zeroPage_fa (s : MachineState) (p : Nat) :
    (zeroPage s p).fa = s.fa := rfl

theorem childAt_writePte (s : MachineState) (p i v q j : Nat) :
    childAt (writePte s p i v) q j =
      if q = p ∧ j = i then
        (if PageTableEntry.is_valid v then some (PageTableEntry.ppn v)
          else none)
      else childAt s q j := by
  unfold childAt
  by_cases h : q = p ∧ j = i <;> simp [writePte_mem, h]

theorem childAt_zeroPage (s : MachineState) (p q j : Nat) :
    childAt (zeroPage s p) q j = if q = p then none else childAt s q j := by
  unfold childAt
  by_cases h : q = p <;> simp [zeroPage_mem, h, pte_is_valid_zero]

theorem childAt_congr_fa (mem bts bts' : Nat → Nat → Nat)
    (fa fa' : StackFrameAllocator) (p i : Nat) :
    childAt ⟨mem, bts', fa'⟩ p i = childAt ⟨mem, bts, fa⟩ p i := rfl

/-- `find_pte` through the node structure. -/
theorem find_pte_eq (s : MachineState) (root vpn : Nat) :
    PageTable.find_pte s root vpn =
      (node2 s root (VirtPageNum.indexes vpn).1
          (VirtPageNum.indexes vpn).2.1).map
        (fun p => s.mem p (VirtPageNum.indexes vpn).2.2) := by
  unfold PageTable.find_pte node2 childAt
  by_cases h0 : PageTableEntry.is_valid
      (s.mem root (VirtPageNum.indexes vpn).1) = true
  · by_cases h1 : PageTableEntry.is_valid
        (s.mem (PageTableEntry.ppn (s.mem root (VirtPageNum.indexes vpn).1))
          (VirtPageNum.indexes vpn).2.1) = true
    · simp [h0, h1]
    · simp [h0, h1]
  · simp [h0]

/-! ### Invariant transfer lemmas -/

theorem TreeInv_of (s s' : MachineState) (root : Nat) (inv : TreeInv s root)
    (h1 : ∀ i, node1 s' root i = node1 s root i)
    (h2 : ∀ i j, node2 s' root i j = node2 s root i j) : TreeInv s' root := by
  constructor
  · intro i p hn
    exact inv.n1NeRoot i p (h1 i ▸ hn)
  · intro i i' p hn hn'
    exact inv.n1Inj i i' p (h1 i ▸ hn) (h1 i' ▸ hn')
  · intro i j p hn
    exact inv.n2NeRoot i j p (h2 i j ▸ hn)
  · intro i j p i' hn
    exact h1 i' ▸ inv.n2NeN1 i j p i' (h2 i j ▸ hn)
  · intro i j i' j' p hn hn'
    exact inv.n2Inj i j i' j' p (h2 i j ▸ hn) (h2 i' j' ▸ hn')

theorem PTInv_of (s s' : MachineState) (root : Nat) (inv : PTInv s root)
    (h1 : ∀ i, node1 s' root i = node1 s root i)
    (h2 : ∀ i j, node2 s' root i j = node2 s root i j)
    (hcur : s.fa.current ≤ s'.fa.current)
    (hends : s'.fa.ends = s.fa.ends)
    (hcurle : s'.fa.current ≤ s'.fa.ends)
    (hrecsub : ∀ p ∈ s'.fa.recycled, p ∈ s.fa.recycled)
    (hrecnd : s'.fa.recycled.Nodup) : PTInv s' root := by
  refine ⟨TreeInv_of s s' root inv.tree h1 h2, hcurle, ?_, ?_, ?_, ?_, ?_,
    hrecnd, ?_, ?_, ?_⟩
  · exact hends ▸ inv.endsLe
  · exact lt_of_lt_of_le inv.rootLt hcur
  · intro i p hn
    exact lt_of_lt_of_le (inv.n1Lt i p (h1 i ▸ hn)) hcur
  · intro i j p hn
    exact lt_of_lt_of_le (inv.n2Lt i j p (h2 i j ▸ hn)) hcur
  · intro p hp
    exact lt_of_lt_of_le (inv.recLt p (hrecsub p hp)) hcur
  · intro p hp
    exact inv.recNeRoot p (hrecsub p hp)
  · intro p hp i
    exact h1 i ▸ inv.recNeN1 p (hrecsub p hp) i
  · intro p hp i j
    exact h2 i j ▸ inv.recNeN2 p (hrecsub p hp) i j

/-! ### frame_alloc specification -/

theorem frameAlloc_spec (s : MachineState) (root f : Nat) (s' : MachineState)
    (inv : PTInv s root) (h : frameAlloc s = some (f, s')) :
    PTInv s' root ∧
    s'.fa.ends = s.fa.ends ∧ s.fa.current ≤ s'.fa.current ∧
    f < s'.fa.current ∧ f < 2 ^ 44 ∧ f ≠ root ∧
    (∀ i, node1 s' root i = node1 s root i) ∧
    (∀ i j, node2 s' root i j = node2 s root i j) ∧
    (∀ i, node1 s root i ≠ some f) ∧ (∀ i j, node2 s root i j ≠ some f) ∧
    (∀ p i, p ≠ f → s'.mem p i = s.mem p i) ∧ (∀ i, s'.mem f i = 0) ∧
    f ∉ s'.fa.recycled ∧ s'.bts = fun q j => if q = f then 0 else s.bts q j := by
  -- analyse the allocator call
  have halloc : ∃ fa', s.fa.alloc = some (f, fa') ∧
      s' = zeroPage ⟨s.mem, s.bts, fa'⟩ f := by
    unfold frameAlloc at h
    rcases ha : s.fa.alloc with _ | ⟨q, fa'⟩
    · rw [ha] at h
      simp at h
    · rw [ha] at h
      simp only [Option.map_some', Option.some.injEq, Prod.mk.injEq] at h
      obtain ⟨h1, h2⟩ := h
      rw [h1] at h2
      exact ⟨fa', by rw [h1], h2.symm⟩
  obtain ⟨fa', ha, hs'⟩ := halloc
  -- facts about the returned frame
  have hfacts : f < fa'.current ∧ f < 2 ^ 44 ∧ f ≠ root ∧
      (∀ i, node1 s root i ≠ some f) ∧ (∀ i j, node2 s root i j ≠ some f) ∧
      fa'.ends = s.fa.ends ∧ s.fa.current ≤ fa'.current ∧
      fa'.current ≤ fa'.ends ∧
      (∀ p ∈ fa'.recycled, p ∈ s.fa.recycled) ∧ fa'.recycled.Nodup ∧
      f ∉ fa'.recycled := by
    have hc1 := inv.curLe
    have hc2 := inv.endsLe
    have hc3 := inv.rootLt
    rcases hrec : s.fa.recycled with _ | ⟨q0, rest⟩
    · unfold StackFrameAllocator.alloc at ha
      rw [hrec] at ha
      by_cases hce : s.fa.current = s.fa.ends
      · simp [hce] at ha
      · simp only [hce, if_false, Option.some.injEq, Prod.mk.injEq] at ha
        obtain ⟨hq, hfa'⟩ := ha
        replace hfa' : fa' = ⟨s.fa.current + 1, s.fa.ends, []⟩ := hfa'.symm
        have e1 : fa'.current = s.fa.current + 1 := by rw [hfa']
        have e2 : fa'.ends = s.fa.ends := by rw [hfa']
        have e3 : fa'.recycled = [] := by rw [hfa']
        refine ⟨by omega, by omega, by omega, ?_, ?_, e2, by omega,
          by omega, ?_, ?_, ?_⟩
        · intro i hn
          have := inv.n1Lt i f hn
          omega
        · intro i j hn
          have := inv.n2Lt i j f hn
          omega
        · intro p hp
          rw [e3] at hp
          simp at hp
        · rw [e3]
          exact List.nodup_nil
        · rw [e3]
          simp
    · unfold StackFrameAllocator.alloc at ha
      rw [hrec] at ha
      simp only [Option.some.injEq, Prod.mk.injEq] at ha
      obtain ⟨hq, hfa'⟩ := ha
      replace hfa' : fa' = ⟨s.fa.current, s.fa.ends, rest⟩ := hfa'.symm
      have e1 : fa'.current = s.fa.current := by rw [hfa']
      have e2 : fa'.ends = s.fa.ends := by rw [hfa']
      have e3 : fa'.recycled = rest := by rw [hfa']
      have hmem : f ∈ s.fa.recycled := by
        rw [hrec, ← hq]
        exact List.mem_cons_self _ _
      have hnd := inv.recNodup
      rw [hrec] at hnd
      have hflt := inv.recLt f hmem
      refine ⟨by omega, ?_, inv.recNeRoot f hmem,
        fun i => inv.recNeN1 f hmem i, fun i j => inv.recNeN2 f hmem i j,
        e2, by omega, by omega, ?_, ?_, ?_⟩
      · omega
      · intro p hp
        rw [e3] at hp
        exact List.mem_cons_of_mem _ hp
      · rw [e3]
        exact hnd.of_cons
      · rw [e3]
        intro hc
        rw [← hq] at hc
        exact (List.nodup_cons.mp hnd).1 hc
  obtain ⟨hf1, hf2, hf3, hf4, hf5, hf6, hf7, hf8, hf9, hf10, hf11⟩ := hfacts
  have hbase : ∀ p i, childAt (⟨s.mem, s.bts, fa'⟩ : MachineState) p i
      = childAt s p i := fun p i => rfl
  -- node structure is untouched: the zeroed page is not a node
  have hn1 : ∀ i, node1 s' root i = node1 s root i := by
    intro i
    rw [hs']
    show childAt (zeroPage ⟨s.mem, s.bts, fa'⟩ f) root i = childAt s root i
    rw [childAt_zeroPage, if_neg (Ne.symm hf3), hbase]
  have hchild : ∀ p i, childAt s' p i = if p = f then none else childAt s p i := by
    intro p i
    rw [hs']
    show childAt (zeroPage ⟨s.mem, s.bts, fa'⟩ f) p i
      = if p = f then none else childAt s p i
    rw [childAt_zeroPage]
    by_cases h : p = f
    · rw [if_pos h, if_pos h]
    · rw [if_neg h, if_neg h, hbase]
  have hn2 : ∀ i j, node2 s' root i j = node2 s root i j := by
    intro i j
    unfold node2
    have hlam : (fun p => childAt s' p j)
        = fun p => if p = f then none else childAt s p j :=
      funext fun p => hchild p j
    rw [hlam]
    show (childAt s' root i).bind _ = _
    rw [hchild root i, if_neg (Ne.symm hf3)]
    cases hq : childAt s root i with
    | none => rfl
    | some q =>
      simp only [Option.some_bind]
      have hne : q ≠ f := fun he => hf4 i (he ▸ hq)
      rw [if_neg hne]
  have hfa2 : s'.fa = fa' := by rw [hs']; rfl
  refine ⟨?_, ?_, ?_, ?_, hf2, hf3, hn1, hn2, hf4, hf5, ?_, ?_, ?_, ?_⟩
  · exact PTInv_of s s' root inv hn1 hn2 (hfa2 ▸ hf7) (hfa2 ▸ hf6)
      (hfa2 ▸ hf8) (hfa2 ▸ hf9) (hfa2 ▸ hf10)
  · rw [hfa2]
    exact hf6
  · rw [hfa2]
    exact hf7
  · rw [hfa2]
    exact hf1
  · intro p i hp
    rw [hs']
    show (if p = f then 0 else s.mem p i) = s.mem p i
    simp [hp]
  · intro i
    rw [hs']
    show (if f = f then 0 else s.mem f i) = 0
    simp
  · rw [hfa2]
    exact hf11
  · rw [hs']
    rfl

/-! ### Walk lemmas -/

theorem node1_of_valid (s : MachineState) (p i : Nat)
    (h : PageTableEntry.is_valid (s.mem p i) = true) :
    childAt s p i = some (PageTableEntry.ppn (s.mem p i)) := by
  unfold childAt
  rw [if_pos h]

theorem node1_of_invalid (s : MachineState) (p i : Nat)
    (h : PageTableEntry.is_valid (s.mem p i) = false) :
    childAt s p i = none := by
  unfold childAt
  rw [if_neg (by simp [h])]

theorem walkStep_valid (s : MachineState) (node i : Nat)
    (h : PageTableEntry.is_valid (s.mem node i) = true) :
    PageTable.walkStep s node i =
      some (s, PageTableEntry.ppn (s.mem node i)) := by
  unfold PageTable.walkStep
  rw [if_pos h]

theorem walkStep_invalid (s : MachineState) (node i f : Nat)
    (s1 : MachineState)
    (h : PageTableEntry.is_valid (s.mem node i) = false)
    (hf : frameAlloc s = some (f, s1)) :
    PageTable.walkStep s node i =
      some (writePte s1 node i (PageTableEntry.new f 1),
        PageTableEntry.ppn (PageTableEntry.new f 1)) := by
  unfold PageTable.walkStep
  rw [if_neg (by simp [h]), hf]
  simp [writePte_mem]

theorem node1_writePte_ne_root (s : MachineState) (root p i v : Nat)
    (hp : p ≠ root) :
    ∀ j, node1 (writePte s p i v) root j = node1 s root j := by
  intro j
  show childAt _ root j = childAt s root j
  rw [childAt_writePte, if_neg]
  exact fun h => hp h.1.symm

theorem node2_writePte_ne (s : MachineState) (root p i v : Nat)
    (hp : p ≠ root) (hn : ∀ i', node1 s root i' ≠ some p) :
    ∀ j k, node2 (writePte s p i v) root j k = node2 s root j k := by
  intro j k
  unfold node2
  have hlam : (fun q => childAt (writePte s p i v) q k)
      = fun q => if q = p ∧ k = i then
          (if PageTableEntry.is_valid v then some (PageTableEntry.ppn v)
            else none)
        else childAt s q k :=
    funext fun q => childAt_writePte s p i v q k
  have h1 : childAt (writePte s p i v) root j = childAt s root j :=
    node1_writePte_ne_root s root p i v hp j
  rw [hlam, h1]
  cases hq : childAt s root j with
  | none => rfl
  | some q =>
    simp only [Option.some_bind]
    rw [if_neg]
    exact fun h => hn j (h.1 ▸ hq)

/-- Writing the leaf entry at the slot `find_pte` reaches through
`(i0, i1)` changes exactly the translations whose index triple is
`(i0, i1, i2)`. -/
theorem find_pte_writePte_leaf (s : MachineState) (root : Nat)
    (tinv : TreeInv s root) (i0 i1 i2 p1 v : Nat)
    (hn2 : node2 s root i0 i1 = some p1) :
    ∀ w, PageTable.find_pte (writePte s p1 i2 v) root w =
      (if VirtPageNum.indexes w = (i0, i1, i2) then some v
        else PageTable.find_pte s root w) := by
  intro w
  have hp1root : p1 ≠ root := tinv.n2NeRoot _ _ _ hn2
  have hp1n1 : ∀ i', node1 s root i' ≠ some p1 :=
    fun i' => tinv.n2NeN1 _ _ _ i' hn2
  rw [find_pte_eq, find_pte_eq]
  rcases hidx : VirtPageNum.indexes w with ⟨j0, j1, j2⟩
  have hnodes : node2 (writePte s p1 i2 v) root j0 j1 = node2 s root j0 j1 :=
    node2_writePte_ne s root p1 i2 v hp1root hp1n1 j0 j1
  have hlam : (fun p => (writePte s p1 i2 v).mem p j2)
      = fun p => if p = p1 ∧ j2 = i2 then v else s.mem p j2 :=
    funext fun p => writePte_mem s p1 i2 v p j2
  rw [hnodes, hlam]
  by_cases he : (j0, j1, j2) = ((i0, i1, i2) : Nat × Nat × Nat)
  · obtain ⟨e0, e1, e2⟩ : j0 = i0 ∧ j1 = i1 ∧ j2 = i2 := by
      simpa [Prod.ext_iff] using he
    subst e0; subst e1; subst e2
    rw [if_pos rfl, hn2]
    simp
  · rw [if_neg he]
    cases hq : node2 s root j0 j1 with
    | none => rfl
    | some q =>
      simp only [Option.map_some']
      by_cases hqp : q = p1
      · subst hqp
        obtain ⟨e0, e1⟩ := tinv.n2Inj j0 j1 i0 i1 q hq hn2
        have hj2 : j2 ≠ i2 := by
          intro hc
          exact he (by rw [e0, e1, hc])
        rw [if_neg]
        exact fun hcc => hj2 hcc.2
      · rw [if_neg]
        exact fun hcc => hqp hcc.1

/-- `PageTable::unmap` on a page whose intermediate walk already exists:
it clears exactly the one leaf slot, touching neither the node structure,
the byte memory, nor the allocator. -/
theorem PageTable.unmap_spec (s : MachineState) (root vpn : Nat)
    (s' : MachineState) (tinv : TreeInv s root)
    (hw : node2 s root (VirtPageNum.indexes vpn).1
      (VirtPageNum.indexes vpn).2.1 ≠ none)
    (h : PageTable.unmap s root vpn = some s') :
    TreeInv s' root ∧ s'.fa = s.fa ∧ s'.bts = s.bts ∧
    (∀ i, node1 s' root i = node1 s root i) ∧
    (∀ i j, node2 s' root i j = node2 s root i j) ∧
    (∀ w, PageTable.find_pte s' root w =
      if VirtPageNum.indexes w = VirtPageNum.indexes vpn then
        some PageTableEntry.empty
      else PageTable.find_pte s root w) := by
  rcases hidx : VirtPageNum.indexes vpn with ⟨i0, i1, i2⟩
  rw [hidx] at hw
  cases hn2 : node2 s root i0 i1 with
  | none => exact absurd hn2 hw
  | some p1 =>
    -- the walk takes the no-allocation branches
    have hstep : ∃ p0, childAt s root i0 = some p0 ∧ childAt s p0 i1 = some p1 := by
      unfold node2 at hn2
      cases hq : childAt s root i0 with
      | none => rw [hq] at hn2; simp at hn2
      | some p0 =>
        rw [hq] at hn2
        simp only [Option.some_bind] at hn2
        exact ⟨p0, rfl, hn2⟩
    obtain ⟨p0, hc0, hc1⟩ := hstep
    have hv0 : PageTableEntry.is_valid (s.mem root i0) = true := by
      by_cases hvv : PageTableEntry.is_valid (s.mem root i0) = true
      · exact hvv
      · rw [node1_of_invalid s root i0 (by simpa using hvv)] at hc0
        exact absurd hc0 (by simp)
    have hp0 : p0 = PageTableEntry.ppn (s.mem root i0) := by
      rw [node1_of_valid s root i0 hv0] at hc0
      exact (Option.some.injEq _ _ ▸ hc0).symm
    have hv1 : PageTableEntry.is_valid (s.mem p0 i1) = true := by
      by_cases hvv : PageTableEntry.is_valid (s.mem p0 i1) = true
      · exact hvv
      · rw [node1_of_invalid s p0 i1 (by simpa using hvv)] at hc1
        exact absurd hc1 (by simp)
    have hp1 : p1 = PageTableEntry.ppn (s.mem p0 i1) := by
      rw [node1_of_valid s p0 i1 hv1] at hc1
      exact (Option.some.injEq _ _ ▸ hc1).symm
    have hcreate : PageTable.find_pte_create s root vpn = some (s, p1, i2) := by
      unfold PageTable.find_pte_create
      rw [hidx]
      show (PageTable.walkStep s root i0).bind
        (fun r1 => Option.map (fun r2 => (r2.1, r2.2, i2))
          (PageTable.walkStep r1.1 r1.2 i1)) = some (s, p1, i2)
      rw [walkStep_valid s root i0 hv0]
      simp only [Option.some_bind]
      rw [walkStep_valid s (PageTableEntry.ppn (s.mem root i0)) i1
        (by rw [← hp0]; exact hv1)]
      simp only [Option.map_some']
      rw [← hp0, ← hp1]
    unfold PageTable.unmap at h
    rw [hcreate] at h
    simp only [Option.some_bind] at h
    by_cases hleaf : PageTableEntry.is_valid (s.mem p1 i2) = true
    · rw [if_pos (by exact hleaf)] at h
      have hs' : s' = writePte s p1 i2 PageTableEntry.empty := by
        cases h
        rfl
      subst hs'
      have hp1root : p1 ≠ root := tinv.n2NeRoot _ _ _ hn2
      have hp1n1 : ∀ i', node1 s root i' ≠ some p1 :=
        fun i' => tinv.n2NeN1 _ _ _ i' hn2
      refine ⟨?_, rfl, rfl, node1_writePte_ne_root s root p1 i2 _ hp1root,
        node2_writePte_ne s root p1 i2 _ hp1root hp1n1, ?_⟩
      · exact TreeInv_of s _ root tinv
          (node1_writePte_ne_root s root p1 i2 _ hp1root)
          (node2_writePte_ne s root p1 i2 _ hp1root hp1n1)
      · intro w
        exact find_pte_writePte_leaf s root tinv i0 i1 i2 p1
          PageTableEntry.empty hn2 w
    · rw [if_neg hleaf] at h
      exact absurd h (by simp)

/-- Installing a fresh level-2 child `f1` into entry `i1` of the level-1
node `p0` (reached by root index `i0x`) updates `node2` at exactly
`(i0x, i1)`. -/
theorem node2_writePte_n1 (s : MachineState) (root p0 i0x i1 f1 v : Nat)
    (tinv : TreeInv s root) (hn1 : childAt s root i0x = some p0)
    (hvalid : PageTableEntry.is_valid v = true)
    (hppn : PageTableEntry.ppn v = f1) :
    ∀ j k, node2 (writePte s p0 i1 v) root j k =
      if j = i0x ∧ k = i1 then some f1 else node2 s root j k := by
  intro j k
  have hp0root : p0 ≠ root := tinv.n1NeRoot i0x p0 hn1
  unfold node2
  have hlam : (fun q => childAt (writePte s p0 i1 v) q k)
      = fun q => if q = p0 ∧ k = i1 then some f1 else childAt s q k := by
    funext q
    rw [childAt_writePte]
    by_cases h : q = p0 ∧ k = i1
    · rw [if_pos h, if_pos h, hvalid]
      simp [hppn]
    · rw [if_neg h, if_neg h]
  have h1 : childAt (writePte s p0 i1 v) root j = childAt s root j :=
    node1_writePte_ne_root s root p0 i1 v hp0root j
  rw [hlam, h1]
  cases hq : childAt s root j with
  | none =>
    rw [if_neg]
    · rfl
    · rintro ⟨hj, _⟩
      rw [hj, hn1] at hq
      exact absurd hq (by simp)
  | some q =>
    simp only [Option.some_bind]
    by_cases hqp : q = p0
    · have hj : j = i0x := by
        rw [hqp] at hq
        exact tinv.n1Inj j i0x p0 hq hn1
      by_cases hk : k = i1
      · rw [if_pos ⟨hqp, hk⟩, if_pos ⟨hj, hk⟩]
      · rw [if_neg (fun hcc => hk hcc.2), if_neg (fun hcc => hk hcc.2)]
    · have hj : j ≠ i0x := by
        intro hc
        rw [hc, hn1] at hq
        have hpq : p0 = q := by simpa using hq
        exact hqp hpq.symm
      rw [if_neg (fun hcc => hqp hcc.1), if_neg (fun hcc => hj hcc.1)]

theorem pte_is_valid_new1 (p : Nat) :
    PageTableEntry.is_valid (PageTableEntry.new p 1) = true := by
  have h := pte_is_valid_new p 0
  rwa [Nat.zero_or] at h

theorem walkStep_none (s : MachineState) (node i : Nat)
    (h : PageTableEntry.is_valid (s.mem node i) = false)
    (hf : frameAlloc s = none) :
    PageTable.walkStep s node i = none := by
  unfold PageTable.walkStep
  rw [if_neg (by simp [h]), hf]
  rfl

theorem find_pte_congr (s' : MachineState) (root : Nat)
    (N : Nat → Nat → Option Nat) (M : Nat → Nat → Nat)
    (hn : ∀ j k, node2 s' root j k = N j k)
    (hm : ∀ p i, s'.mem p i = M p i) (w : Nat) :
    PageTable.find_pte s' root w =
      (N (VirtPageNum.indexes w).1 (VirtPageNum.indexes w).2.1).map
        (fun p => M p (VirtPageNum.indexes w).2.2) := by
  rw [find_pte_eq, hn]
  congr 1
  funext p
  exact hm p _

theorem node1_writePte_root (s : MachineState) (root i0 f0 v : Nat)
    (hvalid : PageTableEntry.is_valid v = true)
    (hppn : PageTableEntry.ppn v = f0) :
    ∀ j, node1 (writePte s root i0 v) root j =
      if j = i0 then some f0 else node1 s root j := by
  intro j
  show childAt _ root j = _
  rw [childAt_writePte]
  by_cases hc : j = i0
  · rw [if_pos ⟨rfl, hc⟩, if_pos hvalid, hppn, if_pos hc]
  · rw [if_neg (fun hcc => hc hcc.2), if_neg hc]
    rfl

theorem node2_writePte_root (s : MachineState) (root i0 f0 v : Nat)
    (tinv : TreeInv s root)
    (hvalid : PageTableEntry.is_valid v = true)
    (hppn : PageTableEntry.ppn v = f0)
    (hf0 : f0 ≠ root)
    (hf0inv : ∀ k, PageTableEntry.is_valid (s.mem f0 k) = false) :
    ∀ j k, node2 (writePte s root i0 v) root j k =
      if j = i0 then none else node2 s root j k := by
  intro j k
  have hn1 : childAt (writePte s root i0 v) root j
      = if j = i0 then some f0 else childAt s root j := by
    rw [childAt_writePte]
    by_cases hc : j = i0
    · rw [if_pos ⟨rfl, hc⟩, if_pos hvalid, hppn, if_pos hc]
    · rw [if_neg (fun hcc => hc hcc.2), if_neg hc]
  have hlam : (fun p => childAt (writePte s root i0 v) p k)
      = fun p => if p = root ∧ k = i0 then
          (if PageTableEntry.is_valid v then
            some (PageTableEntry.ppn v) else none)
        else childAt s p k :=
    funext fun p => childAt_writePte s root i0 v p k
  unfold node2
  rw [hn1, hlam]
  by_cases hc : j = i0
  · rw [if_pos hc, if_pos hc]
    simp only [Option.some_bind]
    rw [if_neg (fun hcc => hf0 hcc.1)]
    exact node1_of_invalid s f0 k (hf0inv k)
  · rw [if_neg hc, if_neg hc]
    cases hcj : childAt s root j with
    | none => rfl
    | some p =>
      simp only [Option.some_bind]
      rw [if_neg (fun hcc => tinv.n1NeRoot j p hcj hcc.1)]

set_option maxHeartbeats 1000000 in
theorem PageTable.map_spec (s : MachineState) (root vpn ppn flags : Nat)
    (s' : MachineState) (inv : PTInv s root)
    (h : PageTable.map s root vpn ppn flags = some s') :
    PTInv s' root ∧
    s'.fa.ends = s.fa.ends ∧ s.fa.current ≤ s'.fa.current ∧
    absentPte s root vpn = true ∧
    PageTable.find_pte s' root vpn =
      some (PageTableEntry.new ppn (flags ||| 1)) ∧
    (∀ w, VirtPageNum.indexes w ≠ VirtPageNum.indexes vpn →
      (absentPte s root w = true → absentPte s' root w = true) ∧
      (∀ e, PageTable.find_pte s root w = some e →
        PageTableEntry.is_valid e = true →
        PageTable.find_pte s' root w = some e)) := by
  rcases hidx : VirtPageNum.indexes vpn with ⟨i0, i1, i2⟩
  unfold PageTable.map PageTable.find_pte_create at h
  rw [hidx] at h
  replace h : ((PageTable.walkStep s root i0).bind fun r1 =>
      Option.map (fun r2 => (r2.1, r2.2, i2))
        (PageTable.walkStep r1.1 r1.2 i1)).bind (fun r =>
      if PageTableEntry.is_valid (r.1.mem r.2.1 r.2.2) then none
      else some (writePte r.1 r.2.1 r.2.2
        (PageTableEntry.new ppn (flags ||| 1)))) = some s' := h
  have hfpv : PageTable.find_pte s root vpn =
      (node2 s root i0 i1).map (fun p => s.mem p i2) := by
    rw [find_pte_eq, hidx]
  by_cases hv0 : PageTableEntry.is_valid (s.mem root i0) = true
  · -- level-0 entry valid
    rw [walkStep_valid s root i0 hv0] at h
    simp only [Option.some_bind] at h
    have hn1 : childAt s root i0
        = some (PageTableEntry.ppn (s.mem root i0)) :=
      node1_of_valid s root i0 hv0
    by_cases hv1 : PageTableEntry.is_valid
        (s.mem (PageTableEntry.ppn (s.mem root i0)) i1) = true
    · -- level-1 entry valid: no allocation
      rw [walkStep_valid s _ i1 hv1] at h
      simp only [Option.map_some', Option.some_bind] at h
      have hn1b : childAt s (PageTableEntry.ppn (s.mem root i0)) i1
          = some (PageTableEntry.ppn
            (s.mem (PageTableEntry.ppn (s.mem root i0)) i1)) :=
        node1_of_valid s _ i1 hv1
      have hn2 : node2 s root i0 i1
          = some (PageTableEntry.ppn
            (s.mem (PageTableEntry.ppn (s.mem root i0)) i1)) := by
        unfold node2
        rw [hn1]
        simpa using hn1b
      by_cases hleaf : PageTableEntry.is_valid
          (s.mem (PageTableEntry.ppn
            (s.mem (PageTableEntry.ppn (s.mem root i0)) i1)) i2) = true
      · rw [if_pos hleaf] at h
        exact absurd h (by simp)
      · rw [if_neg hleaf] at h
        replace h : writePte s
            (PageTableEntry.ppn (s.mem (PageTableEntry.ppn
              (s.mem root i0)) i1)) i2
            (PageTableEntry.new ppn (flags ||| 1)) = s' := by
          cases h
          rfl
        have hleafb : PageTableEntry.is_valid
            (s.mem (PageTableEntry.ppn
              (s.mem (PageTableEntry.ppn (s.mem root i0)) i1)) i2)
            = false := by
          simpa using hleaf
        have hfp := find_pte_writePte_leaf s root inv.tree i0 i1 i2 _
          (PageTableEntry.new ppn (flags ||| 1)) hn2
        have hp1root : PageTableEntry.ppn
            (s.mem (PageTableEntry.ppn (s.mem root i0)) i1) ≠ root :=
          inv.tree.n2NeRoot _ _ _ hn2
        have hp1n1 : ∀ i', node1 s root i' ≠ some (PageTableEntry.ppn
            (s.mem (PageTableEntry.ppn (s.mem root i0)) i1)) :=
          fun i' => inv.tree.n2NeN1 _ _ _ i' hn2
        have hnode1 := node1_writePte_ne_root s root _ i2
          (PageTableEntry.new ppn (flags ||| 1)) hp1root
        have hnode2 := node2_writePte_ne s root _ i2
          (PageTableEntry.new ppn (flags ||| 1)) hp1root hp1n1
        rw [← h]
        refine ⟨?_, rfl, le_refl _, ?_, ?_, ?_⟩
        · exact PTInv_of s _ root inv hnode1 hnode2 (le_refl _) rfl
            inv.curLe (fun p hp => hp) inv.recNodup
        · unfold absentPte
          rw [hfpv, hn2]
          simp [hleafb]
        · rw [hfp vpn, hidx, if_pos rfl]
        · intro w hw
          have heq : PageTable.find_pte (writePte s
              (PageTableEntry.ppn (s.mem (PageTableEntry.ppn
                (s.mem root i0)) i1)) i2
              (PageTableEntry.new ppn (flags ||| 1))) root w
              = PageTable.find_pte s root w := by
            rw [hfp w, if_neg hw]
          constructor
          · intro ha
            unfold absentPte at ha ⊢
            rw [heq]
            exact ha
          · intro e he _
            rw [heq]
            exact he
    · -- level-1 entry invalid: allocate the level-2 node
      have hv1b : PageTableEntry.is_valid
          (s.mem (PageTableEntry.ppn (s.mem root i0)) i1) = false := by
        simpa using hv1
      rcases hfa : frameAlloc s with _ | ⟨f1, sa⟩
      · rw [walkStep_none s _ i1 hv1b hfa] at h
        exact absurd h (by simp)
      · obtain ⟨FSinv, FSends, FScur, FSflt, FSf44, FSfroot, FSn1eq, FSn2eq,
          FSn1ne, FSn2ne, FSmemne, FSmemf, FSrec, FSbts⟩ :=
          frameAlloc_spec s root f1 sa inv hfa
        rw [walkStep_invalid s _ i1 f1 sa hv1b hfa,
          pte_ppn_new f1 1 FSf44 (by norm_num)] at h
        simp only [Option.map_some', Option.some_bind] at h
        have hf1nep0 : f1 ≠ PageTableEntry.ppn (s.mem root i0) := by
          intro he
          have hco : childAt s root i0 = some f1 := by
            rw [hn1, he]
          exact FSn1ne i0 hco
        have hmemleaf : (writePte sa (PageTableEntry.ppn (s.mem root i0)) i1
            (PageTableEntry.new f1 1)).mem f1 i2 = 0 := by
          rw [writePte_mem, if_neg (fun hc => hf1nep0 hc.1), FSmemf]
        rw [hmemleaf, pte_is_valid_zero] at h
        simp only [Bool.false_eq_true, if_false, Option.some.injEq] at h
        -- the new state
        have hp0root : PageTableEntry.ppn (s.mem root i0) ≠ root :=
          inv.tree.n1NeRoot i0 _ hn1
        have hn1sa : childAt sa root i0
            = some (PageTableEntry.ppn (s.mem root i0)) :=
          (FSn1eq i0).trans hn1
        have hN1 : ∀ j, node1 s' root j = node1 s root j := by
          intro j
          rw [← h]
          rw [node1_writePte_ne_root _ root f1 i2 _ FSfroot j,
            node1_writePte_ne_root _ root _ i1 _ hp0root j]
          exact FSn1eq j
        have hn2s2 : ∀ j k, node2 (writePte sa
            (PageTableEntry.ppn (s.mem root i0)) i1
            (PageTableEntry.new f1 1)) root j k =
            if j = i0 ∧ k = i1 then some f1 else node2 s root j k := by
          intro j k
          rw [node2_writePte_n1 sa root _ i0 i1 f1 _ FSinv.tree hn1sa
            (pte_is_valid_new1 f1) (pte_ppn_new f1 1 FSf44 (by norm_num)) j k]
          by_cases hc : j = i0 ∧ k = i1
          · rw [if_pos hc, if_pos hc]
          · rw [if_neg hc, if_neg hc, FSn2eq]
        have hn1s2ne : ∀ i', node1 (writePte sa
            (PageTableEntry.ppn (s.mem root i0)) i1
            (PageTableEntry.new f1 1)) root i' ≠ some f1 := by
          intro i'
          rw [node1_writePte_ne_root _ root _ i1 _ hp0root i', FSn1eq i']
          exact FSn1ne i'
        have hN2 : ∀ j k, node2 s' root j k =
            if j = i0 ∧ k = i1 then some f1 else node2 s root j k := by
          intro j k
          rw [← h]
          rw [node2_writePte_ne _ root f1 i2 _ FSfroot hn1s2ne j k]
          exact hn2s2 j k
        have hM : ∀ p i, s'.mem p i =
            if p = f1 ∧ i = i2 then PageTableEntry.new ppn (flags ||| 1)
            else if p = PageTableEntry.ppn (s.mem root i0) ∧ i = i1 then
              PageTableEntry.new f1 1
            else if p = f1 then 0 else s.mem p i := by
          intro p i
          rw [← h, writePte_mem, writePte_mem]
          by_cases hc1 : p = f1 ∧ i = i2
          · rw [if_pos hc1, if_pos hc1]
          · rw [if_neg hc1, if_neg hc1]
            by_cases hc2 : p = PageTableEntry.ppn (s.mem root i0) ∧ i = i1
            · rw [if_pos hc2, if_pos hc2]
            · rw [if_neg hc2, if_neg hc2]
              by_cases hc3 : p = f1
              · rw [if_pos hc3, hc3, FSmemf]
              · rw [if_neg hc3, FSmemne p i hc3]
        have hfa' : s'.fa = sa.fa := by
          rw [← h]
          rfl
        have hfps' := find_pte_congr s' root
          (fun j k => if j = i0 ∧ k = i1 then some f1 else node2 s root j k)
          (fun p i =>
            if p = f1 ∧ i = i2 then PageTableEntry.new ppn (flags ||| 1)
            else if p = PageTableEntry.ppn (s.mem root i0) ∧ i = i1 then
              PageTableEntry.new f1 1
            else if p = f1 then 0 else s.mem p i)
          hN2 hM
        have hfpnone : PageTable.find_pte s root vpn = none := by
          rw [hfpv]
          unfold node2
          rw [hn1]
          simp only [Option.some_bind]
          rw [node1_of_invalid s _ i1 hv1b]
          rfl
        refine ⟨?_, ?_, ?_, ?_, ?_, ?_⟩
        · -- PTInv s'
          refine ⟨⟨?_, ?_, ?_, ?_, ?_⟩, ?_, ?_, ?_, ?_, ?_, ?_, ?_, ?_, ?_, ?_⟩
          · intro i p hn
            rw [hN1] at hn
            exact inv.tree.n1NeRoot i p hn
          · intro i i' p hn hn'
            rw [hN1] at hn hn'
            exact inv.tree.n1Inj i i' p hn hn'
          · intro i j p hn
            rw [hN2] at hn
            by_cases hc : i = i0 ∧ j = i1
            · rw [if_pos hc] at hn
              have : p = f1 := by simpa using hn.symm
              rw [this]
              exact FSfroot
            · rw [if_neg hc] at hn
              exact inv.tree.n2NeRoot i j p hn
          · intro i j p i' hn
            rw [hN2] at hn
            rw [hN1]
            by_cases hc : i = i0 ∧ j = i1
            · rw [if_pos hc] at hn
              have hp : p = f1 := by simpa using hn.symm
              rw [hp]
              exact FSn1ne i'
            · rw [if_neg hc] at hn
              exact inv.tree.n2NeN1 i j p i' hn
          · intro i j i' j' p hn hn'
            rw [hN2] at hn hn'
            by_cases hc : i = i0 ∧ j = i1
            · rw [if_pos hc] at hn
              have hp : p = f1 := by simpa using hn.symm
              by_cases hc' : i' = i0 ∧ j' = i1
              · exact ⟨hc.1.trans hc'.1.symm, hc.2.trans hc'.2.symm⟩
              · rw [if_neg hc'] at hn'
                rw [hp] at hn'
                exact absurd hn' (FSn2ne i' j')
            · rw [if_neg hc] at hn
              by_cases hc' : i' = i0 ∧ j' = i1
              · rw [if_pos hc'] at hn'
                have hp : p = f1 := by simpa using hn'.symm
                rw [hp] at hn
                exact absurd hn (FSn2ne i j)
              · rw [if_neg hc'] at hn'
                exact inv.tree.n2Inj i j i' j' p hn hn'
          · rw [hfa']
            exact FSinv.curLe
          · rw [hfa']
            exact FSinv.endsLe
          · rw [hfa']
            exact FSinv.rootLt
          · intro i p hn
            rw [hN1] at hn
            rw [hfa']
            exact lt_of_lt_of_le (inv.n1Lt i p hn) FScur
          · intro i j p hn
            rw [hN2] at hn
            rw [hfa']
            by_cases hc : i = i0 ∧ j = i1
            · rw [if_pos hc] at hn
              have hp : p = f1 := by simpa using hn.symm
              rw [hp]
              exact FSflt
            · rw [if_neg hc] at hn
              exact lt_of_lt_of_le (inv.n2Lt i j p hn) FScur
          · intro p hp
            rw [hfa'] at hp ⊢
            exact FSinv.recLt p hp
          · rw [hfa']
            exact FSinv.recNodup
          · intro p hp
            rw [hfa'] at hp
            exact FSinv.recNeRoot p hp
          · intro p hp i
            rw [hfa'] at hp
            rw [hN1]
            have := FSinv.recNeN1 p hp i
            rwa [FSn1eq] at this
          · intro p hp i j
            rw [hfa'] at hp
            rw [hN2]
            by_cases hc : i = i0 ∧ j = i1
            · rw [if_pos hc]
              intro hco
              have hp1 : f1 = p := by simpa using hco
              rw [← hp1] at hp
              exact FSrec hp
            · rw [if_neg hc]
              have := FSinv.recNeN2 p hp i j
              rwa [FSn2eq] at this
        · rw [hfa']
          exact FSends
        · rw [hfa']
          exact FScur
        · unfold absentPte
          rw [hfpnone]
        · have hstep : PageTable.find_pte s' root vpn
              = (if i0 = i0 ∧ i1 = i1 then some f1
                  else node2 s root i0 i1).map
                (fun p =>
                  if p = f1 ∧ i2 = i2 then
                    PageTableEntry.new ppn (flags ||| 1)
                  else if p = PageTableEntry.ppn (s.mem root i0) ∧ i2 = i1
                    then PageTableEntry.new f1 1
                  else if p = f1 then 0 else s.mem p i2) := by
            rw [hfps' vpn, hidx]
          have hcA : i0 = i0 ∧ i1 = i1 := ⟨rfl, rfl⟩
          rw [hstep, if_pos hcA]
          simp
        · intro w hw
          rcases hidxw : VirtPageNum.indexes w with ⟨j0, j1, j2⟩
          rw [hidxw] at hw
          have hfpw : PageTable.find_pte s root w
              = (node2 s root j0 j1).map (fun p => s.mem p j2) := by
            rw [find_pte_eq, hidxw]
          have hfpw' : PageTable.find_pte s' root w
              = (if j0 = i0 ∧ j1 = i1 then some f1
                  else node2 s root j0 j1).map
                (fun p =>
                  if p = f1 ∧ j2 = i2 then
                    PageTableEntry.new ppn (flags ||| 1)
                  else if p = PageTableEntry.ppn (s.mem root i0) ∧ j2 = i1
                    then PageTableEntry.new f1 1
                  else if p = f1 then 0 else s.mem p j2) := by
            rw [hfps' w, hidxw]
          by_cases hc : j0 = i0 ∧ j1 = i1
          · -- the page shares the new intermediate path: it was and stays absent
            have hj2 : j2 ≠ i2 := by
              intro hcc
              exact hw (by rw [hc.1, hc.2, hcc])
            have hnone : node2 s root j0 j1 = none := by
              rw [hc.1, hc.2]
              unfold node2
              rw [hn1]
              simp only [Option.some_bind]
              exact node1_of_invalid s _ i1 hv1b
            constructor
            · intro _
              unfold absentPte
              rw [hfpw', if_pos hc]
              simp [hj2, hf1nep0, pte_is_valid_zero]
            · intro e he _
              rw [hfpw, hnone] at he
              exact absurd he (by simp)
          · rw [if_neg hc] at hfpw'
            cases hq : node2 s root j0 j1 with
            | none =>
              constructor
              · intro _
                unfold absentPte
                rw [hfpw', hq]
                rfl
              · intro e he _
                rw [hfpw, hq] at he
                exact absurd he (by simp)
            | some q =>
              have hqf1 : q ≠ f1 := by
                intro he
                rw [he] at hq
                exact FSn2ne j0 j1 hq
              have hqp0 : q ≠ PageTableEntry.ppn (s.mem root i0) := by
                intro he
                have hco := inv.tree.n2NeN1 j0 j1 q i0 hq
                rw [he] at hco
                exact hco hn1
              have heq : PageTable.find_pte s' root w
                  = PageTable.find_pte s root w := by
                rw [hfpw', hfpw, hq]
                simp [hqf1, hqp0]
              constructor
              · intro ha
                unfold absentPte at ha ⊢
                rw [heq]
                exact ha
              · intro e he _
                rw [heq]
                exact he

  · -- level-0 entry invalid: allocate both intermediate nodes
    have hv0b : PageTableEntry.is_valid (s.mem root i0) = false := by
      simpa using hv0
    have hn1none : childAt s root i0 = none := node1_of_invalid s root i0 hv0b
    rcases hfa0 : frameAlloc s with _ | ⟨f0, s0⟩
    · rw [walkStep_none s root i0 hv0b hfa0] at h
      exact absurd h (by simp)
    obtain ⟨FS0inv, FS0ends, FS0cur, FS0flt, FS0f44, FS0froot, FS0n1eq, FS0n2eq,
        FS0n1ne, FS0n2ne, FS0memne, FS0memf, FS0rec, FS0bts⟩ :=
      frameAlloc_spec s root f0 s0 inv hfa0
    rw [walkStep_invalid s root i0 f0 s0 hv0b hfa0,
      pte_ppn_new f0 1 FS0f44 (by norm_num)] at h
    simp only [Option.some_bind] at h
    have hval0 : PageTableEntry.is_valid (PageTableEntry.new f0 1) = true :=
      pte_is_valid_new1 f0
    have hppn0 : PageTableEntry.ppn (PageTableEntry.new f0 1) = f0 :=
      pte_ppn_new f0 1 FS0f44 (by norm_num)
    have hf0invalid : ∀ k, PageTableEntry.is_valid (s0.mem f0 k) = false := by
      intro k
      rw [FS0memf, pte_is_valid_zero]
    have hN1s1 : ∀ j,
        node1 (writePte s0 root i0 (PageTableEntry.new f0 1)) root j
        = if j = i0 then some f0 else node1 s root j := by
      intro j
      rw [node1_writePte_root s0 root i0 f0 _ hval0 hppn0 j]
      by_cases hc : j = i0
      · rw [if_pos hc, if_pos hc]
      · rw [if_neg hc, if_neg hc, FS0n1eq]
    have hN2s1 : ∀ j k,
        node2 (writePte s0 root i0 (PageTableEntry.new f0 1)) root j k
        = if j = i0 then none else node2 s root j k := by
      intro j k
      rw [node2_writePte_root s0 root i0 f0 _ FS0inv.tree hval0 hppn0
        FS0froot hf0invalid j k]
      by_cases hc : j = i0
      · rw [if_pos hc, if_pos hc]
      · rw [if_neg hc, if_neg hc, FS0n2eq]
    have inv1 : PTInv (writePte s0 root i0 (PageTableEntry.new f0 1)) root := by
      refine ⟨⟨?_, ?_, ?_, ?_, ?_⟩, ?_, ?_, ?_, ?_, ?_, ?_, ?_, ?_, ?_, ?_⟩
      · intro i p hn
        rw [hN1s1] at hn
        by_cases hc : i = i0
        · rw [if_pos hc] at hn
          have hp : p = f0 := by simpa using hn.symm
          rw [hp]
          exact FS0froot
        · rw [if_neg hc] at hn
          exact inv.tree.n1NeRoot i p hn
      · intro i i' p hn hn'
        rw [hN1s1] at hn hn'
        by_cases hc : i = i0
        · by_cases hc' : i' = i0
          · rw [hc, hc']
          · rw [if_pos hc] at hn
            rw [if_neg hc'] at hn'
            have hp : p = f0 := by simpa using hn.symm
            rw [hp] at hn'
            exact absurd hn' (FS0n1ne i')
        · rw [if_neg hc] at hn
          by_cases hc' : i' = i0
          · rw [if_pos hc'] at hn'
            have hp : p = f0 := by simpa using hn'.symm
            rw [hp] at hn
            exact absurd hn (FS0n1ne i)
          · rw [if_neg hc'] at hn'
            exact inv.tree.n1Inj i i' p hn hn'
      · intro i j p hn
        rw [hN2s1] at hn
        by_cases hc : i = i0
        · rw [if_pos hc] at hn
          exact absurd hn (by simp)
        · rw [if_neg hc] at hn
          exact inv.tree.n2NeRoot i j p hn
      · intro i j p i' hn
        rw [hN2s1] at hn
        rw [hN1s1]
        by_cases hc : i = i0
        · rw [if_pos hc] at hn
          exact absurd hn (by simp)
        · rw [if_neg hc] at hn
          by_cases hc' : i' = i0
          · rw [if_pos hc']
            intro hco
            have hp : f0 = p := by simpa using hco
            rw [← hp] at hn
            exact FS0n2ne i j hn
          · rw [if_neg hc']
            exact inv.tree.n2NeN1 i j p i' hn
      · intro i j i' j' p hn hn'
        rw [hN2s1] at hn hn'
        by_cases hc : i = i0
        · rw [if_pos hc] at hn
          exact absurd hn (by simp)
        · rw [if_neg hc] at hn
          by_cases hc' : i' = i0
          · rw [if_pos hc'] at hn'
            exact absurd hn' (by simp)
          · rw [if_neg hc'] at hn'
            exact inv.tree.n2Inj i j i' j' p hn hn'
      · exact FS0inv.curLe
      · exact FS0inv.endsLe
      · exact FS0inv.rootLt
      · intro i p hn
        rw [hN1s1] at hn
        by_cases hc : i = i0
        · rw [if_pos hc] at hn
          have hp : p = f0 := by simpa using hn.symm
          rw [hp]
          exact FS0flt
        · rw [if_neg hc] at hn
          exact lt_of_lt_of_le (inv.n1Lt i p hn) FS0cur
      · intro i j p hn
        rw [hN2s1] at hn
        by_cases hc : i = i0
        · rw [if_pos hc] at hn
          exact absurd hn (by simp)
        · rw [if_neg hc] at hn
          exact lt_of_lt_of_le (inv.n2Lt i j p hn) FS0cur
      · exact FS0inv.recLt
      · exact FS0inv.recNodup
      · exact FS0inv.recNeRoot
      · intro p hp i
        rw [hN1s1]
        replace hp : p ∈ s0.fa.recycled := hp
        by_cases hc : i = i0
        · rw [if_pos hc]
          intro hco
          have hp1 : f0 = p := by simpa using hco
          rw [← hp1] at hp
          exact FS0rec hp
        · rw [if_neg hc]
          have h2 := FS0inv.recNeN1 p hp i
          rwa [FS0n1eq] at h2
      · intro p hp j k
        rw [hN2s1]
        replace hp : p ∈ s0.fa.recycled := hp
        by_cases hc : j = i0
        · rw [if_pos hc]
          simp
        · rw [if_neg hc]
          have h2 := FS0inv.recNeN2 p hp j k
          rwa [FS0n2eq] at h2
    have hv1s1 : PageTableEntry.is_valid
        ((writePte s0 root i0 (PageTableEntry.new f0 1)).mem f0 i1) = false := by
      rw [writePte_mem, if_neg (fun hcc => FS0froot hcc.1), FS0memf,
        pte_is_valid_zero]
    rcases hfa1 : frameAlloc (writePte s0 root i0 (PageTableEntry.new f0 1))
        with _ | ⟨f1, sb⟩
    · rw [walkStep_none _ f0 i1 hv1s1 hfa1] at h
      exact absurd h (by simp)
    obtain ⟨FS1inv, FS1ends, FS1cur, FS1flt, FS1f44, FS1froot, FS1n1eq, FS1n2eq,
        FS1n1ne, FS1n2ne, FS1memne, FS1memf, FS1rec, FS1bts⟩ :=
      frameAlloc_spec _ root f1 sb inv1 hfa1
    rw [walkStep_invalid _ f0 i1 f1 sb hv1s1 hfa1,
      pte_ppn_new f1 1 FS1f44 (by norm_num)] at h
    simp only [Option.map_some', Option.some_bind] at h
    have hf1f0 : f1 ≠ f0 := by
      intro he
      apply FS1n1ne i0
      rw [hN1s1 i0, if_pos rfl, he]
    have hmemleaf : (writePte sb f0 i1 (PageTableEntry.new f1 1)).mem f1 i2
        = 0 := by
      rw [writePte_mem, if_neg (fun hc => hf1f0 hc.1), FS1memf]
    rw [hmemleaf, pte_is_valid_zero] at h
    simp only [Bool.false_eq_true, if_false, Option.some.injEq] at h
    have hn1s2ne : ∀ i',
        node1 (writePte sb f0 i1 (PageTableEntry.new f1 1)) root i'
        ≠ some f1 := by
      intro i'
      rw [node1_writePte_ne_root sb root f0 i1 _ FS0froot i', FS1n1eq i']
      exact FS1n1ne i'
    have hn1sb : childAt sb root i0 = some f0 := by
      have h2 := (FS1n1eq i0).trans (hN1s1 i0)
      rw [if_pos rfl] at h2
      exact h2
    have hN1' : ∀ j, node1 s' root j
        = if j = i0 then some f0 else node1 s root j := by
      intro j
      rw [← h, node1_writePte_ne_root _ root f1 i2 _ FS1froot j,
        node1_writePte_ne_root sb root f0 i1 _ FS0froot j, FS1n1eq j, hN1s1 j]
    have hN2' : ∀ j k, node2 s' root j k =
        if j = i0 ∧ k = i1 then some f1
        else if j = i0 then none else node2 s root j k := by
      intro j k
      rw [← h, node2_writePte_ne _ root f1 i2 _ FS1froot hn1s2ne j k,
        node2_writePte_n1 sb root f0 i0 i1 f1 _ FS1inv.tree hn1sb
          (pte_is_valid_new1 f1) (pte_ppn_new f1 1 FS1f44 (by norm_num)) j k]
      by_cases hc1 : j = i0 ∧ k = i1
      · rw [if_pos hc1, if_pos hc1]
      · rw [if_neg hc1, if_neg hc1, FS1n2eq, hN2s1]
    have hM : ∀ p i, s'.mem p i =
        if p = f1 ∧ i = i2 then PageTableEntry.new ppn (flags ||| 1)
        else if p = f0 ∧ i = i1 then PageTableEntry.new f1 1
        else if p = f1 then 0
        else if p = root ∧ i = i0 then PageTableEntry.new f0 1
        else if p = f0 then 0 else s.mem p i := by
      intro p i
      rw [← h, writePte_mem, writePte_mem]
      by_cases hc1 : p = f1 ∧ i = i2
      · rw [if_pos hc1, if_pos hc1]
      · rw [if_neg hc1, if_neg hc1]
        by_cases hc2 : p = f0 ∧ i = i1
        · rw [if_pos hc2, if_pos hc2]
        · rw [if_neg hc2, if_neg hc2]
          by_cases hc3 : p = f1
          · rw [if_pos hc3, hc3, FS1memf]
          · rw [if_neg hc3, FS1memne p i hc3, writePte_mem]
            by_cases hc4 : p = root ∧ i = i0
            · rw [if_pos hc4, if_pos hc4]
            · rw [if_neg hc4, if_neg hc4]
              by_cases hc5 : p = f0
              · rw [if_pos hc5, hc5, FS0memf]
              · rw [if_neg hc5, FS0memne p i hc5]
    have hfa' : s'.fa = sb.fa := by
      rw [← h]
      rfl
    have hfps' := find_pte_congr s' root
      (fun j k => if j = i0 ∧ k = i1 then some f1
        else if j = i0 then none else node2 s root j k)
      (fun p i =>
        if p = f1 ∧ i = i2 then PageTableEntry.new ppn (flags ||| 1)
        else if p = f0 ∧ i = i1 then PageTableEntry.new f1 1
        else if p = f1 then 0
        else if p = root ∧ i = i0 then PageTableEntry.new f0 1
        else if p = f0 then 0 else s.mem p i)
      hN2' hM
    have hfpnone : PageTable.find_pte s root vpn = none := by
      rw [hfpv]
      unfold node2
      rw [hn1none]
      rfl
    refine ⟨?_, ?_, ?_, ?_, ?_, ?_⟩
    · -- PTInv s'
      refine ⟨⟨?_, ?_, ?_, ?_, ?_⟩, ?_, ?_, ?_, ?_, ?_, ?_, ?_, ?_, ?_, ?_⟩
      · intro i p hn
        rw [hN1'] at hn
        by_cases hc : i = i0
        · rw [if_pos hc] at hn
          have hp : p = f0 := by simpa using hn.symm
          rw [hp]
          exact FS0froot
        · rw [if_neg hc] at hn
          exact inv.tree.n1NeRoot i p hn
      · intro i i' p hn hn'
        rw [hN1'] at hn hn'
        by_cases hc : i = i0
        · by_cases hc' : i' = i0
          · rw [hc, hc']
          · rw [if_pos hc] at hn
            rw [if_neg hc'] at hn'
            have hp : p = f0 := by simpa using hn.symm
            rw [hp] at hn'
            exact absurd hn' (FS0n1ne i')
        · rw [if_neg hc] at hn
          by_cases hc' : i' = i0
          · rw [if_pos hc'] at hn'
            have hp : p = f0 := by simpa using hn'.symm
            rw [hp] at hn
            exact absurd hn (FS0n1ne i)
          · rw [if_neg hc'] at hn'
            exact inv.tree.n1Inj i i' p hn hn'
      · intro i j p hn
        rw [hN2'] at hn
        by_cases hc1 : i = i0 ∧ j = i1
        · rw [if_pos hc1] at hn
          have hp : p = f1 := by simpa using hn.symm
          rw [hp]
          exact FS1froot
        · rw [if_neg hc1] at hn
          by_cases hc2 : i = i0
          · rw [if_pos hc2] at hn
            exact absurd hn (by simp)
          · rw [if_neg hc2] at hn
            exact inv.tree.n2NeRoot i j p hn
      · intro i j p i' hn
        rw [hN2'] at hn
        rw [hN1']
        by_cases hc1 : i = i0 ∧ j = i1
        · rw [if_pos hc1] at hn
          have hp : p = f1 := by simpa using hn.symm
          rw [hp]
          by_cases hc' : i' = i0
          · rw [if_pos hc']
            intro hco
            exact hf1f0 (by simpa using hco.symm)
          · rw [if_neg hc']
            have h2 := FS1n1ne i'
            rw [hN1s1 i', if_neg hc'] at h2
            exact h2
        · rw [if_neg hc1] at hn
          by_cases hc2 : i = i0
          · rw [if_pos hc2] at hn
            exact absurd hn (by simp)
          · rw [if_neg hc2] at hn
            by_cases hc' : i' = i0
            · rw [if_pos hc']
              intro hco
              have hp : f0 = p := by simpa using hco
              rw [← hp] at hn
              exact FS0n2ne i j hn
            · rw [if_neg hc']
              exact inv.tree.n2NeN1 i j p i' hn
      · intro i j i' j' p hn hn'
        rw [hN2'] at hn hn'
        by_cases hc1 : i = i0 ∧ j = i1
        · rw [if_pos hc1] at hn
          have hp : p = f1 := by simpa using hn.symm
          by_cases hc1' : i' = i0 ∧ j' = i1
          · exact ⟨hc1.1.trans hc1'.1.symm, hc1.2.trans hc1'.2.symm⟩
          · rw [if_neg hc1'] at hn'
            by_cases hc2' : i' = i0
            · rw [if_pos hc2'] at hn'
              exact absurd hn' (by simp)
            · rw [if_neg hc2'] at hn'
              have h2 := FS1n2ne i' j'
              rw [hN2s1 i' j', if_neg hc2'] at h2
              rw [hp] at hn'
              exact absurd hn' h2
        · rw [if_neg hc1] at hn
          by_cases hc2 : i = i0
          · rw [if_pos hc2] at hn
            exact absurd hn (by simp)
          · rw [if_neg hc2] at hn
            by_cases hc1' : i' = i0 ∧ j' = i1
            · rw [if_pos hc1'] at hn'
              have hp : p = f1 := by simpa using hn'.symm
              have h2 := FS1n2ne i j
              rw [hN2s1 i j, if_neg hc2] at h2
              rw [hp] at hn
              exact absurd hn h2
            · rw [if_neg hc1'] at hn'
              by_cases hc2' : i' = i0
              · rw [if_pos hc2'] at hn'
                exact absurd hn' (by simp)
              · rw [if_neg hc2'] at hn'
                exact inv.tree.n2Inj i j i' j' p hn hn'
      · rw [hfa']
        exact FS1inv.curLe
      · rw [hfa']
        exact FS1inv.endsLe
      · rw [hfa']
        exact FS1inv.rootLt
      · intro i p hn
        rw [hN1'] at hn
        rw [hfa']
        by_cases hc : i = i0
        · rw [if_pos hc] at hn
          have hp : p = f0 := by simpa using hn.symm
          rw [hp]
          exact lt_of_lt_of_le FS0flt FS1cur
        · rw [if_neg hc] at hn
          exact lt_of_lt_of_le (inv.n1Lt i p hn) (le_trans FS0cur FS1cur)
      · intro i j p hn
        rw [hN2'] at hn
        rw [hfa']
        by_cases hc1 : i = i0 ∧ j = i1
        · rw [if_pos hc1] at hn
          have hp : p = f1 := by simpa using hn.symm
          rw [hp]
          exact FS1flt
        · rw [if_neg hc1] at hn
          by_cases hc2 : i = i0
          · rw [if_pos hc2] at hn
            exact absurd hn (by simp)
          · rw [if_neg hc2] at hn
            exact lt_of_lt_of_le (inv.n2Lt i j p hn) (le_trans FS0cur FS1cur)
      · intro p hp
        rw [hfa'] at hp ⊢
        exact FS1inv.recLt p hp
      · rw [hfa']
        exact FS1inv.recNodup
      · intro p hp
        rw [hfa'] at hp
        exact FS1inv.recNeRoot p hp
      · intro p hp i
        rw [hfa'] at hp
        rw [hN1']
        have h2 := FS1inv.recNeN1 p hp i
        rw [FS1n1eq i, hN1s1 i] at h2
        exact h2
      · intro p hp j k
        rw [hfa'] at hp
        rw [hN2']
        by_cases hc1 : j = i0 ∧ k = i1
        · rw [if_pos hc1]
          intro hco
          have hp1 : f1 = p := by simpa using hco
          rw [← hp1] at hp
          exact FS1rec hp
        · rw [if_neg hc1]
          have h2 := FS1inv.recNeN2 p hp j k
          rw [FS1n2eq j k, hN2s1 j k] at h2
          exact h2
    · rw [hfa']
      exact FS1ends.trans FS0ends
    · rw [hfa']
      exact le_trans FS0cur FS1cur
    · unfold absentPte
      rw [hfpnone]
    · have hstep : PageTable.find_pte s' root vpn
          = (if i0 = i0 ∧ i1 = i1 then some f1
              else if i0 = i0 then none else node2 s root i0 i1).map
            (fun p =>
              if p = f1 ∧ i2 = i2 then PageTableEntry.new ppn (flags ||| 1)
              else if p = f0 ∧ i2 = i1 then PageTableEntry.new f1 1
              else if p = f1 then 0
              else if p = root ∧ i2 = i0 then PageTableEntry.new f0 1
              else if p = f0 then 0 else s.mem p i2) := by
        rw [hfps' vpn, hidx]
      have hcA : i0 = i0 ∧ i1 = i1 := ⟨rfl, rfl⟩
      rw [hstep, if_pos hcA]
      simp
    · intro w hw
      rcases hidxw : VirtPageNum.indexes w with ⟨j0, j1, j2⟩
      rw [hidxw] at hw
      have hfpw : PageTable.find_pte s root w
          = (node2 s root j0 j1).map (fun p => s.mem p j2) := by
        rw [find_pte_eq, hidxw]
      have hfpw' : PageTable.find_pte s' root w
          = (if j0 = i0 ∧ j1 = i1 then some f1
              else if j0 = i0 then none else node2 s root j0 j1).map
            (fun p =>
              if p = f1 ∧ j2 = i2 then PageTableEntry.new ppn (flags ||| 1)
              else if p = f0 ∧ j2 = i1 then PageTableEntry.new f1 1
              else if p = f1 then 0
              else if p = root ∧ j2 = i0 then PageTableEntry.new f0 1
              else if p = f0 then 0 else s.mem p j2) := by
        rw [hfps' w, hidxw]
      have hn2snone : ∀ k, node2 s root i0 k = none := by
        intro k
        unfold node2
        rw [hn1none]
        rfl
      by_cases hc : j0 = i0 ∧ j1 = i1
      · have hj2 : j2 ≠ i2 := by
          intro hcc
          exact hw (by rw [hc.1, hc.2, hcc])
        constructor
        · intro _
          unfold absentPte
          rw [hfpw', if_pos hc]
          simp [hj2, hf1f0, pte_is_valid_zero]
        · intro e he _
          rw [hfpw, hc.1, hn2snone j1] at he
          exact absurd he (by simp)
      · rw [if_neg hc] at hfpw'
        by_cases hc2 : j0 = i0
        · rw [if_pos hc2] at hfpw'
          constructor
          · intro _
            unfold absentPte
            rw [hfpw']
            rfl
          · intro e he _
            rw [hfpw, hc2, hn2snone j1] at he
            exact absurd he (by simp)
        · rw [if_neg hc2] at hfpw'
          cases hq : node2 s root j0 j1 with
          | none =>
            constructor
            · intro _
              unfold absentPte
              rw [hfpw', hq]
              rfl
            · intro e he _
              rw [hfpw, hq] at he
              exact absurd he (by simp)
          | some q =>
            have hqf1 : q ≠ f1 := by
              intro he
              have h2 := FS1n2ne j0 j1
              rw [hN2s1 j0 j1, if_neg hc2] at h2
              rw [he] at hq
              exact h2 hq
            have hqf0 : q ≠ f0 := by
              intro he
              rw [he] at hq
              exact FS0n2ne j0 j1 hq
            have hqroot : q ≠ root := inv.tree.n2NeRoot j0 j1 q hq
            have heq : PageTable.find_pte s' root w
                = PageTable.find_pte s root w := by
              rw [hfpw', hfpw, hq]
              simp [hqf1, hqf0, hqroot]
            constructor
            · intro ha
              unfold absentPte at ha ⊢
              rw [heq]
              exact ha
            · intro e he _
              rw [heq]
              exact he

/-- The all-zero machine satisfies the page-table invariant for root 0:
every entry is invalid, so the tree is trivially well-formed, and the
allocator bounds hold by computation. -/
theorem PTInv_zeroMachine : PTInv zeroMachine 0 := by
  have hch : ∀ p i, childAt zeroMachine p i = none := by
    intro p i
    exact node1_of_invalid zeroMachine p i pte_is_valid_zero
  have hn2 : ∀ i j, node2 zeroMachine 0 i j = none := by
    intro i j
    unfold node2
    rw [hch 0 i]
    rfl
  refine ⟨⟨?_, ?_, ?_, ?_, ?_⟩, ?_, ?_, ?_, ?_, ?_, ?_, ?_, ?_, ?_, ?_⟩
  · intro i p hn
    rw [show node1 zeroMachine 0 i = none from hch 0 i] at hn
    exact Option.noConfusion hn
  · intro i i' p hn hn'
    rw [show node1 zeroMachine 0 i = none from hch 0 i] at hn
    exact Option.noConfusion hn
  · intro i j p hn
    rw [hn2] at hn
    exact Option.noConfusion hn
  · intro i j p i' hn
    rw [hn2] at hn
    exact Option.noConfusion hn
  · intro i j i' j' p hn hn'
    rw [hn2] at hn
    exact Option.noConfusion hn
  · show (1 : Nat) ≤ 100
    norm_num
  · show (100 : Nat) ≤ 2 ^ 44
    norm_num
  · show (0 : Nat) < 1
    norm_num
  · intro i p hn
    rw [show node1 zeroMachine 0 i = none from hch 0 i] at hn
    exact Option.noConfusion hn
  · intro i j p hn
    rw [hn2] at hn
    exact Option.noConfusion hn
  · intro p hp
    exact absurd hp (List.not_mem_nil p)
  · exact List.nodup_nil
  · intro p hp
    exact absurd hp (List.not_mem_nil p)
  · intro p hp i
    exact absurd hp (List.not_mem_nil p)
  · intro p hp j k
    exact absurd hp (List.not_mem_nil p)

/-- C1 counterexample: the claim fails as stated.  On a fresh table rooted
at page 0 of `zeroMachine`, mapping vpn 5 to ppn 7 with flags 2 and then
immediately unmapping vpn 5 leaves `translate` returning
`some PageTableEntry.empty` — a present, cleared leaf entry — not the
absence signal `none`: `unmap` writes the zero entry into the leaf but the
intermediate nodes created by `map` keep the walk succeeding. -/
theorem map_unmap_translate_counterexample :
    ((PageTable.map zeroMachine 0 5 7 2).bind fun s1 =>
      (PageTable.unmap s1 0 5).bind fun s2 =>
        PageTable.translate s2 0 5) = some PageTableEntry.empty ∧
    ((PageTable.map zeroMachine 0 5 7 2).bind fun s1 =>
      (PageTable.unmap s1 0 5).bind fun s2 =>
        PageTable.translate s2 0 5) ≠ none := by
  constructor
  · decide
  · decide

/-- C1 (amended): for every well-formed table, after `map(vpn, ppn, flags)`
followed immediately by `unmap(vpn)`, `translate(vpn)` returns
`some PageTableEntry.empty` — an entry whose Valid bit is clear, so the
page is absent in the semantic sense (`absentPte`), but the result is not
the absence signal `None`, because the intermediate page-table nodes
created by `map` keep the non-creating walk `find_pte` succeeding. -/
theorem map_unmap_translate (s : MachineState) (root vpn ppn flags : Nat)
    (s1 s2 : MachineState) (inv : PTInv s root)
    (hm : PageTable.map s root vpn ppn flags = some s1)
    (hu : PageTable.unmap s1 root vpn = some s2) :
    PageTable.translate s2 root vpn = some PageTableEntry.empty ∧
    PageTable.translate s2 root vpn ≠ none ∧
    absentPte s2 root vpn = true := by
  obtain ⟨inv1, -, -, -, hf1, -⟩ :=
    PageTable.map_spec s root vpn ppn flags s1 inv hm
  have hw : node2 s1 root (VirtPageNum.indexes vpn).1
      (VirtPageNum.indexes vpn).2.1 ≠ none := by
    intro hnone
    have heq := (find_pte_eq s1 root vpn).symm.trans hf1
    rw [hnone] at heq
    exact Option.noConfusion heq
  obtain ⟨tinv2, -, -, -, -, hfp2⟩ :=
    PageTable.unmap_spec s1 root vpn s2 inv1.tree hw hu
  have h2 := hfp2 vpn
  rw [if_pos rfl] at h2
  refine ⟨h2, ?_, ?_⟩
  · unfold PageTable.translate
    rw [h2]
    simp
  · unfold absentPte
    rw [h2]
    decide

/-- C1 witness: the amended theorem applied to the concrete machine of the
counterexample. -/
theorem map_unmap_translate_witness :
    PageTable.translate
      (((PageTable.unmap ((PageTable.map zeroMachine 0 5 7 2).getD
        zeroMachine) 0 5).getD zeroMachine)) 0 5 = some PageTableEntry.empty
    ∧ absentPte
      (((PageTable.unmap ((PageTable.map zeroMachine 0 5 7 2).getD
        zeroMachine) 0 5).getD zeroMachine)) 0 5 = true := by
  have hm : PageTable.map zeroMachine 0 5 7 2
      = some ((PageTable.map zeroMachine 0 5 7 2).getD zeroMachine) := rfl
  have hu : PageTable.unmap
      ((PageTable.map zeroMachine 0 5 7 2).getD zeroMachine) 0 5
      = some ((PageTable.unmap ((PageTable.map zeroMachine 0 5 7 2).getD
        zeroMachine) 0 5).getD zeroMachine) := rfl
  obtain ⟨h1, h2, h3⟩ := map_unmap_translate zeroMachine 0 5 7 2
    ((PageTable.map zeroMachine 0 5 7 2).getD zeroMachine)
    ((PageTable.unmap ((PageTable.map zeroMachine 0 5 7 2).getD
      zeroMachine) 0 5).getD zeroMachine)
    PTInv_zeroMachine hm hu
  exact ⟨h1, h3⟩

theorem mapLoop_fields (root : Nat) (vpns : List Nat) :
    ∀ s a r, MapArea.mapLoop root s a vpns = some r →
      r.2.vs = a.vs ∧ r.2.ve = a.ve ∧ r.2.map_type = a.map_type ∧
        r.2.map_perm = a.map_perm := by
  induction vpns with
  | nil =>
    intro s a r h
    replace h : some (s, a) = some r := h
    rcases h with ⟨⟩
    exact ⟨rfl, rfl, rfl, rfl⟩
  | cons vpn rest ih =>
    intro s a r h
    replace h : (MapArea.map_one s root a vpn).bind (fun q =>
        MapArea.mapLoop root q.1 q.2 rest) = some r := h
    rcases hone : MapArea.map_one s root a vpn with _ | ⟨s1, a1⟩
    · rw [hone] at h
      exact absurd h (by simp)
    · rw [hone] at h
      simp only [Option.some_bind] at h
      have hfields : a1.vs = a.vs ∧ a1.ve = a.ve ∧ a1.map_type = a.map_type ∧
          a1.map_perm = a.map_perm := by
        unfold MapArea.map_one at hone
        cases hty : a.map_type with
        | Identical =>
          rw [hty] at hone
          rcases hm : PageTable.map s root vpn vpn a.map_perm with _ | s2
          · rw [hm] at hone
            exact absurd hone (by simp)
          · rw [hm] at hone
            simp only [Option.map_some', Option.some.injEq,
              Prod.mk.injEq] at hone
            rw [← hone.2]
            exact ⟨rfl, rfl, hty, rfl⟩
        | Framed =>
          rw [hty] at hone
          rcases hfr : frameAlloc s with _ | ⟨f, sf⟩
          · rw [hfr] at hone
            exact absurd hone (by simp)
          · rw [hfr] at hone
            simp only [Option.some_bind] at hone
            rcases hm : PageTable.map sf root vpn f a.map_perm with _ | s2
            · rw [hm] at hone
              exact absurd hone (by simp)
            · rw [hm] at hone
              simp only [Option.map_some', Option.some.injEq,
                Prod.mk.injEq] at hone
              rw [← hone.2]
              exact ⟨rfl, rfl, rfl, rfl⟩
      obtain ⟨h1, h2, h3, h4⟩ := ih s1 a1 r h
      exact ⟨h1.trans hfields.1, h2.trans hfields.2.1,
        h3.trans hfields.2.2.1, h4.trans hfields.2.2.2⟩

theorem mmapPerm_U (port : Nat) : mmapPerm port &&& MapPermission.U ≠ 0 := by
  unfold mmapPerm
  by_cases h1 : port % 2 = 1 <;> by_cases h2 : port &&& 2 ≠ 0 <;>
    by_cases h3 : port &&& 4 ≠ 0 <;>
    simp [h1, h2, h3, MapPermission.U, MapPermission.R, MapPermission.W,
      MapPermission.X]

theorem mmap_range_le (start len : Nat)
    (h : start + len + PAGE_SIZE ≤ USIZE) :
    VirtAddr.floor start ≤ VirtAddr.ceil ((start + len) % USIZE) := by
  have hlt : start + len < USIZE := by
    have hp : 0 < PAGE_SIZE := by norm_num [PAGE_SIZE]
    omega
  rw [Nat.mod_eq_of_lt hlt, ceil_eq_of_no_overflow (start + len) h]
  unfold VirtAddr.floor
  exact Nat.div_le_div_right (by omega)

/-- C2 (amended): provided `start + len` does not overflow the address
space, `sys_mmap` returns `-1` with the state untouched on an unaligned
`start`, a `port` with no low bit set or a bit outside the low three, or a
range containing an already-valid page; otherwise a successful return is
`0` and appends to the area list exactly one `Framed` area covering
`[floor start, ceil (start+len))` whose permissions are the `mmapPerm`
image of `port`, which always includes `U`. -/
theorem sys_mmap_spec (s : MachineState) (ms : MemorySet)
    (start len port : Nat) :
    (start &&& (PAGE_SIZE - 1) ≠ 0 →
      sys_mmap s ms start len port = some (-1, s, ms)) ∧
    (port &&& 7 = 0 ∨ port &&& (USIZE - 8) ≠ 0 →
      sys_mmap s ms start len port = some (-1, s, ms)) ∧
    (start &&& (PAGE_SIZE - 1) = 0 → port &&& 7 ≠ 0 →
      port &&& (USIZE - 8) = 0 → start + len + PAGE_SIZE ≤ USIZE →
      ((rangeList (VirtAddr.floor start)
          (VirtAddr.ceil ((start + len) % USIZE))).any (fun vpn =>
          match PageTable.find_pte s ms.root vpn with
          | some pte => PageTableEntry.is_valid pte
          | none => false) = true →
        sys_mmap s ms start len port = some (-1, s, ms)) ∧
      ((rangeList (VirtAddr.floor start)
          (VirtAddr.ceil ((start + len) % USIZE))).any (fun vpn =>
          match PageTable.find_pte s ms.root vpn with
          | some pte => PageTableEntry.is_valid pte
          | none => false) = false →
        ∀ r s' ms', sys_mmap s ms start len port = some (r, s', ms') →
          r = 0 ∧ ms'.root = ms.root ∧
          ∃ a, ms'.areas = ms.areas ++ [a] ∧
            a.vs = VirtAddr.floor start ∧
            a.ve = VirtAddr.ceil ((start + len) % USIZE) ∧
            a.map_type = MapType.Framed ∧
            a.map_perm = mmapPerm port ∧
            a.map_perm &&& MapPermission.U ≠ 0)) := by
  refine ⟨?_, ?_, ?_⟩
  · intro h
    unfold sys_mmap
    rw [if_pos h]
  · intro h
    unfold sys_mmap
    by_cases ha : start &&& (PAGE_SIZE - 1) ≠ 0
    · rw [if_pos ha]
    · rw [if_neg ha, if_pos h]
  · intro ha hp1 hp2 hno
    have hlohi := mmap_range_le start len hno
    have hgo : sys_mmap s ms start len port
        = MemorySet.mmap s ms start len port := by
      unfold sys_mmap
      rw [if_neg (by simpa using ha),
        if_neg (fun hor => hor.elim (fun hA => hp1 hA) (fun hB => hB hp2))]
    constructor
    · intro hcond
      rw [hgo]
      unfold MemorySet.mmap
      rw [if_pos hlohi, if_pos hcond]
    · intro hcond r s' ms' h
      rw [hgo] at h
      unfold MemorySet.mmap at h
      rw [if_pos hlohi, if_neg (by simp [hcond])] at h
      unfold MemorySet.insert_framed_area MapArea.new at h
      rw [if_pos hlohi] at h
      simp only [Option.some_bind] at h
      unfold MemorySet.push at h
      rcases hmap : MapArea.mapAll s ms.root
          ⟨VirtAddr.floor start, VirtAddr.ceil ((start + len) % USIZE), [],
            MapType.Framed, mmapPerm port⟩ with _ | ⟨sx, ar⟩
      · rw [hmap] at h
        exact absurd h (by simp)
      · rw [hmap] at h
        simp only [Option.some_bind, Option.map_some', Option.some.injEq,
          Prod.mk.injEq] at h
        obtain ⟨hr, hs', hms'⟩ := h
        obtain ⟨hvs, hve, hty, hpm⟩ := mapLoop_fields ms.root _ s _ (sx, ar) hmap
        refine ⟨hr.symm, ?_, ar, ?_, hvs, hve, hty, hpm, ?_⟩
        · rw [← hms']
        · rw [← hms']
        · rw [hpm]
          exact mmapPerm_U port

/-- C2 counterexample: the claim fails as stated when `start + len`
overflows.  With the page-aligned `start = 2^64 - PAGE_SIZE`, a good
`port = 1` and `len = 2^63`, the wrapped end address makes
`VPNRange::new`'s `start <= end` assertion fail, so `sys_mmap` panics
(modelled `none`) instead of returning `-1` or adding an area. -/
theorem sys_mmap_overflow_counterexample :
    sys_mmap zeroMachine ⟨0, []⟩ (USIZE - PAGE_SIZE) (2 ^ 63) 1 = none := rfl

theorem childAt_congr_mem (s s' : MachineState) (hm : s'.mem = s.mem) :
    ∀ p i, childAt s' p i = childAt s p i := by
  intro p i
  unfold childAt
  rw [hm]

theorem node2_congr_mem (s s' : MachineState) (hm : s'.mem = s.mem) :
    ∀ j k, node2 s' root j k = node2 s root j k := by
  intro j k
  unfold node2
  rw [childAt_congr_mem s s' hm]
  congr 1
  funext p
  rw [childAt_congr_mem s s' hm]

theorem find_pte_congr_mem (s s' : MachineState) (root : Nat)
    (hm : s'.mem = s.mem) :
    ∀ w, PageTable.find_pte s' root w = PageTable.find_pte s root w := by
  intro w
  unfold PageTable.find_pte
  rw [hm]

theorem childAt_some (s : MachineState) (p i q : Nat)
    (h : childAt s p i = some q) :
    PageTableEntry.is_valid (s.mem p i) = true ∧
      PageTableEntry.ppn (s.mem p i) = q := by
  unfold childAt at h
  by_cases hv : PageTableEntry.is_valid (s.mem p i) = true
  · rw [if_pos hv] at h
    exact ⟨hv, by simpa using h⟩
  · rw [if_neg hv] at h
    exact absurd h (by simp)

theorem PageTable.unmap_eq_of_node2 (s : MachineState) (root vpn p1 : Nat)
    (h2 : node2 s root (VirtPageNum.indexes vpn).1
      (VirtPageNum.indexes vpn).2.1 = some p1) :
    PageTable.unmap s root vpn =
      if PageTableEntry.is_valid
          (s.mem p1 (VirtPageNum.indexes vpn).2.2) = true then
        some (writePte s p1 (VirtPageNum.indexes vpn).2.2
          PageTableEntry.empty)
      else none := by
  rcases hidx : VirtPageNum.indexes vpn with ⟨i0, i1, i2⟩
  rw [hidx] at h2
  replace h2 : (childAt s root i0).bind (fun p => childAt s p i1)
      = some p1 := h2
  rcases hc0 : childAt s root i0 with _ | p0
  · rw [hc0] at h2
    exact absurd h2 (by simp)
  rw [hc0] at h2
  simp only [Option.some_bind] at h2
  obtain ⟨hv0, hp0⟩ := childAt_some s root i0 p0 hc0
  obtain ⟨hv1, hp1⟩ := childAt_some s p0 i1 p1 h2
  unfold PageTable.unmap PageTable.find_pte_create
  rw [hidx]
  show ((PageTable.walkStep s root i0).bind fun r1 =>
      Option.map (fun r2 => (r2.1, r2.2, i2))
        (PageTable.walkStep r1.1 r1.2 i1)).bind (fun r =>
      if PageTableEntry.is_valid (r.1.mem r.2.1 r.2.2) then
        some (writePte r.1 r.2.1 r.2.2 PageTableEntry.empty)
      else none) = _
  rw [walkStep_valid s root i0 hv0, hp0]
  simp only [Option.some_bind]
  rw [walkStep_valid s p0 i1 hv1, hp1]
  simp only [Option.map_some', Option.some_bind]

theorem frameDealloc_shape (s : MachineState) (p : Nat) (s1 : MachineState)
    (h : frameDealloc s p = some s1) :
    s1.mem = s.mem ∧ s1.bts = s.bts := by
  unfold frameDealloc at h
  rcases hd : s.fa.dealloc p with _ | fa'
  · rw [hd] at h
    exact absurd h (by simp)
  · rw [hd] at h
    simp only [Option.map_some', Option.some.injEq] at h
    rw [← h]
    exact ⟨rfl, rfl⟩

theorem unmap_one_spec (s : MachineState) (root : Nat) (a : MapArea)
    (vpn : Nat) (s1 : MachineState) (a1 : MapArea)
    (tinv : TreeInv s root) (e : Nat)
    (hfp : PageTable.find_pte s root vpn = some e)
    (h : MapArea.unmap_one s root a vpn = some (s1, a1)) :
    TreeInv s1 root ∧ a1.vs = a.vs ∧ a1.ve = a.ve ∧
    a1.map_type = a.map_type ∧ a1.map_perm = a.map_perm ∧
    (∀ w, PageTable.find_pte s1 root w =
      if VirtPageNum.indexes w = VirtPageNum.indexes vpn then
        some PageTableEntry.empty
      else PageTable.find_pte s root w) := by
  have hfpe := (find_pte_eq s root vpn).symm.trans hfp
  have hn2 : ∃ p1, node2 s root (VirtPageNum.indexes vpn).1
      (VirtPageNum.indexes vpn).2.1 = some p1 := by
    rcases hq : node2 s root (VirtPageNum.indexes vpn).1
        (VirtPageNum.indexes vpn).2.1 with _ | p1
    · rw [hq] at hfpe
      exact absurd hfpe (by simp)
    · exact ⟨p1, rfl⟩
  obtain ⟨p1, hp1⟩ := hn2
  have hw : node2 s root (VirtPageNum.indexes vpn).1
      (VirtPageNum.indexes vpn).2.1 ≠ none := by
    rw [hp1]
    simp
  unfold MapArea.unmap_one at h
  cases hty : a.map_type with
  | Identical =>
    rw [hty] at h
    rcases hu : PageTable.unmap s root vpn with _ | s2
    · rw [hu] at h
      exact absurd h (by simp)
    · rw [hu] at h
      simp only [Option.map_some', Option.some.injEq, Prod.mk.injEq] at h
      obtain ⟨hs2, ha⟩ := h
      obtain ⟨ht, -, -, -, -, hdesc⟩ :=
        PageTable.unmap_spec s root vpn s2 tinv hw hu
      rw [← hs2, ← ha]
      exact ⟨ht, rfl, rfl, hty, rfl, hdesc⟩
  | Framed =>
    rw [hty] at h
    rcases hdf : dfLookup vpn a.data_frames with _ | ppn
    · rw [hdf] at h
      replace h : (some (s, a)).bind (fun r =>
          (PageTable.unmap r.1 root vpn).map (fun s2 => (s2, r.2)))
          = some (s1, a1) := h
      simp only [Option.some_bind] at h
      rcases hu : PageTable.unmap s root vpn with _ | s2
      · rw [hu] at h
        exact absurd h (by simp)
      · rw [hu] at h
        simp only [Option.map_some', Option.some.injEq, Prod.mk.injEq] at h
        obtain ⟨hs2, ha⟩ := h
        obtain ⟨ht, -, -, -, -, hdesc⟩ :=
          PageTable.unmap_spec s root vpn s2 tinv hw hu
        rw [← hs2, ← ha]
        exact ⟨ht, rfl, rfl, hty, rfl, hdesc⟩
    · rw [hdf] at h
      replace h : ((frameDealloc s ppn).map (fun sd =>
          (sd, (⟨a.vs, a.ve, dfRemove vpn a.data_frames,
            MapType.Framed, a.map_perm⟩ : MapArea)))).bind (fun r =>
          (PageTable.unmap r.1 root vpn).map (fun s2 => (s2, r.2)))
          = some (s1, a1) := h
      rcases hd : frameDealloc s ppn with _ | sd
      · rw [hd] at h
        exact absurd h (by simp)
      · rw [hd] at h
        simp only [Option.map_some', Option.some_bind] at h
        obtain ⟨hmem, hbts⟩ := frameDealloc_shape s ppn sd hd
        have hnb : ∀ j k, node2 sd root j k = node2 s root j k :=
          node2_congr_mem s sd hmem
        have htd : TreeInv sd root :=
          TreeInv_of s sd root tinv (fun i => childAt_congr_mem s sd hmem root i)
            hnb
        have hwd : node2 sd root (VirtPageNum.indexes vpn).1
            (VirtPageNum.indexes vpn).2.1 ≠ none := by
          rw [hnb, hp1]
          simp
        rcases hu : PageTable.unmap sd root vpn with _ | s2
        · rw [hu] at h
          exact absurd h (by simp)
        · rw [hu] at h
          simp only [Option.map_some', Option.some.injEq, Prod.mk.injEq] at h
          obtain ⟨hs2, ha⟩ := h
          obtain ⟨ht, -, -, -, -, hdesc⟩ :=
            PageTable.unmap_spec sd root vpn s2 htd hwd hu
          rw [← hs2, ← ha]
          refine ⟨ht, rfl, rfl, rfl, rfl, ?_⟩
          intro w
          rw [hdesc w, find_pte_congr_mem s sd root hmem w]

theorem munmapAreasLoop_spec (root vpn : Nat) (areas : List MapArea) :
    ∀ s s' areas', TreeInv s root →
    (∃ e, PageTable.find_pte s root vpn = some e) →
    munmapAreasLoop root vpn s areas = some (s', areas') →
    TreeInv s' root ∧
    areas'.map (fun a => (a.vs, a.ve, a.map_type, a.map_perm))
      = areas.map (fun a => (a.vs, a.ve, a.map_type, a.map_perm)) ∧
    ((∃ a ∈ areas, vpn < a.ve ∧ a.vs ≤ vpn) →
      PageTable.find_pte s' root vpn = some PageTableEntry.empty) ∧
    ((∀ a ∈ areas, ¬(vpn < a.ve ∧ a.vs ≤ vpn)) → s' = s) ∧
    (∀ w, VirtPageNum.indexes w ≠ VirtPageNum.indexes vpn →
      PageTable.find_pte s' root w = PageTable.find_pte s root w) := by
  induction areas with
  | nil =>
    intro s s' areas' tinv _ h
    replace h : some (s, ([] : List MapArea)) = some (s', areas') := h
    simp only [Option.some.injEq, Prod.mk.injEq] at h
    obtain ⟨hs, ha⟩ := h
    rw [← hs, ← ha]
    refine ⟨tinv, rfl, ?_, fun _ => rfl, fun w _ => rfl⟩
    rintro ⟨a, ha, -⟩
    exact absurd ha (List.not_mem_nil a)
  | cons a rest ih =>
    intro s s' areas' tinv hpre h
    replace h : (if vpn < a.ve ∧ a.vs ≤ vpn then
        (MapArea.unmap_one s root a vpn).bind fun r =>
          (munmapAreasLoop root vpn r.1 rest).map fun r2 => (r2.1, r.2 :: r2.2)
      else
        (munmapAreasLoop root vpn s rest).map fun r2 => (r2.1, a :: r2.2))
        = some (s', areas') := h
    by_cases hc : vpn < a.ve ∧ a.vs ≤ vpn
    · rw [if_pos hc] at h
      rcases h1 : MapArea.unmap_one s root a vpn with _ | ⟨s1, a1⟩
      · rw [h1] at h
        exact absurd h (by simp)
      rw [h1] at h
      simp only [Option.some_bind] at h
      rcases hrest : munmapAreasLoop root vpn s1 rest with _ | ⟨s2, areas2⟩
      · rw [hrest] at h
        exact absurd h (by simp)
      rw [hrest] at h
      simp only [Option.map_some', Option.some.injEq, Prod.mk.injEq] at h
      obtain ⟨hs, ha⟩ := h
      obtain ⟨e, hfp⟩ := hpre
      obtain ⟨T1, hvs, hve, hty, hpm, hdesc1⟩ :=
        unmap_one_spec s root a vpn s1 a1 tinv e hfp h1
      have hempty1 : PageTable.find_pte s1 root vpn
          = some PageTableEntry.empty := by
        rw [hdesc1 vpn, if_pos rfl]
      obtain ⟨T2, hmap2, hex2, hall2, hpres2⟩ := ih s1 s2 areas2 T1
        ⟨PageTableEntry.empty, hempty1⟩ hrest
      rw [← hs, ← ha]
      refine ⟨T2, ?_, ?_, ?_, ?_⟩
      · simp only [List.map_cons]
        rw [hmap2, hvs, hve, hty, hpm]
      · intro _
        by_cases hre : ∃ a' ∈ rest, vpn < a'.ve ∧ a'.vs ≤ vpn
        · exact hex2 hre
        · have hs2 : s2 = s1 := hall2 (fun a' ha' hcc => hre ⟨a', ha', hcc⟩)
          rw [hs2]
          exact hempty1
      · intro hall
        exact absurd hc (hall a (List.mem_cons_self a rest))
      · intro w hw
        rw [hpres2 w hw, hdesc1 w, if_neg hw]
    · rw [if_neg hc] at h
      rcases hrest : munmapAreasLoop root vpn s rest with _ | ⟨s2, areas2⟩
      · rw [hrest] at h
        exact absurd h (by simp)
      rw [hrest] at h
      simp only [Option.map_some', Option.some.injEq, Prod.mk.injEq] at h
      obtain ⟨hs, ha⟩ := h
      obtain ⟨T2, hmap2, hex2, hall2, hpres2⟩ := ih s s2 areas2 tinv hpre hrest
      rw [← hs, ← ha]
      refine ⟨T2, ?_, ?_, ?_, hpres2⟩
      · simp only [List.map_cons]
        rw [hmap2]
      · rintro ⟨a', ha', hcc⟩
        rcases List.mem_cons.mp ha' with rfl | ha'
        · exact absurd hcc hc
        · exact hex2 ⟨a', ha', hcc⟩
      · intro hall
        exact hall2 (fun a' ha' => hall a' (List.mem_cons_of_mem a ha'))

theorem munmapVpnsLoop_spec (root : Nat) (vpns : List Nat) :
    ∀ s areas s' areas', TreeInv s root →
    (∀ v ∈ vpns, ∃ e, PageTable.find_pte s root v = some e) →
    (∀ v ∈ vpns, ∃ a ∈ areas, v < a.ve ∧ a.vs ≤ v) →
    List.Pairwise
      (fun v w => VirtPageNum.indexes v ≠ VirtPageNum.indexes w) vpns →
    munmapVpnsLoop root s areas vpns = some (s', areas') →
    TreeInv s' root ∧
    areas'.map (fun a => (a.vs, a.ve, a.map_type, a.map_perm))
      = areas.map (fun a => (a.vs, a.ve, a.map_type, a.map_perm)) ∧
    (∀ v ∈ vpns, PageTable.find_pte s' root v = some PageTableEntry.empty) ∧
    (∀ w, (∀ v ∈ vpns, VirtPageNum.indexes w ≠ VirtPageNum.indexes v) →
      PageTable.find_pte s' root w = PageTable.find_pte s root w) := by
  induction vpns with
  | nil =>
    intro s areas s' areas' tinv _ _ _ h
    replace h : some (s, areas) = some (s', areas') := h
    simp only [Option.some.injEq, Prod.mk.injEq] at h
    obtain ⟨hs, ha⟩ := h
    rw [← hs, ← ha]
    exact ⟨tinv, rfl, fun v hv => absurd hv (List.not_mem_nil v),
      fun w _ => rfl⟩
  | cons v rest ih =>
    intro s areas s' areas' tinv hpre hcov hpw h
    replace h : (munmapAreasLoop root v s areas).bind (fun r =>
        munmapVpnsLoop root r.1 r.2 rest) = some (s', areas') := h
    rcases hA : munmapAreasLoop root v s areas with _ | ⟨s1, areas1⟩
    · rw [hA] at h
      exact absurd h (by simp)
    rw [hA] at h
    simp only [Option.some_bind] at h
    obtain ⟨T1, hmap1, hexA, hallA, hpresA⟩ :=
      munmapAreasLoop_spec root v areas s s1 areas1 tinv
        (hpre v (List.mem_cons_self v rest)) hA
    have hempty1 : PageTable.find_pte s1 root v
        = some PageTableEntry.empty :=
      hexA (hcov v (List.mem_cons_self v rest))
    have hpwv : ∀ u ∈ rest, VirtPageNum.indexes v ≠ VirtPageNum.indexes u :=
      (List.pairwise_cons.mp hpw).1
    have hpre1 : ∀ u ∈ rest, ∃ e, PageTable.find_pte s1 root u = some e := by
      intro u hu
      rw [hpresA u (fun hcc => hpwv u hu hcc.symm)]
      exact hpre u (List.mem_cons_of_mem v hu)
    have hcov1 : ∀ u ∈ rest, ∃ a ∈ areas1, u < a.ve ∧ a.vs ≤ u := by
      intro u hu
      obtain ⟨a, hamem, hlt, hle⟩ := hcov u (List.mem_cons_of_mem v hu)
      have hmem2 : (a.vs, a.ve, a.map_type, a.map_perm) ∈
          areas1.map (fun a => (a.vs, a.ve, a.map_type, a.map_perm)) := by
        rw [hmap1]
        exact List.mem_map.mpr ⟨a, hamem, rfl⟩
      obtain ⟨a1, ha1mem, ha1eq⟩ := List.mem_map.mp hmem2
      refine ⟨a1, ha1mem, ?_, ?_⟩
      · have : a1.ve = a.ve := congrArg (fun q => q.2.1) ha1eq
        rw [this]
        exact hlt
      · have : a1.vs = a.vs := congrArg (fun q => q.1) ha1eq
        rw [this]
        exact hle
    obtain ⟨T2, hmap2, hv2, hpres2⟩ := ih s1 areas1 s' areas' T1 hpre1 hcov1
      (List.pairwise_cons.mp hpw).2 h
    refine ⟨T2, hmap2.trans hmap1, ?_, ?_⟩
    · intro u hu
      rcases List.mem_cons.mp hu with rfl | hu
      · rw [hpres2 u (fun w hw => hpwv w hw)]
        exact hempty1
      · exact hv2 u hu
    · intro w hw
      rw [hpres2 w (fun u hu => hw u (List.mem_cons_of_mem v hu)),
        hpresA w (hw v (List.mem_cons_self v rest))]

theorem mem_rangeList (lo hi v : Nat) :
    v ∈ rangeList lo hi ↔ lo ≤ v ∧ v < hi := by
  unfold rangeList
  simp only [List.mem_map, List.mem_range]
  constructor
  · rintro ⟨k, hk, rfl⟩
    omega
  · rintro ⟨h1, h2⟩
    exact ⟨v - lo, by omega, by omega⟩

theorem indexes_inj (v w : Nat) (hv : v < 2 ^ 27) (hw : w < 2 ^ 27)
    (h : VirtPageNum.indexes v = VirtPageNum.indexes w) : v = w := by
  unfold VirtPageNum.indexes at h
  simp only [Prod.mk.injEq] at h
  obtain ⟨h0, h1, h2⟩ := h
  rw [Nat.shiftRight_eq_div_pow, Nat.shiftRight_eq_div_pow] at h0 h1
  have e9 : (511 : Nat) = 2 ^ 9 - 1 := by norm_num
  rw [e9, Nat.and_pow_two_sub_one_eq_mod, Nat.and_pow_two_sub_one_eq_mod]
    at h0 h1 h2
  norm_num at h0 h1
  omega

theorem rangeList_pairwise_indexes (lo hi : Nat) (hhi : hi ≤ 2 ^ 27) :
    List.Pairwise
      (fun v w => VirtPageNum.indexes v ≠ VirtPageNum.indexes w)
      (rangeList lo hi) := by
  have hnd : (rangeList lo hi).Nodup := by
    unfold rangeList
    exact (List.nodup_range _).map (fun x y hxy => by omega)
  refine hnd.imp_of_mem ?_
  intro v w hv hw hne hidx
  have hvlt : v < 2 ^ 27 := lt_of_lt_of_le ((mem_rangeList lo hi v).mp hv).2 hhi
  have hwlt : w < 2 ^ 27 := lt_of_lt_of_le ((mem_rangeList lo hi w).mp hw).2 hhi
  exact hne (indexes_inj v w hvlt hwlt hidx)

/-- C3 (amended): provided `start + len` does not overflow the address
space, `MemorySet::munmap` returns `-1` with state and areas untouched
when some page of the covering range is absent; and on a successful run
over a range whose pages are all below `2^27`, each covered by some area,
it returns `0`, clears the leaf entry of every page in the range (the
entry becomes `PageTableEntry::empty`), leaves every page with a distinct
index triple translated as before, and never removes an area: the area
list keeps the same length, ranges, types and permissions. -/
theorem memoryset_munmap_spec (s : MachineState) (ms : MemorySet)
    (start len : Nat) (hno : start + len + PAGE_SIZE ≤ USIZE) :
    ((rangeList (VirtAddr.floor start)
        (VirtAddr.ceil ((start + len) % USIZE))).any
        (fun vpn => absentPte s ms.root vpn) = true →
      MemorySet.munmap s ms start len = some (-1, s, ms)) ∧
    ((rangeList (VirtAddr.floor start)
        (VirtAddr.ceil ((start + len) % USIZE))).any
        (fun vpn => absentPte s ms.root vpn) = false →
      TreeInv s ms.root →
      VirtAddr.ceil ((start + len) % USIZE) ≤ 2 ^ 27 →
      (∀ v ∈ rangeList (VirtAddr.floor start)
          (VirtAddr.ceil ((start + len) % USIZE)),
        ∃ a ∈ ms.areas, v < a.ve ∧ a.vs ≤ v) →
      ∀ r s' ms', MemorySet.munmap s ms start len = some (r, s', ms') →
        r = 0 ∧ ms'.root = ms.root ∧
        ms'.areas.map (fun a => (a.vs, a.ve, a.map_type, a.map_perm))
          = ms.areas.map (fun a => (a.vs, a.ve, a.map_type, a.map_perm)) ∧
        (∀ v ∈ rangeList (VirtAddr.floor start)
            (VirtAddr.ceil ((start + len) % USIZE)),
          PageTable.find_pte s' ms.root v = some PageTableEntry.empty) ∧
        (∀ w, (∀ v ∈ rangeList (VirtAddr.floor start)
            (VirtAddr.ceil ((start + len) % USIZE)),
            VirtPageNum.indexes w ≠ VirtPageNum.indexes v) →
          PageTable.find_pte s' ms.root w
            = PageTable.find_pte s ms.root w)) := by
  have hlohi := mmap_range_le start len hno
  constructor
  · intro hcond
    unfold MemorySet.munmap
    rw [if_pos hlohi, if_pos hcond]
  · intro hcond htinv h27 hcov r s' ms' h
    unfold MemorySet.munmap at h
    rw [if_pos hlohi, if_neg (by simp [hcond])] at h
    rcases hrun : munmapVpnsLoop ms.root s ms.areas
        (rangeList (VirtAddr.floor start)
          (VirtAddr.ceil ((start + len) % USIZE))) with _ | ⟨sx, areasx⟩
    · rw [hrun] at h
      exact absurd h (by simp)
    rw [hrun] at h
    simp only [Option.map_some', Option.some.injEq, Prod.mk.injEq] at h
    obtain ⟨hr, hs', hms'⟩ := h
    have hpre : ∀ v ∈ rangeList (VirtAddr.floor start)
        (VirtAddr.ceil ((start + len) % USIZE)),
        ∃ e, PageTable.find_pte s ms.root v = some e := by
      intro v hv
      have habs : absentPte s ms.root v = false := by
        by_cases hb : absentPte s ms.root v = true
        · exact absurd (List.any_eq_true.mpr ⟨v, hv, hb⟩)
            (by rw [hcond]; simp)
        · simpa using hb
      unfold absentPte at habs
      rcases hq : PageTable.find_pte s ms.root v with _ | e
      · rw [hq] at habs
        exact absurd habs (by simp)
      · exact ⟨e, rfl⟩
    obtain ⟨T2, hmap2, hv2, hpres2⟩ := munmapVpnsLoop_spec ms.root
      (rangeList (VirtAddr.floor start)
        (VirtAddr.ceil ((start + len) % USIZE)))
      s ms.areas sx areasx htinv hpre hcov
      (rangeList_pairwise_indexes _ _ h27) hrun
    refine ⟨hr.symm, ?_, ?_, ?_, ?_⟩
    · rw [← hms']
    · rw [← hms']
      exact hmap2
    · intro v hv
      rw [← hs']
      exact hv2 v hv
    · intro w hw
      rw [← hs']
      exact hpres2 w hw

/-- C3 counterexample: the claim fails as stated when `start + len`
overflows: with `start = 2^64 - PAGE_SIZE` (aligned) and `len = 2^63`
over the empty address space - where every page of the range is unmapped
and the claim requires a `-1` return - `VPNRange::new`'s assertion
`start <= end` fails on the wrapped end address, so `munmap` panics
(modelled `none`). -/
theorem memoryset_munmap_overflow_counterexample :
    MemorySet.munmap zeroMachine ⟨0, []⟩ (USIZE - PAGE_SIZE) (2 ^ 63)
      = none := rfl

/-- C3 witness: the amended theorem applied concretely: on the all-zero
machine every page of `[0x10000, 0x12000)` is absent, so `munmap` reports
`-1` and leaves the address space untouched. -/
theorem memoryset_munmap_witness :
    MemorySet.munmap zeroMachine ⟨0, []⟩ 65536 8192
      = some (-1, zeroMachine, ⟨0, []⟩) :=
  (memoryset_munmap_spec zeroMachine ⟨0, []⟩ 65536 8192
    (by norm_num [PAGE_SIZE, USIZE])).1 (by decide)

theorem byteSlice_length (s : MachineState) (ppn lo hi : Nat) :
    (byteSlice s ppn lo hi).length = hi - lo := by
  unfold byteSlice
  simp

theorem fromVpn_eq (v : Nat) (h : v < 2 ^ 52) :
    VirtAddr.fromVpn v = v * PAGE_SIZE := by
  unfold VirtAddr.fromVpn PAGE_SIZE_BITS USIZE
  rw [Nat.shiftLeft_eq]
  have hb : v * 2 ^ 12 < 2 ^ 64 := by
    calc v * 2 ^ 12 ≤ (2 ^ 52 - 1) * 2 ^ 12 :=
          Nat.mul_le_mul_right _ (by omega)
    _ < 2 ^ 64 := by norm_num
  rw [Nat.mod_eq_of_lt hb]
  norm_num [PAGE_SIZE]

theorem tbbGo_end (s : MachineState) (root fin fuel start : Nat)
    (h : ¬ start < fin) :
    tbbGo s root fin (fuel + 1) start = some [] := by
  unfold tbbGo
  rw [if_neg h]

theorem tbbGo_none_step (s : MachineState) (root fin fuel start : Nat)
    (hlt : start < fin)
    (he : PageTable.translate s root (VirtAddr.floor start) = none) :
    tbbGo s root fin (fuel + 1) start = none := by
  unfold tbbGo
  rw [if_pos hlt, he]

theorem tbbGo_some_step (s : MachineState) (root fin fuel start e : Nat)
    (hlt : start < fin)
    (he : PageTable.translate s root (VirtAddr.floor start) = some e) :
    tbbGo s root fin (fuel + 1) start =
      (tbbGo s root fin fuel
        (min (VirtAddr.fromVpn (VirtAddr.floor start + 1)) fin)).map
        (fun v =>
          (if VirtAddr.page_offset
              (min (VirtAddr.fromVpn (VirtAddr.floor start + 1)) fin) = 0
            then byteSlice s (PageTableEntry.ppn e)
              (VirtAddr.page_offset start) PAGE_SIZE
            else byteSlice s (PageTableEntry.ppn e)
              (VirtAddr.page_offset start)
              (VirtAddr.page_offset
                (min (VirtAddr.fromVpn (VirtAddr.floor start + 1)) fin)))
            :: v) := by
  rw [tbbGo]
  rw [if_pos hlt, he]

set_option maxRecDepth 8192 in
set_option maxHeartbeats 400000 in
theorem tbbGo_spec (s : MachineState) (root fin : Nat)
    (hfin : fin + PAGE_SIZE ≤ USIZE) :
    ∀ fuel start, fin - start < fuel →
    (∀ x, start ≤ x → x < fin →
      ∃ e, PageTable.find_pte s root (VirtAddr.floor x) = some e) →
    ∃ out, tbbGo s root fin fuel start = some out ∧
      out.flatten = (List.range (fin - start)).map
        (fun k => physByte s root (start + k)) ∧
      (∀ sl ∈ out, sl.length ≤ PAGE_SIZE) ∧
      out.length = (if start < fin then
        VirtAddr.floor (fin - 1) + 1 - VirtAddr.floor start else 0) := by
  intro fuel
  induction fuel with
  | zero =>
    intro start hlt
    exact absurd hlt (Nat.not_lt_zero _)
  | succ fuel ih =>
    intro start hfuel htr
    by_cases hlt : start < fin
    · obtain ⟨e, he⟩ := htr start le_rfl hlt
      have he' : PageTable.translate s root (VirtAddr.floor start)
          = some e := he
      have hvpn1 : VirtAddr.floor start + 1 < 2 ^ 52 := by
        simp only [VirtAddr.floor, PAGE_SIZE]
        simp only [PAGE_SIZE, USIZE] at hfin
        omega
      have hE : VirtAddr.fromVpn (VirtAddr.floor start + 1)
          = (VirtAddr.floor start + 1) * PAGE_SIZE := fromVpn_eq _ hvpn1
      have hEgt : start
          < min (VirtAddr.fromVpn (VirtAddr.floor start + 1)) fin := by
        rw [hE]
        simp only [VirtAddr.floor, PAGE_SIZE]
        omega
      have hEle : min (VirtAddr.fromVpn (VirtAddr.floor start + 1)) fin
          ≤ fin := min_le_right _ _
      obtain ⟨out2, hrun2, hjoin2, hbnd2, hlen2⟩ :=
        ih (min (VirtAddr.fromVpn (VirtAddr.floor start + 1)) fin)
          (by omega)
          (fun x hx1 hx2 => htr x (le_trans (le_of_lt hEgt) hx1) hx2)
      rw [tbbGo_some_step s root fin fuel start e hlt he', hrun2]
      refine ⟨((if VirtAddr.page_offset
          (min (VirtAddr.fromVpn (VirtAddr.floor start + 1)) fin) = 0
        then byteSlice s (PageTableEntry.ppn e)
          (VirtAddr.page_offset start) PAGE_SIZE
        else byteSlice s (PageTableEntry.ppn e)
          (VirtAddr.page_offset start)
          (VirtAddr.page_offset
            (min (VirtAddr.fromVpn (VirtAddr.floor start + 1)) fin)))
        :: out2), by rw [Option.map_some'], ?_, ?_, ?_⟩
      · -- the concatenation is the physical bytes of [start, fin)
        simp only [List.flatten_cons]
        have hsplit : fin - start =
            (min (VirtAddr.fromVpn (VirtAddr.floor start + 1)) fin - start)
            + (fin
              - min (VirtAddr.fromVpn (VirtAddr.floor start + 1)) fin) := by
          omega
        rw [hsplit, List.range_add, List.map_append]
        refine congrArg₂ (· ++ ·) ?_ ?_
        · -- this round covers [start, end_va)
          rcases Nat.lt_or_ge fin ((VirtAddr.floor start + 1) * PAGE_SIZE)
              with hcase | hcase
          · -- the range ends inside this page: end_va = fin, unaligned
            have hm : min (VirtAddr.fromVpn (VirtAddr.floor start + 1)) fin
                = fin := by
              rw [hE]
              exact min_eq_right (le_of_lt hcase)
            have hal : ¬ VirtAddr.page_offset
                (min (VirtAddr.fromVpn (VirtAddr.floor start + 1)) fin)
                = 0 := by
              rw [hm, page_offset_eq_mod]
              simp only [VirtAddr.floor, PAGE_SIZE] at hcase ⊢
              omega
            rw [if_neg hal, hm]
            unfold byteSlice
            rw [page_offset_eq_mod, page_offset_eq_mod]
            have hlen : fin % PAGE_SIZE - start % PAGE_SIZE = fin - start := by
              simp only [VirtAddr.floor, PAGE_SIZE] at hcase ⊢
              omega
            rw [hlen]
            apply List.map_congr_left
            intro k hk
            rw [List.mem_range] at hk
            unfold physByte
            have hfl : VirtAddr.floor (start + k) = VirtAddr.floor start := by
              simp only [VirtAddr.floor, PAGE_SIZE] at hcase ⊢
              omega
            rw [hfl, he]
            have hoffk : VirtAddr.page_offset (start + k)
                = start % PAGE_SIZE + k := by
              rw [page_offset_eq_mod]
              simp only [VirtAddr.floor, PAGE_SIZE] at hcase ⊢
              omega
            rw [hoffk]
          · -- the range continues past this page: end_va = page boundary
            have hm : min (VirtAddr.fromVpn (VirtAddr.floor start + 1)) fin
                = (VirtAddr.floor start + 1) * PAGE_SIZE := by
              rw [hE]
              exact min_eq_left hcase
            have hal : VirtAddr.page_offset
                (min (VirtAddr.fromVpn (VirtAddr.floor start + 1)) fin)
                = 0 := by
              rw [hm, page_offset_eq_mod]
              simp only [VirtAddr.floor, PAGE_SIZE]
              omega
            rw [if_pos hal, hm]
            unfold byteSlice
            rw [page_offset_eq_mod]
            have hlen : PAGE_SIZE - start % PAGE_SIZE
                = (VirtAddr.floor start + 1) * PAGE_SIZE - start := by
              simp only [VirtAddr.floor, PAGE_SIZE]
              omega
            rw [hlen]
            apply List.map_congr_left
            intro k hk
            rw [List.mem_range] at hk
            simp only [VirtAddr.floor, PAGE_SIZE] at hk
            unfold physByte
            have hfl : VirtAddr.floor (start + k) = VirtAddr.floor start := by
              simp only [VirtAddr.floor, PAGE_SIZE]
              omega
            rw [hfl, he]
            have hoffk : VirtAddr.page_offset (start + k)
                = start % PAGE_SIZE + k := by
              rw [page_offset_eq_mod]
              simp only [PAGE_SIZE]
              omega
            rw [hoffk]
        · -- the recursion covers [end_va, fin)
          rw [hjoin2, List.map_map]
          apply List.map_congr_left
          intro k hk
          simp only [Function.comp_apply]
          exact congrArg (physByte s root) (by omega)
      · -- every slice stays inside one physical page
        intro sl hsl
        rcases List.mem_cons.mp hsl with rfl | hsl
        · by_cases hal : VirtAddr.page_offset
              (min (VirtAddr.fromVpn (VirtAddr.floor start + 1)) fin) = 0
          · rw [if_pos hal, byteSlice_length]
            omega
          · rw [if_neg hal, byteSlice_length]
            rw [page_offset_eq_mod, page_offset_eq_mod]
            simp only [PAGE_SIZE]
            omega
        · exact hbnd2 sl hsl
      · -- the slice count is the page count
        simp only [List.length_cons]
        rw [hlen2, if_pos hlt]
        rcases Nat.lt_or_ge fin ((VirtAddr.floor start + 1) * PAGE_SIZE)
            with hcase | hcase
        · have hm : min (VirtAddr.fromVpn (VirtAddr.floor start + 1)) fin
              = fin := by
            rw [hE]
            exact min_eq_right (le_of_lt hcase)
          rw [hm, if_neg (lt_irrefl fin)]
          have h1 : VirtAddr.floor (fin - 1) = VirtAddr.floor start := by
            simp only [VirtAddr.floor, PAGE_SIZE] at hcase ⊢
            omega
          rw [h1]
          omega
        · have hm : min (VirtAddr.fromVpn (VirtAddr.floor start + 1)) fin
              = (VirtAddr.floor start + 1) * PAGE_SIZE := by
            rw [hE]
            exact min_eq_left hcase
          rw [hm]
          have hfm : VirtAddr.floor ((VirtAddr.floor start + 1) * PAGE_SIZE)
              = VirtAddr.floor start + 1 := by
            simp only [VirtAddr.floor, PAGE_SIZE]
            omega
          rcases Nat.eq_or_lt_of_le hcase with heq | hlt2
          · rw [if_neg (show ¬ (VirtAddr.floor start + 1) * PAGE_SIZE < fin
              from by rw [heq]; exact lt_irrefl fin)]
            have h1 : VirtAddr.floor (fin - 1) = VirtAddr.floor start := by
              simp only [VirtAddr.floor, PAGE_SIZE] at heq ⊢
              omega
            rw [h1]
            omega
          · rw [if_pos hlt2, hfm]
            have h1 : VirtAddr.floor start + 1 ≤ VirtAddr.floor (fin - 1) := by
              simp only [VirtAddr.floor, PAGE_SIZE] at hlt2 ⊢
              omega
            omega
    · refine ⟨[], tbbGo_end s root fin fuel start hlt, ?_, ?_, ?_⟩
      · rw [show fin - start = 0 by omega]
        rfl
      · intro sl hsl
        exact absurd hsl (List.not_mem_nil sl)
      · rw [if_neg hlt]
        rfl

/-- C9 (amended): provided `ptr + len` does not overflow the address space,
and every page of `[ptr, ptr+len)` has a leaf entry, `translated_byte_buffer`
returns slices that each fit one page, whose lengths sum to `len`, whose
concatenation is exactly the physical bytes at the translated locations,
and whose count is the number of pages the request spans (in particular two
slices for a request spanning exactly two pages). -/
theorem translated_byte_buffer_spec (s : MachineState) (token ptr len : Nat)
    (hno : ptr + len + PAGE_SIZE ≤ USIZE)
    (htr : ∀ x, ptr ≤ x → x < ptr + len →
      ∃ e, PageTable.find_pte s (PageTable.from_token token)
        (VirtAddr.floor x) = some e) :
    ∃ out, translated_byte_buffer s token ptr len = some out ∧
      out.flatten = (List.range len).map
        (fun k => physByte s (PageTable.from_token token) (ptr + k)) ∧
      (out.map List.length).sum = len ∧
      (∀ sl ∈ out, sl.length ≤ PAGE_SIZE) ∧
      (0 < len →
        out.length = VirtAddr.floor (ptr + len - 1) + 1
          - VirtAddr.floor ptr) := by
  have hmod : (ptr + len) % USIZE = ptr + len := Nat.mod_eq_of_lt (by
    simp only [PAGE_SIZE, USIZE] at hno ⊢
    omega)
  obtain ⟨out, hrun, hjoin, hbnd, hlen⟩ := tbbGo_spec s
    (PageTable.from_token token) (ptr + len) hno (len + 1) ptr
    (by omega) htr
  have hsub : ptr + len - ptr = len := by omega
  refine ⟨out, ?_, ?_, ?_, hbnd, ?_⟩
  · unfold translated_byte_buffer
    rw [hmod]
    exact hrun
  · rw [hjoin, hsub]
  · have h1 : out.flatten.length = (out.map List.length).sum :=
      List.length_flatten out
    rw [hjoin, hsub] at h1
    simp only [List.length_map, List.length_range] at h1
    exact h1.symm
  · intro hpos
    rw [hlen, if_pos (show ptr < ptr + len by omega)]

/-- C9 counterexample: the claim fails as stated when `ptr + len` wraps.
In `tbbWrapMachine` the pages covering `[2^64 - PAGE_SIZE, 2^64)` and the
wrapped remainder all have leaf entries, yet the wrapped end address makes
the loop bound `start < end` false immediately: the call returns an empty
vector whose lengths sum to 0, not to `len = 2 * PAGE_SIZE`. -/
theorem translated_byte_buffer_wrap_counterexample :
    PageTable.find_pte tbbWrapMachine 0 (2 ^ 52 - 1) ≠ none ∧
    PageTable.find_pte tbbWrapMachine 0 0 ≠ none ∧
    PageTable.find_pte tbbWrapMachine 0 1 ≠ none ∧
    translated_byte_buffer tbbWrapMachine (PageTable.token 0)
      (USIZE - PAGE_SIZE) (2 * PAGE_SIZE) = some [] := by
  refine ⟨by decide, by decide, by decide, by decide⟩

/-- C9 witness: a request spanning exactly the two mapped pages 5 and 6 of
`tbbTwoPageMachine` returns two slices totalling the requested length. -/
theorem translated_byte_buffer_witness :
    ∃ out, translated_byte_buffer tbbTwoPageMachine (PageTable.token 0)
        (5 * 4096 + 8) 4096 = some out ∧
      (out.map List.length).sum = 4096 ∧ out.length = 2 := by
  obtain ⟨out, h1, h2, h3, h4, h5⟩ := translated_byte_buffer_spec
    tbbTwoPageMachine (PageTable.token 0) (5 * 4096 + 8) 4096
    (by norm_num [PAGE_SIZE, USIZE])
    (by
      intro x hx1 hx2
      have h56 : VirtAddr.floor x = 5 ∨ VirtAddr.floor x = 6 := by
        simp only [VirtAddr.floor, PAGE_SIZE]
        omega
      rcases h56 with h | h <;> rw [h]
      · exact ⟨PageTableEntry.new 7 3, by decide⟩
      · exact ⟨PageTableEntry.new 8 3, by decide⟩)
  refine ⟨out, h1, h3, ?_⟩
  rw [h5 (by norm_num)]
  decide

theorem tbbGo_none (s : MachineState) (root fin : Nat)
    (hfin : fin + PAGE_SIZE ≤ USIZE) :
    ∀ fuel start,
    (∃ x, start ≤ x ∧ x < fin ∧
      PageTable.find_pte s root (VirtAddr.floor x) = none) →
    tbbGo s root fin fuel start = none := by
  intro fuel
  induction fuel with
  | zero =>
    intro start _
    rfl
  | succ fuel ih =>
    rintro start ⟨x, hx1, hx2, hxn⟩
    have hlt : start < fin := lt_of_le_of_lt hx1 hx2
    rcases hq : PageTable.find_pte s root (VirtAddr.floor start) with _ | e
    · exact tbbGo_none_step s root fin fuel start hlt hq
    · have he' : PageTable.translate s root (VirtAddr.floor start)
          = some e := hq
      rw [tbbGo_some_step s root fin fuel start e hlt he']
      have hvpn1 : VirtAddr.floor start + 1 < 2 ^ 52 := by
        simp only [VirtAddr.floor, PAGE_SIZE]
        simp only [PAGE_SIZE, USIZE] at hfin
        omega
      have hE : VirtAddr.fromVpn (VirtAddr.floor start + 1)
          = (VirtAddr.floor start + 1) * PAGE_SIZE := fromVpn_eq _ hvpn1
      have hfx : VirtAddr.floor x ≠ VirtAddr.floor start := by
        intro hc
        rw [hc, hq] at hxn
        exact Option.noConfusion hxn
      have hxge : (VirtAddr.floor start + 1) * PAGE_SIZE ≤ x := by
        rcases Nat.lt_or_ge x ((VirtAddr.floor start + 1) * PAGE_SIZE)
            with hcc | hcc
        · exact absurd (by
            simp only [VirtAddr.floor, PAGE_SIZE] at hcc ⊢
            omega) hfx
        · exact hcc
      have hrec := ih (min (VirtAddr.fromVpn (VirtAddr.floor start + 1)) fin)
        ⟨x, by rw [hE]; exact le_trans (min_le_left _ _) hxge, hx2, hxn⟩
      rw [hrec]
      rfl

/-- C10: `translated_byte_buffer` has no error return: a missing
intermediate node for any page of the request makes the call panic
(`unwrap`, modelled `none`); and a present leaf entry is used without any
check of its Valid bit, as the concrete run on `tbbInvalidMachine` shows:
the leaf for page 5 is invalid (flags 0) yet its physical page 7 is read. -/
theorem translated_byte_buffer_no_error (s : MachineState)
    (token ptr len : Nat) :
    (ptr + len + PAGE_SIZE ≤ USIZE →
      (∃ x, ptr ≤ x ∧ x < ptr + len ∧
        PageTable.translate s (PageTable.from_token token)
          (VirtAddr.floor x) = none) →
      translated_byte_buffer s token ptr len = none) ∧
    (PageTable.translate tbbInvalidMachine 0 5
        = some (PageTableEntry.new 7 0) ∧
      PageTableEntry.is_valid (PageTableEntry.new 7 0) = false ∧
      translated_byte_buffer tbbInvalidMachine (PageTable.token 0)
        20480 4 = some [[3, 4, 5, 6]]) := by
  constructor
  · intro hno hex
    have hmod : (ptr + len) % USIZE = ptr + len := Nat.mod_eq_of_lt (by
      simp only [PAGE_SIZE, USIZE] at hno ⊢
      omega)
    unfold translated_byte_buffer
    rw [hmod]
    exact tbbGo_none s (PageTable.from_token token) (ptr + len) hno
      (len + 1) ptr hex
  · exact ⟨by decide, by decide, by decide⟩

theorem absentPte_eq_false (s : MachineState) (root w : Nat) :
    absentPte s root w = false ↔
      ∃ e, PageTable.find_pte s root w = some e ∧
        PageTableEntry.is_valid e = true := by
  unfold absentPte
  rcases hq : PageTable.find_pte s root w with _ | e
  · simp
  · simp only [Option.some.injEq]
    constructor
    · intro h
      refine ⟨e, rfl, ?_⟩
      simpa using h
    · rintro ⟨e', he', hv⟩
      rw [← he'] at hv
      rw [hv]
      rfl

theorem PTInv_congr_mem_fa (s s' : MachineState) (root : Nat)
    (hm : s'.mem = s.mem) (hf : s'.fa = s.fa) (inv : PTInv s root) :
    PTInv s' root := by
  have hn1 : ∀ i, node1 s' root i = node1 s root i :=
    fun i => childAt_congr_mem s s' hm root i
  have hn2 : ∀ i j, node2 s' root i j = node2 s root i j :=
    node2_congr_mem s s' hm
  refine ⟨TreeInv_of s s' root inv.tree hn1 hn2, ?_, ?_, ?_, ?_, ?_, ?_,
    ?_, ?_, ?_, ?_⟩
  · rw [hf]
    exact inv.curLe
  · rw [hf]
    exact inv.endsLe
  · rw [hf]
    exact inv.rootLt
  · intro i p hn
    rw [hn1] at hn
    rw [hf]
    exact inv.n1Lt i p hn
  · intro i j p hn
    rw [hn2] at hn
    rw [hf]
    exact inv.n2Lt i j p hn
  · intro p hp
    rw [hf] at hp ⊢
    exact inv.recLt p hp
  · rw [hf]
    exact inv.recNodup
  · intro p hp
    rw [hf] at hp
    exact inv.recNeRoot p hp
  · intro p hp i
    rw [hf] at hp
    rw [hn1]
    exact inv.recNeN1 p hp i
  · intro p hp i j
    rw [hf] at hp
    rw [hn2]
    exact inv.recNeN2 p hp i j

theorem PageTable.new_spec (s : MachineState) (r : Nat) (s0 : MachineState)
    (hrec : s.fa.recycled = []) (hcur : s.fa.current ≤ s.fa.ends)
    (hends : s.fa.ends ≤ 2 ^ 44)
    (h : PageTable.new s = some (r, s0)) :
    PTInv s0 r ∧ (∀ w, absentPte s0 r w = true) := by
  unfold PageTable.new frameAlloc at h
  have hsfa : s.fa = ⟨s.fa.current, s.fa.ends, []⟩ := by
    rcases hx : s.fa with ⟨c, e, rec⟩
    rw [hx] at hrec
    simp only at hrec
    rw [hrec]
  rw [hsfa, alloc_nil] at h
  by_cases hce : s.fa.current = s.fa.ends
  · rw [if_pos hce] at h
    exact absurd h (by simp)
  · rw [if_neg hce] at h
    simp only [Option.map_some', Option.some.injEq, Prod.mk.injEq] at h
    obtain ⟨hr, hs0⟩ := h
    have hmem0 : ∀ i, s0.mem r i = 0 := by
      intro i
      rw [← hs0, zeroPage_mem, hr, if_pos rfl]
    have hch0 : ∀ i, childAt s0 r i = none := by
      intro i
      apply node1_of_invalid
      rw [hmem0 i, pte_is_valid_zero]
    have hn2 : ∀ i j, node2 s0 r i j = none := by
      intro i j
      unfold node2
      rw [hch0 i]
      rfl
    have habs : ∀ w, absentPte s0 r w = true := by
      intro w
      unfold absentPte
      have hfp : PageTable.find_pte s0 r w = none := by
        rw [find_pte_eq, hn2]
        rfl
      rw [hfp]
    have hfa0 : s0.fa = ⟨s.fa.current + 1, s.fa.ends, []⟩ := by
      rw [← hs0]
      rfl
    refine ⟨⟨⟨?_, ?_, ?_, ?_, ?_⟩, ?_, ?_, ?_, ?_, ?_, ?_, ?_, ?_, ?_, ?_⟩,
      habs⟩
    · intro i p hn
      rw [show node1 s0 r i = none from hch0 i] at hn
      exact Option.noConfusion hn
    · intro i i' p hn hn'
      rw [show node1 s0 r i = none from hch0 i] at hn
      exact Option.noConfusion hn
    · intro i j p hn
      rw [hn2] at hn
      exact Option.noConfusion hn
    · intro i j p i' hn
      rw [hn2] at hn
      exact Option.noConfusion hn
    · intro i j i' j' p hn hn'
      rw [hn2] at hn
      exact Option.noConfusion hn
    · rw [hfa0]
      show s.fa.current + 1 ≤ s.fa.ends
      omega
    · rw [hfa0]
      exact hends
    · rw [hfa0]
      show r < s.fa.current + 1
      omega
    · intro i p hn
      rw [show node1 s0 r i = none from hch0 i] at hn
      exact Option.noConfusion hn
    · intro i j p hn
      rw [hn2] at hn
      exact Option.noConfusion hn
    · intro p hp
      rw [hfa0] at hp
      exact absurd hp (List.not_mem_nil p)
    · rw [hfa0]
      exact List.nodup_nil
    · intro p hp
      rw [hfa0] at hp
      exact absurd hp (List.not_mem_nil p)
    · intro p hp i
      rw [hfa0] at hp
      exact absurd hp (List.not_mem_nil p)
    · intro p hp i j
      rw [hfa0] at hp
      exact absurd hp (List.not_mem_nil p)

theorem copyDataGo_shape (root : Nat) (data : List Nat) :
    ∀ fuel s start vpn s', copyDataGo root data fuel s start vpn = some s' →
      s'.mem = s.mem ∧ s'.fa = s.fa := by
  intro fuel
  induction fuel with
  | zero =>
    intro s start vpn s' h
    exact absurd h (by simp [copyDataGo])
  | succ fuel ih =>
    intro s start vpn s' h
    rcases het : PageTable.translate s root vpn with _ | e
    · rw [copyDataGo, het] at h
      exact absurd h (by simp)
    · rw [copyDataGo, het] at h
      dsimp only [] at h
      by_cases hfit : data.length ≤ start + PAGE_SIZE
      · rw [if_pos hfit] at h
        simp only [Option.some.injEq] at h
        rw [← h]
        exact ⟨rfl, rfl⟩
      · rw [if_neg hfit] at h
        obtain ⟨h1, h2⟩ := ih _ _ _ _ h
        exact ⟨h1, h2⟩

theorem copy_data_shape (s : MachineState) (root : Nat) (a : MapArea)
    (data : List Nat) (s' : MachineState)
    (h : MapArea.copy_data s root a data = some s') :
    s'.mem = s.mem ∧ s'.fa = s.fa := by
  unfold MapArea.copy_data at h
  by_cases hty : a.map_type = MapType.Framed
  · rw [if_pos hty] at h
    exact copyDataGo_shape root data _ s 0 a.vs s' h
  · rw [if_neg hty] at h
    exact absurd h (by simp)

set_option maxHeartbeats 1000000 in
theorem mapLoop_spec (root : Nat) (vpns : List Nat) :
    ∀ s a s' a', PTInv s root →
    List.Pairwise
      (fun v w => VirtPageNum.indexes v ≠ VirtPageNum.indexes w) vpns →
    a.map_perm ||| 1 < 2 ^ 8 →
    MapArea.mapLoop root s a vpns = some (s', a') →
    PTInv s' root ∧
    (∀ v ∈ vpns, absentPte s root v = true) ∧
    (∀ v ∈ vpns, ∃ e, PageTable.find_pte s' root v = some e ∧
      PageTableEntry.is_valid e = true ∧
      PageTableEntry.flags e = a.map_perm ||| 1) ∧
    (∀ w, (∀ v ∈ vpns, VirtPageNum.indexes w ≠ VirtPageNum.indexes v) →
      (absentPte s root w = true → absentPte s' root w = true) ∧
      (∀ e, PageTable.find_pte s root w = some e →
        PageTableEntry.is_valid e = true →
        PageTable.find_pte s' root w = some e)) := by
  induction vpns with
  | nil =>
    intro s a s' a' inv _ _ h
    replace h : some (s, a) = some (s', a') := h
    simp only [Option.some.injEq, Prod.mk.injEq] at h
    obtain ⟨hs, -⟩ := h
    rw [← hs]
    exact ⟨inv, fun v hv => absurd hv (List.not_mem_nil v),
      fun v hv => absurd hv (List.not_mem_nil v),
      fun w _ => ⟨id, fun e he _ => he⟩⟩
  | cons v rest ih =>
    intro s a s' a' inv hpw hp h
    replace h : (MapArea.map_one s root a v).bind (fun q =>
        MapArea.mapLoop root q.1 q.2 rest) = some (s', a') := h
    rcases hone : MapArea.map_one s root a v with _ | ⟨s1, a1⟩
    · rw [hone] at h
      exact absurd h (by simp)
    rw [hone] at h
    simp only [Option.some_bind] at h
    have hstep : PTInv s1 root ∧ a1.map_perm = a.map_perm ∧
        absentPte s root v = true ∧
        (∃ pr, PageTable.find_pte s1 root v
          = some (PageTableEntry.new pr (a.map_perm ||| 1))) ∧
        (∀ w, VirtPageNum.indexes w ≠ VirtPageNum.indexes v →
          (absentPte s root w = true → absentPte s1 root w = true) ∧
          (∀ e, PageTable.find_pte s root w = some e →
            PageTableEntry.is_valid e = true →
            PageTable.find_pte s1 root w = some e)) := by
      unfold MapArea.map_one at hone
      cases hty : a.map_type with
      | Identical =>
        rw [hty] at hone
        rcases hm : PageTable.map s root v v a.map_perm with _ | s2
        · rw [hm] at hone
          exact absurd hone (by simp)
        · rw [hm] at hone
          simp only [Option.map_some', Option.some.injEq, Prod.mk.injEq]
            at hone
          obtain ⟨hs2, ha1⟩ := hone
          obtain ⟨inv1, -, -, habs, hfp, hpres⟩ :=
            PageTable.map_spec s root v v a.map_perm s2 inv hm
          rw [← hs2, ← ha1]
          exact ⟨inv1, rfl, habs, ⟨v, hfp⟩, hpres⟩
      | Framed =>
        rw [hty] at hone
        rcases hfr : frameAlloc s with _ | ⟨f, sf⟩
        · rw [hfr] at hone
          exact absurd hone (by simp)
        rw [hfr] at hone
        simp only [Option.some_bind] at hone
        rcases hm : PageTable.map sf root v f a.map_perm with _ | s2
        · rw [hm] at hone
          exact absurd hone (by simp)
        rw [hm] at hone
        simp only [Option.map_some', Option.some.injEq, Prod.mk.injEq]
          at hone
        obtain ⟨hs2, ha1⟩ := hone
        obtain ⟨FSinv, FSends, FScur, FSflt, FSf44, FSfroot, FSn1eq, FSn2eq,
            FSn1ne, FSn2ne, FSmemne, FSmemf, FSrec, FSbts⟩ :=
          frameAlloc_spec s root f sf inv hfr
        have hfeq : ∀ w, PageTable.find_pte sf root w
            = PageTable.find_pte s root w := by
          intro w
          rw [find_pte_eq, find_pte_eq, FSn2eq]
          rcases hq : node2 s root (VirtPageNum.indexes w).1
              (VirtPageNum.indexes w).2.1 with _ | q
          · rfl
          · simp only [Option.map_some', Option.some.injEq]
            apply FSmemne
            intro hc
            rw [hc] at hq
            exact FSn2ne _ _ hq
        obtain ⟨inv1, -, -, habs, hfp, hpres⟩ :=
          PageTable.map_spec sf root v f a.map_perm s2 FSinv hm
        rw [← hs2, ← ha1]
        refine ⟨inv1, rfl, ?_, ⟨f, hfp⟩, ?_⟩
        · unfold absentPte at habs ⊢
          rw [← hfeq v]
          exact habs
        · intro w hw
          obtain ⟨hq1, hq2⟩ := hpres w hw
          constructor
          · intro ha
            apply hq1
            unfold absentPte at ha ⊢
            rw [hfeq w]
            exact ha
          · intro e he hv
            apply hq2 e _ hv
            rw [hfeq w]
            exact he
    obtain ⟨inv1, hperm1, habsv, ⟨pr, hfpv⟩, hpres1⟩ := hstep
    have hq1 : a1.map_perm ||| 1 < 2 ^ 8 := by
      rw [hperm1]
      exact hp
    obtain ⟨inv2, habs2, hent2, hpres2⟩ := ih s1 a1 s' a' inv1
      (List.pairwise_cons.mp hpw).2 hq1 h
    have hpwv : ∀ u ∈ rest, VirtPageNum.indexes v ≠ VirtPageNum.indexes u :=
      (List.pairwise_cons.mp hpw).1
    refine ⟨inv2, ?_, ?_, ?_⟩
    · intro u hu
      rcases List.mem_cons.mp hu with rfl | hu
      · exact habsv
      · by_cases hb : absentPte s root u = true
        · exact hb
        · exfalso
          have hb' : absentPte s root u = false := by simpa using hb
          obtain ⟨e, he, hv⟩ := (absentPte_eq_false s root u).mp hb'
          have h2 := (hpres1 u (fun hc => hpwv u hu hc.symm)).2 e he hv
          have h3 : absentPte s1 root u = false :=
            (absentPte_eq_false s1 root u).mpr ⟨e, h2, hv⟩
          rw [habs2 u hu] at h3
          exact Bool.noConfusion h3
    · intro u hu
      rcases List.mem_cons.mp hu with rfl | hu
      · have h2 := (hpres2 u (fun w hw => hpwv w hw)).2 _ hfpv
          (pte_is_valid_new pr a.map_perm)
        exact ⟨_, h2, pte_is_valid_new pr a.map_perm,
          pte_flags_new pr _ hp⟩
      · obtain ⟨e, he, hv, hf⟩ := hent2 u hu
        rw [hperm1] at hf
        exact ⟨e, he, hv, hf⟩
    · intro w hw
      have hw1 : VirtPageNum.indexes w ≠ VirtPageNum.indexes v :=
        hw v (List.mem_cons_self v rest)
      have hwr : ∀ u ∈ rest,
          VirtPageNum.indexes w ≠ VirtPageNum.indexes u :=
        fun u hu => hw u (List.mem_cons_of_mem v hu)
      obtain ⟨ha1, hv1⟩ := hpres1 w hw1
      obtain ⟨ha2, hv2⟩ := hpres2 w hwr
      exact ⟨fun ha => ha2 (ha1 ha), fun e he hv => hv2 e (hv1 e he hv) hv⟩

theorem MemorySet.push_spec (s : MachineState) (ms : MemorySet)
    (a : MapArea) (data : Option (List Nat)) (s' : MachineState)
    (ms' : MemorySet)
    (inv : PTInv s ms.root)
    (hp : a.map_perm ||| 1 < 2 ^ 8)
    (hhi : a.ve ≤ 2 ^ 27)
    (h : MemorySet.push s ms a data = some (s', ms')) :
    PTInv s' ms.root ∧ ms'.root = ms.root ∧
    (∀ v ∈ rangeList a.vs a.ve, absentPte s ms.root v = true) ∧
    (∀ v ∈ rangeList a.vs a.ve, ∃ e,
      PageTable.find_pte s' ms.root v = some e ∧
      PageTableEntry.is_valid e = true ∧
      PageTableEntry.flags e = a.map_perm ||| 1) ∧
    (∀ w, (∀ v ∈ rangeList a.vs a.ve,
        VirtPageNum.indexes w ≠ VirtPageNum.indexes v) →
      (absentPte s ms.root w = true → absentPte s' ms.root w = true) ∧
      (∀ e, PageTable.find_pte s ms.root w = some e →
        PageTableEntry.is_valid e = true →
        PageTable.find_pte s' ms.root w = some e)) := by
  unfold MemorySet.push MapArea.mapAll at h
  rcases hmap : MapArea.mapLoop ms.root s a (rangeList a.vs a.ve)
      with _ | ⟨s1, a1⟩
  · rw [hmap] at h
    exact absurd h (by simp)
  rw [hmap] at h
  simp only [Option.some_bind] at h
  obtain ⟨inv1, habs1, hent1, hpres1⟩ := mapLoop_spec ms.root
    (rangeList a.vs a.ve) s a s1 a1 inv
    (rangeList_pairwise_indexes a.vs a.ve hhi) hp hmap
  have hout : ∃ s2, s2.mem = s1.mem ∧ s2.fa = s1.fa ∧ s2 = s' := by
    cases hd : data with
    | none =>
      rw [hd] at h
      dsimp only [] at h
      simp only [Option.map_some', Option.some.injEq, Prod.mk.injEq] at h
      exact ⟨s1, rfl, rfl, h.1⟩
    | some d =>
      rw [hd] at h
      dsimp only [] at h
      rcases hc : MapArea.copy_data s1 ms.root a1 d with _ | s2
      · rw [hc] at h
        exact absurd h (by simp)
      · rw [hc] at h
        simp only [Option.map_some', Option.some.injEq, Prod.mk.injEq] at h
        obtain ⟨hm, hf⟩ := copy_data_shape s1 ms.root a1 d s2 hc
        exact ⟨s2, hm, hf, h.1⟩
  obtain ⟨s2, hm2, hf2, hs2'⟩ := hout
  have hfp2 : ∀ w, PageTable.find_pte s' ms.root w
      = PageTable.find_pte s1 ms.root w := by
    intro w
    rw [← hs2']
    exact find_pte_congr_mem s1 s2 ms.root hm2 w
  have hroot : ms'.root = ms.root := by
    cases hd : data with
    | none =>
      rw [hd] at h
      dsimp only [] at h
      simp only [Option.map_some', Option.some.injEq, Prod.mk.injEq] at h
      rw [← h.2]
    | some d =>
      rw [hd] at h
      dsimp only [] at h
      rcases hc : MapArea.copy_data s1 ms.root a1 d with _ | s2x
      · rw [hc] at h
        exact absurd h (by simp)
      · rw [hc] at h
        simp only [Option.map_some', Option.some.injEq, Prod.mk.injEq] at h
        rw [← h.2]
  refine ⟨?_, hroot, habs1, ?_, ?_⟩
  · rw [← hs2']
    exact PTInv_congr_mem_fa s1 s2 ms.root hm2 hf2 inv1
  · intro v hv
    obtain ⟨e, he, hval, hfl⟩ := hent1 v hv
    refine ⟨e, ?_, hval, hfl⟩
    rw [hfp2 v]
    exact he
  · intro w hw
    obtain ⟨ha1, hv1⟩ := hpres1 w hw
    constructor
    · intro ha
      have := ha1 ha
      unfold absentPte at this ⊢
      rw [hfp2 w]
      exact this
    · intro e he hval
      rw [hfp2 w]
      exact hv1 e he hval

theorem segOK_facts (lo : Nat) (sg : Seg) (h : segOK lo sg = true) :
    sg.vaddr % PAGE_SIZE = 0 ∧
    sg.vaddr + sg.mem_size + PAGE_SIZE ≤ USIZE ∧
    lo ≤ sg.vaddr / PAGE_SIZE ∧
    VirtAddr.ceil ((sg.vaddr + sg.mem_size) % USIZE) < 2 ^ 27 := by
  unfold segOK at h
  simp only [Bool.and_eq_true, beq_iff_eq, Nat.ble_eq, Nat.blt_eq] at h
  exact ⟨h.1.1.1, h.1.1.2, h.1.2, h.2⟩

theorem segPerm_facts (sg : Seg) :
    segPerm sg ||| 1 < 2 ^ 8 ∧ segPerm sg &&& MapPermission.U ≠ 0 := by
  unfold segPerm
  cases sg.isR <;> cases sg.isW <;> cases sg.isX <;>
    simp [MapPermission.U, MapPermission.R, MapPermission.W, MapPermission.X]

theorem indexes_ne_of_ne (v w : Nat) (hv : v < 2 ^ 27) (hw : w < 2 ^ 27)
    (h : v ≠ w) : VirtPageNum.indexes v ≠ VirtPageNum.indexes w :=
  fun hc => h (indexes_inj v w hv hw hc)

theorem segsOK_pages (segs : List Seg) :
    ∀ lo, segsOK lo segs = true →
    lo ≤ elfMaxEnd lo segs ∧
    (∀ sg ∈ segs, sg.isLoad = true →
      ∀ v ∈ rangeList (VirtAddr.floor sg.vaddr)
          (VirtAddr.ceil ((sg.vaddr + sg.mem_size) % USIZE)),
        lo ≤ v ∧ v < elfMaxEnd lo segs ∧ v < 2 ^ 27) := by
  induction segs with
  | nil =>
    intro lo _
    exact ⟨le_rfl, fun sg hsg => absurd hsg (List.not_mem_nil sg)⟩
  | cons sg rest ih =>
    intro lo h
    replace h : (if sg.isLoad then
        segOK lo sg &&
          segsOK (VirtAddr.ceil ((sg.vaddr + sg.mem_size) % USIZE)) rest
      else segsOK lo rest) = true := h
    by_cases hl : sg.isLoad
    · rw [if_pos hl] at h
      simp only [Bool.and_eq_true] at h
      obtain ⟨hok, hrest⟩ := h
      obtain ⟨hal, hno, hlovs, hlt27⟩ := segOK_facts lo sg hok
      have hvle : VirtAddr.floor sg.vaddr
          ≤ VirtAddr.ceil ((sg.vaddr + sg.mem_size) % USIZE) :=
        mmap_range_le sg.vaddr sg.mem_size hno
      obtain ⟨hmle, hall⟩ :=
        ih (VirtAddr.ceil ((sg.vaddr + sg.mem_size) % USIZE)) hrest
      have hme : elfMaxEnd lo (sg :: rest)
          = elfMaxEnd (VirtAddr.ceil ((sg.vaddr + sg.mem_size) % USIZE))
            rest := by
        show elfMaxEnd (if sg.isLoad then
          VirtAddr.ceil ((sg.vaddr + sg.mem_size) % USIZE) else lo) rest = _
        rw [if_pos hl]
      have hlovs2 : lo ≤ VirtAddr.floor sg.vaddr := hlovs
      constructor
      · rw [hme]
        exact le_trans (le_trans hlovs2 hvle) hmle
      · intro sg' hsg' hload' v hv
        rcases List.mem_cons.mp hsg' with rfl | hsg'
        · obtain ⟨h1, h2⟩ := (mem_rangeList _ _ v).mp hv
          refine ⟨le_trans hlovs2 h1, ?_, lt_trans h2 hlt27⟩
          rw [hme]
          exact lt_of_lt_of_le h2 hmle
        · obtain ⟨h1, h2, h3⟩ := hall sg' hsg' hload' v hv
          refine ⟨le_trans (le_trans hlovs2 hvle) h1, ?_, h3⟩
          rw [hme]
          exact h2
    · rw [if_neg hl] at h
      obtain ⟨hmle, hall⟩ := ih lo h
      have hme : elfMaxEnd lo (sg :: rest) = elfMaxEnd lo rest := by
        show elfMaxEnd (if sg.isLoad then
          VirtAddr.ceil ((sg.vaddr + sg.mem_size) % USIZE) else lo) rest = _
        rw [if_neg hl]
      constructor
      · rw [hme]
        exact hmle
      · intro sg' hsg' hload' v hv
        rcases List.mem_cons.mp hsg' with rfl | hsg'
        · exact absurd hload' hl
        · obtain ⟨h1, h2, h3⟩ := hall sg' hsg' hload' v hv
          refine ⟨h1, ?_, h3⟩
          rw [hme]
          exact h2

set_option maxHeartbeats 1000000 in
theorem elfSegsLoop_spec (root : Nat) (segs : List Seg) :
    ∀ s ms maxEnd s2 ms2 maxEnd2,
    PTInv s root → ms.root = root →
    segsOK maxEnd segs = true →
    elfSegsLoop s ms maxEnd segs = some (s2, ms2, maxEnd2) →
    PTInv s2 root ∧ ms2.root = root ∧
    maxEnd2 = elfMaxEnd maxEnd segs ∧
    (∀ sg ∈ segs, sg.isLoad = true →
      ∀ v ∈ rangeList (VirtAddr.floor sg.vaddr)
          (VirtAddr.ceil ((sg.vaddr + sg.mem_size) % USIZE)),
        ∃ e, PageTable.find_pte s2 root v = some e ∧
          PageTableEntry.is_valid e = true ∧
          PageTableEntry.flags e = segPerm sg ||| 1) ∧
    (∀ w, (∀ sg ∈ segs, sg.isLoad = true →
        ∀ v ∈ rangeList (VirtAddr.floor sg.vaddr)
            (VirtAddr.ceil ((sg.vaddr + sg.mem_size) % USIZE)),
          VirtPageNum.indexes w ≠ VirtPageNum.indexes v) →
      (absentPte s root w = true → absentPte s2 root w = true) ∧
      (∀ e, PageTable.find_pte s root w = some e →
        PageTableEntry.is_valid e = true →
        PageTable.find_pte s2 root w = some e)) := by
  induction segs with
  | nil =>
    intro s ms maxEnd s2 ms2 maxEnd2 inv hroot _ h
    replace h : some (s, ms, maxEnd) = some (s2, ms2, maxEnd2) := h
    simp only [Option.some.injEq, Prod.mk.injEq] at h
    obtain ⟨hs, hm, hmx⟩ := h
    rw [← hs, ← hm, ← hmx]
    exact ⟨inv, hroot, rfl,
      fun sg hsg => absurd hsg (List.not_mem_nil sg),
      fun w _ => ⟨id, fun e he _ => he⟩⟩
  | cons sg rest ih =>
    intro s ms maxEnd s2 ms2 maxEnd2 inv hroot hok h
    replace hok : (if sg.isLoad then
        segOK maxEnd sg &&
          segsOK (VirtAddr.ceil ((sg.vaddr + sg.mem_size) % USIZE)) rest
      else segsOK maxEnd rest) = true := hok
    replace h : (if sg.isLoad then
        (MapArea.new sg.vaddr ((sg.vaddr + sg.mem_size) % USIZE)
            MapType.Framed (segPerm sg)).bind fun a =>
          (MemorySet.push s ms a (some sg.data)).bind fun r =>
            elfSegsLoop r.1 r.2 a.ve rest
      else elfSegsLoop s ms maxEnd rest) = some (s2, ms2, maxEnd2) := h
    by_cases hl : sg.isLoad = true
    · rw [if_pos hl] at h hok
      simp only [Bool.and_eq_true] at hok
      obtain ⟨hsegok, hrest⟩ := hok
      obtain ⟨hal, hno, hlovs, hlt27⟩ := segOK_facts maxEnd sg hsegok
      have hvle : VirtAddr.floor sg.vaddr
          ≤ VirtAddr.ceil ((sg.vaddr + sg.mem_size) % USIZE) :=
        mmap_range_le sg.vaddr sg.mem_size hno
      have hnew : MapArea.new sg.vaddr ((sg.vaddr + sg.mem_size) % USIZE)
          MapType.Framed (segPerm sg) = some ⟨VirtAddr.floor sg.vaddr,
            VirtAddr.ceil ((sg.vaddr + sg.mem_size) % USIZE), [],
            MapType.Framed, segPerm sg⟩ := by
        unfold MapArea.new
        rw [if_pos hvle]
      rw [hnew] at h
      simp only [Option.some_bind] at h
      rcases hpush : MemorySet.push s ms ⟨VirtAddr.floor sg.vaddr,
          VirtAddr.ceil ((sg.vaddr + sg.mem_size) % USIZE), [],
          MapType.Framed, segPerm sg⟩ (some sg.data) with _ | ⟨s1, ms1⟩
      · rw [hpush] at h
        exact absurd h (by simp)
      rw [hpush] at h
      simp only [Option.some_bind] at h
      replace h : elfSegsLoop s1 ms1
          (VirtAddr.ceil ((sg.vaddr + sg.mem_size) % USIZE)) rest
          = some (s2, ms2, maxEnd2) := h
      have invms : PTInv s ms.root := by
        rw [hroot]
        exact inv
      obtain ⟨Pinv, Proot, Pabs, Pent, Ppres⟩ :=
        MemorySet.push_spec s ms _ (some sg.data) s1 ms1 invms
          (segPerm_facts sg).1 (le_of_lt hlt27) hpush
      replace Pinv : PTInv s1 root := by
        rw [← hroot]
        exact Pinv
      replace Proot : ms1.root = root := Proot.trans hroot
      replace Pent : ∀ v ∈ rangeList (VirtAddr.floor sg.vaddr)
          (VirtAddr.ceil ((sg.vaddr + sg.mem_size) % USIZE)),
          ∃ e, PageTable.find_pte s1 root v = some e ∧
            PageTableEntry.is_valid e = true ∧
            PageTableEntry.flags e = segPerm sg ||| 1 := by
        rw [← hroot]
        exact Pent
      replace Ppres : ∀ w, (∀ v ∈ rangeList (VirtAddr.floor sg.vaddr)
          (VirtAddr.ceil ((sg.vaddr + sg.mem_size) % USIZE)),
          VirtPageNum.indexes w ≠ VirtPageNum.indexes v) →
          (absentPte s root w = true → absentPte s1 root w = true) ∧
          (∀ e, PageTable.find_pte s root w = some e →
            PageTableEntry.is_valid e = true →
            PageTable.find_pte s1 root w = some e) := by
        rw [← hroot]
        exact Ppres
      obtain ⟨Iinv, Iroot, Imax, Ient, Ipres⟩ := ih s1 ms1
        (VirtAddr.ceil ((sg.vaddr + sg.mem_size) % USIZE)) s2 ms2 maxEnd2
        Pinv Proot hrest h
      obtain ⟨SPle, SPall⟩ := segsOK_pages rest
        (VirtAddr.ceil ((sg.vaddr + sg.mem_size) % USIZE)) hrest
      have hme : elfMaxEnd maxEnd (sg :: rest)
          = elfMaxEnd (VirtAddr.ceil ((sg.vaddr + sg.mem_size) % USIZE))
            rest := by
        show elfMaxEnd (if sg.isLoad then
          VirtAddr.ceil ((sg.vaddr + sg.mem_size) % USIZE) else maxEnd)
          rest = _
        rw [if_pos hl]
      refine ⟨Iinv, Iroot, ?_, ?_, ?_⟩
      · rw [hme]
        exact Imax
      · intro sg' hsg' hload' v hv
        rcases List.mem_cons.mp hsg' with rfl | hsg'
        · obtain ⟨e, he, hval, hfl⟩ := Pent v hv
          obtain ⟨hv1, hv2⟩ := (mem_rangeList _ _ v).mp hv
          have hcond : ∀ sg2 ∈ rest, sg2.isLoad = true →
              ∀ u ∈ rangeList (VirtAddr.floor sg2.vaddr)
                (VirtAddr.ceil ((sg2.vaddr + sg2.mem_size) % USIZE)),
              VirtPageNum.indexes v ≠ VirtPageNum.indexes u := by
            intro sg2 hsg2 hload2 u hu
            obtain ⟨hu1, hu2, hu3⟩ := SPall sg2 hsg2 hload2 u hu
            exact indexes_ne_of_ne v u (lt_trans hv2 hlt27) hu3
              (by omega)
          exact ⟨e, (Ipres v hcond).2 e he hval, hval, hfl⟩
        · exact Ient sg' hsg' hload' v hv
      · intro w hw
        have hwhead := hw sg (List.mem_cons_self sg rest) hl
        have hwrest : ∀ sg2 ∈ rest, sg2.isLoad = true →
            ∀ u ∈ rangeList (VirtAddr.floor sg2.vaddr)
              (VirtAddr.ceil ((sg2.vaddr + sg2.mem_size) % USIZE)),
            VirtPageNum.indexes w ≠ VirtPageNum.indexes u :=
          fun sg2 hsg2 => hw sg2 (List.mem_cons_of_mem sg hsg2)
        obtain ⟨ha1, hv1⟩ := Ppres w hwhead
        obtain ⟨ha2, hv2⟩ := Ipres w hwrest
        exact ⟨fun ha => ha2 (ha1 ha),
          fun e he hval => hv2 e (hv1 e he hval) hval⟩
    · rw [if_neg hl] at h hok
      obtain ⟨Iinv, Iroot, Imax, Ient, Ipres⟩ := ih s ms maxEnd s2 ms2
        maxEnd2 inv hroot hok h
      have hme : elfMaxEnd maxEnd (sg :: rest) = elfMaxEnd maxEnd rest := by
        show elfMaxEnd (if sg.isLoad then
          VirtAddr.ceil ((sg.vaddr + sg.mem_size) % USIZE) else maxEnd)
          rest = _
        rw [if_neg hl]
      refine ⟨Iinv, Iroot, ?_, ?_, ?_⟩
      · rw [hme]
        exact Imax
      · intro sg' hsg' hload' v hv
        rcases List.mem_cons.mp hsg' with rfl | hsg'
        · exact absurd hload' hl
        · exact Ient sg' hsg' hload' v hv
      · intro w hw
        exact Ipres w (fun sg2 hsg2 => hw sg2 (List.mem_cons_of_mem sg hsg2))

theorem segPerm_or_one_U (sg : Seg) :
    (segPerm sg ||| 1) &&& MapPermission.U ≠ 0 := by
  unfold segPerm
  cases sg.isR <;> cases sg.isW <;> cases sg.isX <;> decide

set_option maxHeartbeats 1600000 in
/-- C8 (amended): `MemorySet::from_elf`, run on a fresh frame allocator
with page-aligned, non-overflowing `Load` headers in ascending address
order that fit below the trap context, (a) maps every page of every `Load`
segment with the header's `R`/`W`/`X` bits plus `U` (and the Valid bit),
(b) leaves the guard page just after the last segment unmapped, (c) maps
the user stack pages directly above the guard page with `R|W|U` and
returns the user stack top, (d) maps the trap-context pages `[TRAP_CONTEXT,
TRAMPOLINE)` with `R|W`, and (e) returns the ELF entry point.  The claim's
original reading - any distinct page-aligned ranges - fails: `max_end_vpn`
tracks only the last header, so descending headers make the user stack
collide with an earlier segment and `from_elf` panics. -/
theorem from_elf_layout (s : MachineState)
    (trampoline trap_context user_stack_size strampoline : Nat)
    (segs : List Seg) (entry : Nat)
    (sF : MachineState) (msF : MemorySet) (usp en : Nat)
    (hrec : s.fa.recycled = []) (hcur : s.fa.current ≤ s.fa.ends)
    (hends : s.fa.ends ≤ 2 ^ 44)
    (hsegs : segsOK 0 segs = true)
    (huss : user_stack_size % PAGE_SIZE = 0)
    (hfit : elfMaxEnd 0 segs + 1 + user_stack_size / PAGE_SIZE
      ≤ trap_context / PAGE_SIZE)
    (htc : trap_context % PAGE_SIZE = 0)
    (htr : trampoline % PAGE_SIZE = 0)
    (htcr : trap_context < trampoline)
    (htr27 : trampoline / PAGE_SIZE < 2 ^ 27)
    (htrno : trampoline + PAGE_SIZE ≤ USIZE)
    (h : MemorySet.from_elf s trampoline trap_context user_stack_size
      strampoline segs entry = some (sF, msF, usp, en)) :
    (∀ sg ∈ segs, sg.isLoad = true →
      ∀ v ∈ rangeList (VirtAddr.floor sg.vaddr)
          (VirtAddr.ceil ((sg.vaddr + sg.mem_size) % USIZE)),
        ∃ e, PageTable.find_pte sF msF.root v = some e ∧
          PageTableEntry.is_valid e = true ∧
          PageTableEntry.flags e = segPerm sg ||| 1 ∧
          PageTableEntry.flags e &&& MapPermission.U ≠ 0) ∧
    absentPte sF msF.root (elfMaxEnd 0 segs) = true ∧
    (∀ v ∈ rangeList (elfMaxEnd 0 segs + 1)
        (elfMaxEnd 0 segs + 1 + user_stack_size / PAGE_SIZE),
      ∃ e, PageTable.find_pte sF msF.root v = some e ∧
        PageTableEntry.is_valid e = true ∧
        PageTableEntry.flags e =
          (MapPermission.R ||| MapPermission.W ||| MapPermission.U) ||| 1) ∧
    usp = (elfMaxEnd 0 segs + 1) * PAGE_SIZE + user_stack_size ∧
    (∀ v ∈ rangeList (trap_context / PAGE_SIZE) (trampoline / PAGE_SIZE),
      ∃ e, PageTable.find_pte sF msF.root v = some e ∧
        PageTableEntry.is_valid e = true ∧
        PageTableEntry.flags e = (MapPermission.R ||| MapPermission.W) ||| 1) ∧
    en = entry := by
  have htcle : trap_context / PAGE_SIZE ≤ trampoline / PAGE_SIZE :=
    Nat.div_le_div_right (le_of_lt htcr)
  have hMfit : elfMaxEnd 0 segs + 1 + user_stack_size / PAGE_SIZE
      ≤ trampoline / PAGE_SIZE := le_trans hfit htcle
  have hM27 : elfMaxEnd 0 segs + 1 + user_stack_size / PAGE_SIZE < 2 ^ 27 :=
    lt_of_le_of_lt hMfit htr27
  have huss4 : user_stack_size % 4096 = 0 := by
    simpa [PAGE_SIZE] using huss
  unfold MemorySet.from_elf at h
  rcases hn0 : PageTable.new s with _ | r0p
  · rw [hn0] at h
    exact absurd h (by simp)
  obtain ⟨r0, s0⟩ := r0p
  rw [hn0] at h
  simp only [Option.some_bind] at h
  obtain ⟨inv0, habs0⟩ := PageTable.new_spec s r0 s0 hrec hcur hends hn0
  have htal : VirtAddr.aligned trampoline = true := by
    unfold VirtAddr.aligned
    rw [page_offset_eq_mod, htr]
    rfl
  have htva : VirtPageNum.fromVa trampoline
      = some (trampoline / PAGE_SIZE) := by
    unfold VirtPageNum.fromVa
    rw [if_pos htal]
    rfl
  rw [htva] at h
  simp only [Option.some_bind] at h
  rcases hspa : PhysPageNum.fromPa strampoline with _ | sppn
  · rw [hspa] at h
    exact absurd h (by simp)
  rw [hspa] at h
  simp only [Option.some_bind] at h
  rcases hm1 : PageTable.map s0 r0 (trampoline / PAGE_SIZE) sppn
      (MapPermission.R ||| MapPermission.X) with _ | s1
  · rw [hm1] at h
    exact absurd h (by simp)
  rw [hm1] at h
  simp only [Option.some_bind] at h
  obtain ⟨inv1, hend1, hcur1, habsT, hfT, pres1⟩ :=
    PageTable.map_spec s0 r0 (trampoline / PAGE_SIZE) sppn
      (MapPermission.R ||| MapPermission.X) s1 inv0 hm1
  rcases hloop : elfSegsLoop s1 ⟨r0, []⟩ 0 segs with _ | r1p
  · rw [hloop] at h
    exact absurd h (by simp)
  obtain ⟨s2, ms2, maxEnd2⟩ := r1p
  rw [hloop] at h
  simp only [Option.some_bind] at h
  obtain ⟨inv2, hroot2, hmax2, hsegEnt, pres2⟩ :=
    elfSegsLoop_spec r0 segs s1 ⟨r0, []⟩ 0 s2 ms2 maxEnd2 inv1 rfl hsegs hloop
  subst hmax2
  have hM27b : elfMaxEnd 0 segs < 2 ^ 27 :=
    lt_of_le_of_lt (le_trans (Nat.le_add_right _ 1) (Nat.le_add_right _ _))
      hM27
  have hM52 : elfMaxEnd 0 segs < 2 ^ 52 := lt_trans hM27b (by norm_num)
  have hbot : (VirtAddr.fromVpn (elfMaxEnd 0 segs) + PAGE_SIZE) % USIZE
      = (elfMaxEnd 0 segs + 1) * PAGE_SIZE := by
    rw [fromVpn_eq _ hM52]
    have h1 := hM27
    simp only [PAGE_SIZE, USIZE] at h1 ⊢
    rw [Nat.mod_eq_of_lt (by omega)]
    ring
  have htop : ((elfMaxEnd 0 segs + 1) * PAGE_SIZE + user_stack_size) % USIZE
      = (elfMaxEnd 0 segs + 1) * PAGE_SIZE + user_stack_size := by
    have h1 := hM27
    simp only [PAGE_SIZE, USIZE] at h1 ⊢
    rw [Nat.mod_eq_of_lt (by omega)]
  rw [hbot, htop] at h
  have hsfloor : VirtAddr.floor ((elfMaxEnd 0 segs + 1) * PAGE_SIZE)
      = elfMaxEnd 0 segs + 1 := by
    unfold VirtAddr.floor
    simp only [PAGE_SIZE]
    omega
  have hsceil : VirtAddr.ceil
      ((elfMaxEnd 0 segs + 1) * PAGE_SIZE + user_stack_size)
      = elfMaxEnd 0 segs + 1 + user_stack_size / PAGE_SIZE := by
    rw [ceil_eq_of_no_overflow]
    · simp only [PAGE_SIZE]
      omega
    · have h1 := hM27
      simp only [PAGE_SIZE, USIZE] at h1 ⊢
      omega
  have hsa : MapArea.new ((elfMaxEnd 0 segs + 1) * PAGE_SIZE)
      ((elfMaxEnd 0 segs + 1) * PAGE_SIZE + user_stack_size)
      MapType.Framed
      (MapPermission.R ||| MapPermission.W ||| MapPermission.U)
      = some ⟨elfMaxEnd 0 segs + 1,
          elfMaxEnd 0 segs + 1 + user_stack_size / PAGE_SIZE, [],
          MapType.Framed,
          MapPermission.R ||| MapPermission.W ||| MapPermission.U⟩ := by
    unfold MapArea.new
    rw [hsfloor, hsceil, if_pos (Nat.le_add_right _ _)]
  rw [hsa] at h
  simp only [Option.some_bind] at h
  rcases hp1 : MemorySet.push s2 ms2 ⟨elfMaxEnd 0 segs + 1,
      elfMaxEnd 0 segs + 1 + user_stack_size / PAGE_SIZE, [],
      MapType.Framed,
      MapPermission.R ||| MapPermission.W ||| MapPermission.U⟩ none
      with _ | r2p
  · rw [hp1] at h
    exact absurd h (by simp)
  obtain ⟨s3, ms3⟩ := r2p
  rw [hp1] at h
  simp only [Option.some_bind] at h
  obtain ⟨inv3, hroot3, hpre3, hent3, pres3⟩ :=
    MemorySet.push_spec s2 ms2 _ none s3 ms3
      (by rw [hroot2]; exact inv2)
      (by
        show MapPermission.R ||| MapPermission.W ||| MapPermission.U ||| 1
          < 2 ^ 8
        decide)
      (le_of_lt hM27) hp1
  have htcceil : VirtAddr.ceil trampoline = trampoline / PAGE_SIZE := by
    rw [ceil_eq_of_no_overflow trampoline htrno]
    have h1 := htr
    simp only [PAGE_SIZE] at h1 ⊢
    omega
  have hta : MapArea.new trap_context trampoline MapType.Framed
      (MapPermission.R ||| MapPermission.W)
      = some ⟨trap_context / PAGE_SIZE, trampoline / PAGE_SIZE, [],
          MapType.Framed, MapPermission.R ||| MapPermission.W⟩ := by
    unfold MapArea.new
    rw [htcceil,
      if_pos (show VirtAddr.floor trap_context ≤ trampoline / PAGE_SIZE
        from htcle)]
    rfl
  rw [hta] at h
  simp only [Option.some_bind] at h
  rcases hp2 : MemorySet.push s3 ms3 ⟨trap_context / PAGE_SIZE,
      trampoline / PAGE_SIZE, [], MapType.Framed,
      MapPermission.R ||| MapPermission.W⟩ none with _ | r3p
  · rw [hp2] at h
    exact absurd h (by simp)
  obtain ⟨s4, ms4⟩ := r3p
  rw [hp2] at h
  simp only [Option.map_some', Option.some.injEq, Prod.mk.injEq] at h
  obtain ⟨hsF, hmsF, husp, hen⟩ := h
  obtain ⟨inv4, hroot4, hpre4, hent4, pres4⟩ :=
    MemorySet.push_spec s3 ms3 _ none s4 ms4
      (by rw [hroot3, hroot2]; rw [hroot2] at inv3; exact inv3)
      (by
        show MapPermission.R ||| MapPermission.W ||| 1 < 2 ^ 8
        decide)
      (le_of_lt htr27) hp2
  have hrF : ms4.root = r0 := by
    rw [hroot4, hroot3, hroot2]
  rw [← hsF, ← hmsF, ← husp, ← hen, hrF]
  rw [hroot2] at hpre3 hent3 pres3
  rw [hroot3, hroot2] at hpre4 hent4 pres4
  obtain ⟨hMge, hSP⟩ := segsOK_pages segs 0 hsegs
  obtain ⟨K, hK⟩ : ∃ x, user_stack_size / PAGE_SIZE = x := ⟨_, rfl⟩
  rw [hK] at hfit hMfit hM27 hent3 pres3 ⊢
  obtain ⟨TC, hTC⟩ : ∃ x, trap_context / PAGE_SIZE = x := ⟨_, rfl⟩
  rw [hTC] at hfit htcle hent4 pres4 ⊢
  obtain ⟨TR, hTR⟩ : ∃ x, trampoline / PAGE_SIZE = x := ⟨_, rfl⟩
  rw [hTR] at htcle htr27 hMfit pres1 hent4 pres4 ⊢
  refine ⟨?_, ?_, ?_, rfl, ?_, rfl⟩
  · intro sg hsg hload v hv
    obtain ⟨e, he2, hval, hfl⟩ := hsegEnt sg hsg hload v hv
    obtain ⟨h0v, hvM, hv27⟩ := hSP sg hsg hload v hv
    have hstep3 : PageTable.find_pte s3 r0 v = some e := by
      refine (pres3 v ?_).2 e he2 hval
      intro u hu
      replace hu : u ∈ rangeList (elfMaxEnd 0 segs + 1)
          (elfMaxEnd 0 segs + 1 + K) := hu
      obtain ⟨hu1, hu2⟩ := (mem_rangeList _ _ u).mp hu
      exact indexes_ne_of_ne v u hv27 (by omega) (by omega)
    have hstep4 : PageTable.find_pte s4 r0 v = some e := by
      refine (pres4 v ?_).2 e hstep3 hval
      intro u hu
      replace hu : u ∈ rangeList TC TR := hu
      obtain ⟨hu1, hu2⟩ := (mem_rangeList _ _ u).mp hu
      exact indexes_ne_of_ne v u hv27 (by omega) (by omega)
    exact ⟨e, hstep4, hval, hfl, by rw [hfl]; exact segPerm_or_one_U sg⟩
  · have ha1 : absentPte s1 r0 (elfMaxEnd 0 segs) = true := by
      refine (pres1 (elfMaxEnd 0 segs) ?_).1 (habs0 _)
      exact indexes_ne_of_ne _ _ (by omega) (by omega) (by omega)
    have ha2 : absentPte s2 r0 (elfMaxEnd 0 segs) = true := by
      refine (pres2 (elfMaxEnd 0 segs) ?_).1 ha1
      intro sg hsg hload v hv
      obtain ⟨h0v, hvM, hv27⟩ := hSP sg hsg hload v hv
      exact indexes_ne_of_ne _ _ (by omega) hv27 (by omega)
    have ha3 : absentPte s3 r0 (elfMaxEnd 0 segs) = true := by
      refine (pres3 (elfMaxEnd 0 segs) ?_).1 ha2
      intro u hu
      replace hu : u ∈ rangeList (elfMaxEnd 0 segs + 1)
          (elfMaxEnd 0 segs + 1 + K) := hu
      obtain ⟨hu1, hu2⟩ := (mem_rangeList _ _ u).mp hu
      exact indexes_ne_of_ne _ _ (by omega) (by omega) (by omega)
    refine (pres4 (elfMaxEnd 0 segs) ?_).1 ha3
    intro u hu
    replace hu : u ∈ rangeList TC TR := hu
    obtain ⟨hu1, hu2⟩ := (mem_rangeList _ _ u).mp hu
    exact indexes_ne_of_ne _ _ (by omega) (by omega) (by omega)
  · intro v hv
    obtain ⟨e, he3, hval, hfl⟩ := hent3 v hv
    obtain ⟨hv1, hv2⟩ := (mem_rangeList _ _ v).mp hv
    refine ⟨e, ?_, hval, hfl⟩
    refine (pres4 v ?_).2 e he3 hval
    intro u hu
    replace hu : u ∈ rangeList TC TR := hu
    obtain ⟨hu1, hu2⟩ := (mem_rangeList _ _ u).mp hu
    exact indexes_ne_of_ne v u (by omega) (by omega) (by omega)
  · intro v hv
    obtain ⟨e, he4, hval, hfl⟩ := hent4 v hv
    exact ⟨e, he4, hval, hfl⟩

/-- C8 counterexample: two `Load` segments that are page-aligned,
non-overflowing and disjoint (each passes `segOK` over its own pages) but
listed in descending address order.  `max_end_vpn` ends at the last
header's range end (page 2), so the user stack lands on pages 3 and 4 and
collides with the first segment's page 3; `map` hits the valid leaf,
the assertion fails, and `from_elf` panics instead of returning a layout. -/
theorem from_elf_descending_counterexample :
    segOK 3 (⟨12288, 4096, true, false, true, true, []⟩ : Seg) = true ∧
    segOK 1 (⟨4096, 4096, true, true, false, true, []⟩ : Seg) = true ∧
    (MemorySet.from_elf zeroMachine 65536 61440 8192 409600
        [⟨12288, 4096, true, false, true, true, []⟩,
         ⟨4096, 4096, true, true, false, true, []⟩] 77).isNone = true := by
  refine ⟨by decide, by decide, by decide⟩

set_option maxRecDepth 8192 in
set_option maxHeartbeats 1000000 in
/-- C8 witness: a concrete two-segment ELF (pages 1 and 3-4, ascending) on
a fresh machine.  `from_elf` succeeds; page 5 (the guard page) is unmapped,
the user stack top is `6 * 4096 + 8192`, the entry point is returned, the
first segment's page carries `U`, and stack page 6 is validly mapped. -/
theorem from_elf_layout_witness :
    ∃ sF msF usp en,
      MemorySet.from_elf zeroMachine 65536 61440 8192 409600
          [⟨4096, 4096, true, false, true, true, []⟩,
           ⟨12288, 8192, true, true, false, true, [7, 8, 9]⟩] 77
        = some (sF, msF, usp, en) ∧
      absentPte sF msF.root 5 = true ∧
      usp = 6 * 4096 + 8192 ∧ en = 77 ∧
      (∃ e, PageTable.find_pte sF msF.root 1 = some e ∧
        PageTableEntry.is_valid e = true ∧
        PageTableEntry.flags e &&& MapPermission.U ≠ 0) ∧
      (∃ e, PageTable.find_pte sF msF.root 6 = some e ∧
        PageTableEntry.is_valid e = true) := by
  have hsome : (MemorySet.from_elf zeroMachine 65536 61440 8192 409600
      [⟨4096, 4096, true, false, true, true, []⟩,
       ⟨12288, 8192, true, true, false, true, [7, 8, 9]⟩] 77).isSome
      = true := by decide
  rcases hx : MemorySet.from_elf zeroMachine 65536 61440 8192 409600
      [⟨4096, 4096, true, false, true, true, []⟩,
       ⟨12288, 8192, true, true, false, true, [7, 8, 9]⟩] 77
      with _ | r
  · rw [hx] at hsome
    exact absurd hsome (by simp)
  obtain ⟨sF, msF, usp, en⟩ := r
  obtain ⟨hseg, hguard, hstack, husp, htc2, hen⟩ :=
    from_elf_layout zeroMachine 65536 61440 8192 409600
      [⟨4096, 4096, true, false, true, true, []⟩,
       ⟨12288, 8192, true, true, false, true, [7, 8, 9]⟩] 77
      sF msF usp en
      rfl (by decide) (by decide) (by decide) (by decide) (by decide)
      (by decide) (by decide) (by decide) (by decide) (by decide) hx
  refine ⟨sF, msF, usp, en, rfl, hguard, husp, hen, ?_, ?_⟩
  · obtain ⟨e, he, hval, hfl, hU⟩ :=
      hseg ⟨4096, 4096, true, false, true, true, []⟩ (by decide) rfl 1
        (by decide)
    exact ⟨e, he, hval, hU⟩
  · obtain ⟨e, he, hval, hfl⟩ := hstack 6 (by decide)
    exact ⟨e, he, hval⟩

end Os4
